import Mathlib

/-!
# Philips OGT (SVCD subtitle) renderer: `modules/codec/ogt/render.c`

A shallow embedding of `VCDSubRender`, `RenderI420` and `RenderRV16`.

Modelling conventions.

* C `int` values are unbounded `Int`: signed overflow is undefined behaviour in C and is not
  modelled.  The `uint16_t` and `uint8_t` conversions of the pixel arithmetic are explicit
  (`% 65536`, `% 256`).
* A pixel plane is a flat byte memory `Int → Nat`, addressed by the offset from `p_pixels`;
  the sample array `p_sys->p_data` is a flat memory `Int → ogt_yuvt_t`, addressed by the
  sample index.  Pointers are offsets into these memories.
* Loops take a bound `fuel` on the number of iterations of each loop; a loop that needs more
  iterations yields `none`.
* Besides the picture, a render yields a `log`: one `Event` per inner-loop iteration and per
  `msg_Err` call, in execution order.  The log is ghost state, the C code has no such list.
-/

namespace OGT

/-! ## Constants and types -/

/-- The number of bits of an alpha value (`#define ALPHA_BITS (4)`). -/
def ALPHA_BITS : Nat := 4

/-- The largest alpha value (`#define MAX_ALPHA ((1<<ALPHA_BITS) - 1)`). -/
def MAX_ALPHA : Nat := (1 <<< ALPHA_BITS) - 1

/-- The shift that scales a product back to 8 bits (`#define ALPHA_SCALEDOWN (8-ALPHA_BITS)`). -/
def ALPHA_SCALEDOWN : Nat := 8 - ALPHA_BITS

/-- Index of the luma plane. -/
def Y_PLANE : Nat := 0

/-- Index of the first chroma plane. -/
def U_PLANE : Nat := 1

/-- Index of the second chroma plane. -/
def V_PLANE : Nat := 2

/-- Modelled from the spec: the destination format tag.  The macro `VLC_FOURCC` is defined in a
VLC header that is not part of the sources at hand; it packs four characters into a 32-bit tag
(first character in the low byte). -/
def VLC_FOURCC (a b c d : Char) : Nat :=
  a.toNat + b.toNat * 2 ^ 8 + c.toNat * 2 ^ 16 + d.toNat * 2 ^ 24

/-- Modelled from the spec: a `Sample { luma, alpha }`.  The type `ogt_yuvt_t` is declared in
`subtitle.h`, which is not part of the sources at hand; `y` is `plane[Y_PLANE]` and `t` is `s.t`,
both `uint8_t`. -/
structure ogt_yuvt_t where
  y : Nat
  t : Nat
deriving DecidableEq, Repr

/-- The fields of `subpicture_sys_t` used by the renderer. -/
structure subpicture_sys_t where
  b_crop : Bool
  i_x_start : Int
  i_x_end : Int
  i_y_start : Int
  i_y_end : Int
  p_data : Int → ogt_yuvt_t

/-- The fields of `subpicture_t` used by the renderer. -/
structure subpicture_t where
  i_x : Int
  i_y : Int
  i_width : Int
  i_height : Int
  p_sys : subpicture_sys_t

/-- One plane of a picture: its bytes and its pitch. -/
structure plane_t where
  p_pixels : Int → Nat
  i_pitch : Int

/-- A picture: its planes `p[0]`, `p[1]`, ... -/
structure picture_t where
  p : Nat → plane_t

/-- The fields of `p_vout->output` and `p_vout->render` used by the renderer. -/
structure picture_heap_t where
  i_width : Int
  i_height : Int
  i_chroma : Nat

/-- The fields of `vout_thread_t` used by the renderer. -/
structure vout_thread_t where
  output : picture_heap_t
  render : picture_heap_t

/-- The calls of `msg_Err` in the renderer. -/
inductive ErrMsg where
  | rv24_not_implemented
  | yuv2_not_implemented
  | unknown_chroma
  | access_beyond_subtitle (x y h : Int)
deriving DecidableEq, Repr

/-- What one inner-loop iteration did (ghost state).
`skip i_x i_y`: the crop test took `continue` at loop counters `i_x`, `i_y`;
`transparent src`: sample `p_data[src]` was read and has alpha 0, no store;
`store src addr`: sample `p_data[src]` was read and the byte at offset `addr` was stored;
`err m`: `msg_Err` was called. -/
inductive Event where
  | skip (i_x i_y : Int)
  | transparent (src : Int)
  | store (src addr : Int)
  | err (m : ErrMsg)
deriving DecidableEq, Repr

/-- The result of a render call: the picture after the call and the log of the call. -/
structure Rendered where
  pic : picture_t
  log : List Event

/-- The crop window in loop-counter coordinates (`i_x_start`, `i_x_end`, `i_y_start`,
`i_y_end` local variables). -/
structure CropWindow where
  i_x_start : Int
  i_x_end : Int
  i_y_start : Int
  i_y_end : Int
deriving DecidableEq, Repr

/-- The crop test of the blit loops:
`b_crop && ( i_x < i_x_start || i_x > i_x_end || i_y < i_y_start || i_y > i_y_end )`. -/
def cropped (b_crop : Bool) (w : CropWindow) (i_x i_y : Int) : Prop :=
  b_crop = true ∧ (i_x < w.i_x_start ∨ i_x > w.i_x_end ∨ i_y < w.i_y_start ∨ i_y > w.i_y_end)

instance (b_crop : Bool) (w : CropWindow) (i_x i_y : Int) :
    Decidable (cropped b_crop w i_x i_y) := by
  unfold cropped; infer_instance

/-- Store byte `v` at offset `addr`. -/
def poke (pixels : Int → Nat) (addr : Int) (v : Nat) : Int → Nat :=
  fun a => if a = addr then v else pixels a

/-! ## RenderI420 -/

/-- The `switch( p_source->s.t )` of `RenderI420` (lines 164-204), as a function of the sample
and of the byte `*p_pixel` before the store: `none` when nothing is stored (case `0x00`),
otherwise the byte stored into `*p_pixel`. -/
def RenderI420.switch_t (p_source : ogt_yuvt_t) (pixel : Nat) : Option Nat :=
  if p_source.t = 0 then
    none
  else if p_source.t = MAX_ALPHA then
    let i_colprecomp : Nat := (p_source.y * MAX_ALPHA) % 65536
    some ((i_colprecomp >>> ALPHA_SCALEDOWN) % 256)
  else
    let i_colprecomp : Nat := (p_source.y * ((p_source.t + 1) % 65536)) % 65536
    let i_destalpha : Nat := (((MAX_ALPHA : Int) - (p_source.t : Int)) % 65536).toNat
    some (((i_colprecomp + (pixel % 65536) * i_destalpha) >>> ALPHA_SCALEDOWN) % 256)

/-- The value of a destination byte after the `switch( p_source->s.t )` of `RenderI420` has seen
a sample with luma `luma` and alpha `alpha` on a byte holding `dest`. -/
def blend (dest luma alpha : Nat) : Nat :=
  (RenderI420.switch_t ⟨luma, alpha⟩ dest).getD dest

/-- The loop state of `RenderI420`: the bytes of the luma plane, the sample pointer `p_source`
(as an index into `p_data`) and the log. -/
structure I420State where
  pixels : Int → Nat
  p_source : Int
  log : List Event

/-- The body of the inner loop of `RenderI420` (lines 154-204) at loop counters `i_x`, `i_y`. -/
def RenderI420.body (p_data : Int → ogt_yuvt_t) (b_crop : Bool) (p_pixel_base : Int)
    (w : CropWindow) (i_x i_y : Int) (st : I420State) : I420State :=
  if cropped b_crop w i_x i_y then
    { st with log := st.log ++ [Event.skip i_x i_y] }
  else
    let p_pixel : Int := p_pixel_base - i_x - i_y
    match RenderI420.switch_t (p_data st.p_source) (st.pixels p_pixel) with
    | none => { st with log := st.log ++ [Event.transparent st.p_source] }
    | some v =>
      { st with pixels := poke st.pixels p_pixel v,
                log := st.log ++ [Event.store st.p_source p_pixel] }

/-- The inner loop `for( i_x = p_spu->i_width ; i_x ; i_x--, p_source++ )`. -/
def RenderI420.loop_x (p_data : Int → ogt_yuvt_t) (b_crop : Bool) (p_pixel_base : Int)
    (w : CropWindow) (i_y : Int) : Nat → Int → I420State → Option I420State
  | 0, i_x, st => if i_x = 0 then some st else none
  | fuel + 1, i_x, st =>
    if i_x = 0 then some st
    else
      let st1 := RenderI420.body p_data b_crop p_pixel_base w i_x i_y st
      RenderI420.loop_x p_data b_crop p_pixel_base w i_y fuel (i_x - 1)
        { st1 with p_source := st1.p_source + 1 }

/-- The outer loop `for( i_y = i_height * i_pitch ; i_y ; i_y -= i_pitch )`. -/
def RenderI420.loop_y (p_data : Int → ogt_yuvt_t) (b_crop : Bool) (p_pixel_base : Int)
    (w : CropWindow) (i_width i_pitch : Int) (fuel_x : Nat) :
    Nat → Int → I420State → Option I420State
  | 0, i_y, st => if i_y = 0 then some st else none
  | fuel + 1, i_y, st =>
    if i_y = 0 then some st
    else
      match RenderI420.loop_x p_data b_crop p_pixel_base w i_y fuel_x i_width st with
      | none => none
      | some st1 =>
        RenderI420.loop_y p_data b_crop p_pixel_base w i_width i_pitch fuel_x fuel
          (i_y - i_pitch) st1

/-- The crop window of `RenderI420` (lines 134-140). -/
def RenderI420.window (p_pic : picture_t) (p_spu : subpicture_t) : CropWindow :=
  { i_x_start := p_spu.i_width - p_spu.p_sys.i_x_end
    i_y_start := (p_pic.p Y_PLANE).i_pitch * (p_spu.i_height - p_spu.p_sys.i_y_end)
    i_x_end := p_spu.i_width - p_spu.p_sys.i_x_start
    i_y_end := (p_pic.p Y_PLANE).i_pitch * (p_spu.i_height - p_spu.p_sys.i_y_start) }

/-- The pointer `p_pixel_base` of `RenderI420` (lines 131-132), as an offset from
`p_pic->p[Y_PLANE].p_pixels`. -/
def RenderI420.pixel_base (p_pic : picture_t) (p_spu : subpicture_t) : Int :=
  p_spu.i_x + p_spu.i_width + (p_pic.p Y_PLANE).i_pitch * (p_spu.i_y + p_spu.i_height)

/-- Replace the bytes of plane `i` of a picture. -/
def picture_t.setPixels (p_pic : picture_t) (i : Nat) (pixels : Int → Nat) : picture_t :=
  { p := fun j => if j = i then { p_pic.p i with p_pixels := pixels } else p_pic.p j }

/-- `RenderI420` (lines 109-308); the block under `#if FIXED` is not compiled. -/
def RenderI420 (fuel : Nat) (_p_vout : vout_thread_t) (p_pic : picture_t)
    (p_spu : subpicture_t) (b_crop : Bool) : Option Rendered :=
  let p_sys := p_spu.p_sys
  let p_pixel_base := RenderI420.pixel_base p_pic p_spu
  let w := RenderI420.window p_pic p_spu
  let i_pitch := (p_pic.p Y_PLANE).i_pitch
  match RenderI420.loop_y p_sys.p_data b_crop p_pixel_base w p_spu.i_width i_pitch fuel fuel
      (p_spu.i_height * i_pitch) ⟨(p_pic.p Y_PLANE).p_pixels, 0, []⟩ with
  | none => none
  | some st => some ⟨p_pic.setPixels Y_PLANE st.pixels, st.log⟩

/-! ## RenderRV16 -/

/-- The conversion `#define Y2RV16(val) ((uint16_t) (0x111 * (uint16_t) ( (val) >> 4 )))`. -/
def Y2RV16 (val : Nat) : Nat :=
  (0x111 * ((val >>> 4) % 65536)) % 65536

/-- The byte stored through `uint8_t *p_pixel` by the cases `MAX_ALPHA` and `default` of the
`switch( p_source->s.t )` of `RenderRV16` (lines 392-418 and 453-483), as a function of the
sample and of the byte `*p_pixel` before the store. -/
def RenderRV16.new_pixel (p_source : ogt_yuvt_t) (pixel : Nat) : Nat :=
  if p_source.t = MAX_ALPHA then
    let i_colprecomp : Nat := Y2RV16 p_source.y
    i_colprecomp % 256
  else
    let i_colprecomp : Nat := (Y2RV16 p_source.y * ((p_source.t + 1) % 65536)) % 65536
    let i_destalpha : Nat := (((MAX_ALPHA : Int) - (p_source.t : Int)) % 65536).toNat
    ((i_colprecomp + (pixel % 65536) * i_destalpha) >>> ALPHA_SCALEDOWN) % 256

/-- The loop state of `RenderRV16`: the bytes of the plane and the log. -/
structure RV16State where
  pixels : Int → Nat
  log : List Event

/-- How a piece of `RenderRV16` ends: it falls through (`next`) or executes `return` (`ret`). -/
inductive Flow where
  | next (st : RV16State)
  | ret (st : RV16State)

/-- The values `RenderRV16` computes before its loops (lines 317-349). -/
structure RV16Locals where
  p_data : Int → ogt_yuvt_t
  p_src_end : Int
  spu_width : Int
  i_pitch : Int
  b_crop : Bool
  i_xscale : Int
  i_yscale : Int
  i_width : Int
  i_height : Int
  p_pixel_base : Int
  w : CropWindow

/-- The values `RenderRV16` computes before its loops (lines 317-349); `p_pixel_base` is an
offset from `p_pic->p->p_pixels`, `p_src_end` an index into `p_data`; `<< 6` is the
multiplication by `2 ^ 6`, `>> 6` the arithmetic shift of an `Int` by a `Nat`, `/` the
truncating division of C. -/
def RenderRV16.locals (p_vout : vout_thread_t) (p_pic : picture_t) (p_spu : subpicture_t)
    (b_crop : Bool) : RV16Locals :=
  let i_xscale : Int := Int.tdiv (p_vout.output.i_width * 2 ^ 6) p_vout.render.i_width
  let i_yscale : Int := Int.tdiv (p_vout.output.i_height * 2 ^ 6) p_vout.render.i_height
  let i_width : Int := p_spu.i_width * i_xscale
  let i_height : Int := p_spu.i_height * i_yscale
  { p_data := p_spu.p_sys.p_data
    p_src_end := p_spu.i_height * p_spu.i_width
    spu_width := p_spu.i_width
    i_pitch := (p_pic.p 0).i_pitch
    b_crop := b_crop
    i_xscale := i_xscale
    i_yscale := i_yscale
    i_width := i_width
    i_height := i_height
    p_pixel_base := (i_width >>> (6 : Nat)) * 2 + ((p_spu.i_x * i_xscale) >>> (6 : Nat)) * 2
      + ((p_spu.i_y * i_yscale) >>> (6 : Nat)) * (p_pic.p 0).i_pitch
    w := { i_x_start := i_width - i_xscale * p_spu.p_sys.i_x_end
           i_y_start := i_yscale * p_spu.p_sys.i_y_start
           i_x_end := i_width - i_xscale * p_spu.p_sys.i_x_start
           i_y_end := i_yscale * p_spu.p_sys.i_y_end } }

/-- The loop `for( i_ytmp = i_yreal ; i_ytmp < i_ynext ; i_ytmp += p_pic->p->i_pitch )` of the
cases `MAX_ALPHA` and `default` of the several-lines branch (lines 454-460 and 464-482). -/
def RenderRV16.loop_lines (L : RV16Locals) (src : Int) (i_ynext : Int) :
    Nat → Int → RV16State → Option RV16State
  | 0, i_ytmp, st => if i_ytmp < i_ynext then none else some st
  | fuel + 1, i_ytmp, st =>
    if i_ytmp < i_ynext then
      let p_pixel : Int := L.p_pixel_base + i_ytmp
      RenderRV16.loop_lines L src i_ynext fuel (i_ytmp + L.i_pitch)
        { pixels := poke st.pixels p_pixel (RenderRV16.new_pixel (L.p_data src) (st.pixels p_pixel)),
          log := st.log ++ [Event.store src p_pixel] }
    else some st

/-- The body of the inner loop of the one-line branch of `RenderRV16` (lines 369-419), at loop
counters `i_x`, `i_y` (`i_y` already advanced by `i_yscale`). -/
def RenderRV16.body_one (L : RV16Locals) (i_y i_y_src i_yreal : Int) (i_x : Int)
    (st : RV16State) : Option Flow :=
  if cropped L.b_crop L.w i_x i_y then
    some (Flow.next { st with log := st.log ++ [Event.skip i_x i_y] })
  else
    let src : Int := i_y_src + Int.tdiv (L.i_width - i_x) L.i_xscale
    if src ≥ L.p_src_end then
      some (Flow.ret { st with log := st.log ++ [Event.err (ErrMsg.access_beyond_subtitle
        (Int.tdiv (L.i_width - i_x) L.i_xscale) (Int.tdiv i_y L.i_yscale) L.i_height)] })
    else if (L.p_data src).t = 0 then
      some (Flow.next { st with log := st.log ++ [Event.transparent src] })
    else
      let p_pixel : Int := L.p_pixel_base + i_yreal
      some (Flow.next
        { pixels := poke st.pixels p_pixel (RenderRV16.new_pixel (L.p_data src) (st.pixels p_pixel)),
          log := st.log ++ [Event.store src p_pixel] })

/-- The body of the inner loop of the several-lines branch of `RenderRV16` (lines 430-484). -/
def RenderRV16.body_more (L : RV16Locals) (fuel : Nat) (i_y i_y_src i_yreal i_ynext : Int)
    (i_x : Int) (st : RV16State) : Option Flow :=
  if cropped L.b_crop L.w i_x i_y then
    some (Flow.next { st with log := st.log ++ [Event.skip i_x i_y] })
  else
    let src : Int := i_y_src + Int.tdiv (L.i_width - i_x) L.i_xscale
    if src ≥ L.p_src_end then
      some (Flow.ret { st with log := st.log ++ [Event.err (ErrMsg.access_beyond_subtitle
        (Int.tdiv (L.i_width - i_x) L.i_xscale) (Int.tdiv i_y L.i_yscale) L.i_height)] })
    else if (L.p_data src).t = 0 then
      some (Flow.next { st with log := st.log ++ [Event.transparent src] })
    else
      (RenderRV16.loop_lines L src i_ynext fuel i_yreal st).map Flow.next

/-- The inner loops `for( i_x = i_width ; i_x ; i_x-- )` of `RenderRV16`, over either body. -/
def RenderRV16.loop_x (body : Int → RV16State → Option Flow) :
    Nat → Int → RV16State → Option Flow
  | 0, i_x, st => if i_x = 0 then some (Flow.next st) else none
  | fuel + 1, i_x, st =>
    if i_x = 0 then some (Flow.next st)
    else
      match body i_x st with
      | none => none
      | some (Flow.ret st1) => some (Flow.ret st1)
      | some (Flow.next st1) => RenderRV16.loop_x body fuel (i_x - 1) st1

/-- The outer loop `for( i_y = 0 ; i_y < i_height ; )` of `RenderRV16` (lines 352-487). -/
def RenderRV16.loop_y (L : RV16Locals) (fuel_in : Nat) : Nat → Int → RV16State → Option Flow
  | 0, i_y, st => if i_y < L.i_height then none else some (Flow.next st)
  | fuel + 1, i_y, st =>
    if i_y < L.i_height then
      let i_y_src : Int := Int.tdiv i_y L.i_yscale * L.spu_width
      let i_ytmp : Int := i_y >>> (6 : Nat)
      let i_y1 : Int := i_y + L.i_yscale
      let i_yreal : Int := L.i_pitch * i_ytmp
      let row : Option Flow :=
        if i_ytmp + 1 ≥ i_y1 >>> (6 : Nat) then
          RenderRV16.loop_x (RenderRV16.body_one L i_y1 i_y_src i_yreal) fuel_in L.i_width st
        else
          let i_ynext : Int := (L.i_pitch * i_y1) >>> (6 : Nat)
          RenderRV16.loop_x (RenderRV16.body_more L fuel_in i_y1 i_y_src i_yreal i_ynext)
            fuel_in L.i_width st
      match row with
      | none => none
      | some (Flow.ret st1) => some (Flow.ret st1)
      | some (Flow.next st1) => RenderRV16.loop_y L fuel_in fuel i_y1 st1
    else some (Flow.next st)

/-- `RenderRV16` (lines 312-488). -/
def RenderRV16 (fuel : Nat) (p_vout : vout_thread_t) (p_pic : picture_t)
    (p_spu : subpicture_t) (b_crop : Bool) : Option Rendered :=
  let L := RenderRV16.locals p_vout p_pic p_spu b_crop
  match RenderRV16.loop_y L fuel fuel 0 ⟨(p_pic.p 0).p_pixels, []⟩ with
  | none => none
  | some (Flow.ret st) => some ⟨p_pic.setPixels 0 st.pixels, st.log⟩
  | some (Flow.next st) => some ⟨p_pic.setPixels 0 st.pixels, st.log⟩

/-! ## VCDSubRender -/

/-- `VCDSubRender` (lines 68-105): dispatch on the chroma of the output. -/
def VCDSubRender (fuel : Nat) (p_vout : vout_thread_t) (p_pic : picture_t)
    (p_spu : subpicture_t) : Option Rendered :=
  let i_chroma := p_vout.output.i_chroma
  if i_chroma = VLC_FOURCC 'I' '4' '2' '0' ∨ i_chroma = VLC_FOURCC 'I' 'Y' 'U' 'V'
      ∨ i_chroma = VLC_FOURCC 'Y' 'V' '1' '2' then
    RenderI420 fuel p_vout p_pic p_spu p_spu.p_sys.b_crop
  else if i_chroma = VLC_FOURCC 'R' 'V' '1' '6' then
    RenderRV16 fuel p_vout p_pic p_spu p_spu.p_sys.b_crop
  else if i_chroma = VLC_FOURCC 'R' 'V' '2' '4' ∨ i_chroma = VLC_FOURCC 'R' 'V' '3' '2' then
    some ⟨p_pic, [Event.err ErrMsg.rv24_not_implemented]⟩
  else if i_chroma = VLC_FOURCC 'Y' 'U' 'Y' '2' then
    some ⟨p_pic, [Event.err ErrMsg.yuv2_not_implemented]⟩
  else
    some ⟨p_pic, [Event.err ErrMsg.unknown_chroma]⟩

/-! ## The blend rule of the specification -/

/-- The three-case AlphaBlend rule as the specification words it (section 4.1), over the
unbounded naturals: `alpha == 0` gives `dest`, `alpha == MAX` gives `(luma * MAX) >> SCALEDOWN`,
otherwise `((luma * (alpha + 1)) + dest * (MAX - alpha)) >> SCALEDOWN`, with `MAX = 15` and
`SCALEDOWN = 4`. -/
def spec_blend (dest luma alpha : Nat) : Nat :=
  if alpha = 0 then dest
  else if alpha = 15 then (luma * 15) >>> 4
  else ((luma * (alpha + 1)) + dest * (15 - alpha)) >>> 4

/-! ## Reading the log -/

/-- The log entry of the iteration of the inner loop of `RenderI420` at loop counters `i_x`,
`i_y` with `p_source` at index `src`: what `RenderI420.body` appends to the log. -/
def RenderI420.event (p_data : Int → ogt_yuvt_t) (b_crop : Bool) (p_pixel_base : Int)
    (w : CropWindow) (i_x i_y src : Int) : Event :=
  if cropped b_crop w i_x i_y then Event.skip i_x i_y
  else if (p_data src).t = 0 then Event.transparent src
  else Event.store src (p_pixel_base - i_x - i_y)

/-- The stores of a log, in order: the pairs (sample index, byte offset). -/
def stores : List Event → List (Int × Int)
  | [] => []
  | Event.store src addr :: l => (src, addr) :: stores l
  | Event.skip _ _ :: l => stores l
  | Event.transparent _ :: l => stores l
  | Event.err _ :: l => stores l

/-- The crop box of the subpicture holds the overlay position row `r`, column `c`, both ends of
both ranges included. -/
def in_crop_box (p_sys : subpicture_sys_t) (r c : Int) : Prop :=
  p_sys.i_x_start ≤ c ∧ c ≤ p_sys.i_x_end ∧ p_sys.i_y_start ≤ r ∧ r ≤ p_sys.i_y_end

instance (p_sys : subpicture_sys_t) (r c : Int) : Decidable (in_crop_box p_sys r c) := by
  unfold in_crop_box; infer_instance

/-- The byte offset, in the luma plane, of the picture position under the overlay position
row `r`, column `c`: row `i_y + r`, column `i_x + c`. -/
def luma_offset (p_pic : picture_t) (p_spu : subpicture_t) (r c : Int) : Int :=
  (p_pic.p Y_PLANE).i_pitch * (p_spu.i_y + r) + (p_spu.i_x + c)

/-- The log entry of `RenderI420` for the overlay position row `r`, column `c`, in overlay
coordinates: the loop counters there are `i_x = i_width - c` and
`i_y = i_pitch * (i_height - r)`, and `p_source` is at index `r * i_width + c`. -/
def RenderI420.event_at (p_pic : picture_t) (p_spu : subpicture_t) (b_crop : Bool)
    (r c : Int) : Event :=
  if b_crop = true ∧ ¬ in_crop_box p_spu.p_sys r c then
    Event.skip (p_spu.i_width - c) ((p_pic.p Y_PLANE).i_pitch * (p_spu.i_height - r))
  else if (p_spu.p_sys.p_data (r * p_spu.i_width + c)).t = 0 then
    Event.transparent (r * p_spu.i_width + c)
  else Event.store (r * p_spu.i_width + c) (luma_offset p_pic p_spu r c)

/-! ## The end-to-end examples of the specification -/

/-- An output whose chroma is I420. -/
def example_vout : vout_thread_t :=
  { output := { i_width := 4, i_height := 4, i_chroma := VLC_FOURCC 'I' '4' '2' '0' }
    render := { i_width := 4, i_height := 4, i_chroma := VLC_FOURCC 'I' '4' '2' '0' } }

/-- A picture whose planes all have the given pitch and hold the byte `fill` everywhere. -/
def filled_picture (i_pitch : Int) (fill : Nat) : picture_t :=
  { p := fun _ => { p_pixels := fun _ => fill, i_pitch := i_pitch } }

/-- End-to-end example A: a 4x4 overlay at the origin, every sample `{luma: 200, alpha: 15}`,
crop disabled. -/
def exampleA_spu : subpicture_t :=
  { i_x := 0, i_y := 0, i_width := 4, i_height := 4
    p_sys := { b_crop := false, i_x_start := 0, i_x_end := 0, i_y_start := 0, i_y_end := 0
               p_data := fun _ => ⟨200, 15⟩ } }

/-- End-to-end example B: a 4x4 overlay at the origin, a checkerboard of `{luma: 200, alpha: 0}`
(where row + column is even) and `{luma: 200, alpha: 15}`, crop disabled. -/
def exampleB_spu : subpicture_t :=
  { i_x := 0, i_y := 0, i_width := 4, i_height := 4
    p_sys := { b_crop := false, i_x_start := 0, i_x_end := 0, i_y_start := 0, i_y_end := 0
               p_data := fun k => ⟨200, if (k / 4 + k % 4) % 2 = 0 then 0 else 15⟩ } }

/-- An overlay of the given size at the origin, every sample `{luma: 200, alpha: 15}`, crop
enabled with the given crop box. -/
def solid_spu (i_width i_height x_start x_end y_start y_end : Int) : subpicture_t :=
  { i_x := 0, i_y := 0, i_width := i_width, i_height := i_height
    p_sys := { b_crop := true, i_x_start := x_start, i_x_end := x_end, i_y_start := y_start
               i_y_end := y_end, p_data := fun _ => ⟨200, 15⟩ } }

/-! ## Crop settings -/

/-- The subpicture with crop enabled and the crop box of the full overlay:
`i_x_start = 0`, `i_x_end = i_width`, `i_y_start = 0`, `i_y_end = i_height`. -/
def with_full_crop (p_spu : subpicture_t) : subpicture_t :=
  { p_spu with
    p_sys :=
      { p_spu.p_sys with
        b_crop := true
        i_x_start := 0
        i_x_end := p_spu.i_width
        i_y_start := 0
        i_y_end := p_spu.i_height } }

/-- The subpicture with crop disabled. -/
def without_crop (p_spu : subpicture_t) : subpicture_t :=
  { p_spu with p_sys := { p_spu.p_sys with b_crop := false } }

/-! ## Outcomes and reads -/

/-- Modelled from the spec: the outcome of a render call (section 4.5). `VCDSubRender` returns
`void`; what the specification calls the outcome is what the call reports through `msg_Err`. -/
inductive Outcome where
  | Ok
  | SkippedUnsupportedFormat
  | AbortedOutOfBounds
deriving DecidableEq, Repr

/-- Modelled from the spec: the outcome of a call, read off the first `msg_Err` of its log: the
message of the bounds check of `RenderRV16` is `AbortedOutOfBounds`, a message of the dispatch
is `SkippedUnsupportedFormat`, no message is `Ok`. -/
def outcome : List Event → Outcome
  | [] => Outcome.Ok
  | Event.err (ErrMsg.access_beyond_subtitle _ _ _) :: _ => Outcome.AbortedOutOfBounds
  | Event.err ErrMsg.rv24_not_implemented :: _ => Outcome.SkippedUnsupportedFormat
  | Event.err ErrMsg.yuv2_not_implemented :: _ => Outcome.SkippedUnsupportedFormat
  | Event.err ErrMsg.unknown_chroma :: _ => Outcome.SkippedUnsupportedFormat
  | Event.skip _ _ :: l => outcome l
  | Event.transparent _ :: l => outcome l
  | Event.store _ _ :: l => outcome l

/-- The samples a log reads, in order: the sample indices of its `transparent` and `store`
entries (a skipped iteration reads no sample). -/
def reads : List Event → List Int
  | [] => []
  | Event.store src _ :: l => src :: reads l
  | Event.transparent src :: l => src :: reads l
  | Event.skip _ _ :: l => reads l
  | Event.err _ :: l => reads l

/-- What the log entries of a call of `RenderRV16` that never takes the bounds-check branch look
like: a skip needs crop enabled; a sample that is read lies in the sample array, has alpha 0
if nothing is stored and a non-zero alpha if a byte is stored; the byte stored lies a whole
number of pitches from `p_pixel_base`; there is no message. -/
def RV16_good (L : RV16Locals) : Event → Prop
  | Event.skip _ _ => L.b_crop = true
  | Event.transparent src => 0 ≤ src ∧ src < L.p_src_end ∧ (L.p_data src).t = 0
  | Event.store src addr => 0 ≤ src ∧ src < L.p_src_end ∧ (L.p_data src).t ≠ 0
      ∧ ∃ m : Int, addr = L.p_pixel_base + L.i_pitch * m
  | Event.err _ => False

/-- The invariant of the loops of `RenderRV16` over a plane that held `px0` at the start: every
log entry is as `RV16_good` says, and a byte differs from `px0` only where the log has a
store. -/
def RV16_inv (L : RV16Locals) (px0 : Int → Nat) (s : RV16State) : Prop :=
  (∀ e ∈ s.log, RV16_good L e)
    ∧ ∀ a : Int, (∀ src : Int, (src, a) ∉ stores s.log) → s.pixels a = px0 a

/-- An output whose chroma is RV16 and whose output size is its render size: the scale factors
of `RenderRV16` are both 64. -/
def identity_vout : vout_thread_t :=
  { output := { i_width := 4, i_height := 4, i_chroma := VLC_FOURCC 'R' 'V' '1' '6' }
    render := { i_width := 4, i_height := 4, i_chroma := VLC_FOURCC 'R' 'V' '1' '6' } }

/-- An overlay of the given size at the origin, every sample `{luma: 255, alpha: 15}`, with
the given crop setting and crop box. -/
def white_spu (i_width i_height : Int) (b_crop : Bool) (x_start x_end y_start y_end : Int) :
    subpicture_t :=
  { i_x := 0, i_y := 0, i_width := i_width, i_height := i_height
    p_sys := { b_crop := b_crop, i_x_start := x_start, i_x_end := x_end, i_y_start := y_start
               i_y_end := y_end, p_data := fun _ => ⟨255, 15⟩ } }

/-- An overlay of the given size at the origin, every sample `{luma: 200, alpha: 0}`, with the
given crop setting and crop box. -/
def clear_spu (i_width i_height : Int) (b_crop : Bool) (x_start x_end y_start y_end : Int) :
    subpicture_t :=
  { i_x := 0, i_y := 0, i_width := i_width, i_height := i_height
    p_sys := { b_crop := b_crop, i_x_start := x_start, i_x_end := x_end, i_y_start := y_start
               i_y_end := y_end, p_data := fun _ => ⟨200, 0⟩ } }

/-! ## The lines `RenderRV16` fills -/

/-- The values the counter `i_ytmp` takes in the loop
`for( i_ytmp = i_yreal ; i_ytmp < i_ynext ; i_ytmp += p_pic->p->i_pitch )`: the line offsets,
from `p_pixel_base`, at which `RenderRV16.loop_lines` stores. -/
def RenderRV16.line_offsets (i_pitch i_ynext : Int) : Nat → Int → List Int
  | 0, _ => []
  | fuel + 1, i_ytmp =>
    if i_ytmp < i_ynext then
      i_ytmp :: RenderRV16.line_offsets i_pitch i_ynext fuel (i_ytmp + i_pitch)
    else []

/-- The line offsets, from `p_pixel_base`, at which the iteration of the outer loop of
`RenderRV16` entered at counter `i_y` stores a sample that is neither cropped nor transparent
(lines 355-365 and 422-428): `i_yreal` alone in the one-line branch, the values of `i_ytmp`
from `i_yreal` up to `i_ynext` in the several-lines branch. -/
def RenderRV16.row_offsets (L : RV16Locals) (fuel : Nat) (i_y : Int) : List Int :=
  let i_ytmp : Int := i_y >>> (6 : Nat)
  let i_y1 : Int := i_y + L.i_yscale
  let i_yreal : Int := L.i_pitch * i_ytmp
  if i_ytmp + 1 ≥ i_y1 >>> (6 : Nat) then [i_yreal]
  else RenderRV16.line_offsets L.i_pitch ((L.i_pitch * i_y1) >>> (6 : Nat)) fuel i_yreal

/-- The log entries of one iteration of an inner loop of `RenderRV16` at loop counters `i_x`,
`i_y` (`i_y` already advanced by `i_yscale`), when the lines to fill are at `offsets`: what
`RenderRV16.body_one` and `RenderRV16.body_more` append to the log. -/
def RenderRV16.events (L : RV16Locals) (offsets : List Int) (i_y i_y_src i_x : Int) :
    List Event :=
  if cropped L.b_crop L.w i_x i_y then [Event.skip i_x i_y]
  else
    let src : Int := i_y_src + Int.tdiv (L.i_width - i_x) L.i_xscale
    if src ≥ L.p_src_end then
      [Event.err (ErrMsg.access_beyond_subtitle
        (Int.tdiv (L.i_width - i_x) L.i_xscale) (Int.tdiv i_y L.i_yscale) L.i_height)]
    else if (L.p_data src).t = 0 then [Event.transparent src]
    else offsets.map (fun off => Event.store src (L.p_pixel_base + off))

/-- An output whose chroma is RV16, as wide as its render size (`i_xscale = 64`) and `i_height`
lines high against a render height of 4 lines: `i_yscale = (i_height << 6) / 4`. -/
def tall_vout (i_height : Int) : vout_thread_t :=
  { output := { i_width := 4, i_height := i_height, i_chroma := VLC_FOURCC 'R' 'V' '1' '6' }
    render := { i_width := 4, i_height := 4, i_chroma := VLC_FOURCC 'R' 'V' '1' '6' } }

/-! # Theorems -/

/-! ## The blend arithmetic of `RenderI420` -/

theorem switch_t_zero (luma dest : Nat) : RenderI420.switch_t ⟨luma, 0⟩ dest = none := by
  simp [RenderI420.switch_t]

theorem switch_t_max (luma dest : Nat) (hl : luma < 256) :
    RenderI420.switch_t ⟨luma, 15⟩ dest = some (luma * 15 / 16) := by
  have h1 : luma * 15 % 65536 = luma * 15 := Nat.mod_eq_of_lt (by omega)
  have h2 : luma * 15 / 16 % 256 = luma * 15 / 16 := Nat.mod_eq_of_lt (by omega)
  simp [RenderI420.switch_t, MAX_ALPHA, ALPHA_BITS, ALPHA_SCALEDOWN, Nat.shiftRight_eq_div_pow,
    h1, h2]

theorem switch_t_mid (luma dest alpha : Nat) (hl : luma < 256) (hd : dest < 256)
    (h1 : 1 ≤ alpha) (h14 : alpha ≤ 14) :
    RenderI420.switch_t ⟨luma, alpha⟩ dest
      = some ((luma * (alpha + 1) + dest * (15 - alpha)) / 16) := by
  have hA : luma * (alpha + 1) ≤ 255 * (alpha + 1) := Nat.mul_le_mul_right _ (by omega)
  have hB : dest * (15 - alpha) ≤ 255 * (15 - alpha) := Nat.mul_le_mul_right _ (by omega)
  have e0 : (alpha + 1) % 65536 = alpha + 1 := Nat.mod_eq_of_lt (by omega)
  have e1 : luma * (alpha + 1) % 65536 = luma * (alpha + 1) := Nat.mod_eq_of_lt (by omega)
  have e2 : dest % 65536 = dest := Nat.mod_eq_of_lt (by omega)
  have e3 : (((15 : Int) - (alpha : Int)) % 65536).toNat = 15 - alpha := by omega
  have e4 : (luma * (alpha + 1) + dest * (15 - alpha)) / 16 % 256
      = (luma * (alpha + 1) + dest * (15 - alpha)) / 16 := Nat.mod_eq_of_lt (by omega)
  have n0 : alpha ≠ 0 := by omega
  have n15 : alpha ≠ 15 := by omega
  simp [RenderI420.switch_t, MAX_ALPHA, ALPHA_BITS, ALPHA_SCALEDOWN, Nat.shiftRight_eq_div_pow,
    e0, e1, e2, e3, e4, n0, n15]

theorem blend_mid (luma dest alpha : Nat) (hl : luma < 256) (hd : dest < 256)
    (h1 : 1 ≤ alpha) (h14 : alpha ≤ 14) :
    blend dest luma alpha = (luma * (alpha + 1) + dest * (15 - alpha)) / 16 := by
  simp [blend, switch_t_mid luma dest alpha hl hd h1 h14]

theorem blend_max (luma dest : Nat) (hl : luma < 256) :
    blend dest luma 15 = luma * 15 / 16 := by
  simp [blend, switch_t_max luma dest hl]

theorem blend_zero (luma dest : Nat) : blend dest luma 0 = dest := by
  simp [blend, switch_t_zero]

/-- On bytes and 4-bit alphas the blend of the code is the blend rule of the specification. -/
theorem spec_blend_eq (luma dest alpha : Nat) (hl : luma < 256) (hd : dest < 256)
    (ha : alpha ≤ 15) : spec_blend dest luma alpha = blend dest luma alpha := by
  by_cases h0 : alpha = 0
  · subst h0; simp [spec_blend, blend_zero]
  by_cases h15 : alpha = 15
  · subst h15; simp [spec_blend, blend_max luma dest hl, Nat.shiftRight_eq_div_pow]
  · rw [blend_mid luma dest alpha hl hd (by omega) (by omega)]
    simp [spec_blend, h0, h15, Nat.shiftRight_eq_div_pow]

/-! ## The loops of `RenderI420` -/

theorem switch_t_eq_none_iff (s : ogt_yuvt_t) (pixel : Nat) :
    RenderI420.switch_t s pixel = none ↔ s.t = 0 := by
  unfold RenderI420.switch_t
  by_cases h0 : s.t = 0
  · simp [h0]
  · by_cases h1 : s.t = MAX_ALPHA <;> simp [h0, h1]

theorem body_p_source (p_data : Int → ogt_yuvt_t) (b_crop : Bool) (base : Int) (w : CropWindow)
    (i_x i_y : Int) (st : I420State) :
    (RenderI420.body p_data b_crop base w i_x i_y st).p_source = st.p_source := by
  unfold RenderI420.body
  split
  · rfl
  · dsimp only
    split <;> rfl

theorem body_log (p_data : Int → ogt_yuvt_t) (b_crop : Bool) (base : Int) (w : CropWindow)
    (i_x i_y : Int) (st : I420State) :
    (RenderI420.body p_data b_crop base w i_x i_y st).log
      = st.log ++ [RenderI420.event p_data b_crop base w i_x i_y st.p_source] := by
  unfold RenderI420.body RenderI420.event
  split
  · rfl
  · dsimp only
    split
    · next h => rw [switch_t_eq_none_iff] at h; simp [h]
    · next v h =>
      have : (p_data st.p_source).t ≠ 0 := by
        intro h0
        rw [(switch_t_eq_none_iff _ _).2 h0] at h
        exact Option.noConfusion h
      simp [this]

theorem body_pixels (p_data : Int → ogt_yuvt_t) (b_crop : Bool) (base : Int) (w : CropWindow)
    (i_x i_y : Int) (st : I420State) (a : Int) :
    (RenderI420.body p_data b_crop base w i_x i_y st).pixels a
      = if a = base - i_x - i_y ∧ ¬ cropped b_crop w i_x i_y then
          blend (st.pixels a) (p_data st.p_source).y (p_data st.p_source).t
        else st.pixels a := by
  unfold RenderI420.body
  split
  · next hc => simp [hc]
  · next hc =>
    dsimp only
    split
    · next h =>
      by_cases ha : a = base - i_x - i_y
      · subst ha; simp [hc, blend, h]
      · simp [ha]
    · next v h =>
      by_cases ha : a = base - i_x - i_y
      · subst ha; simp [hc, blend, h, poke]
      · simp [ha, poke]

/-- The inner loop of `RenderI420` from `i_x = n`: it ends, having advanced `p_source` by `n`,
logged one event per iteration and blended the `n` bytes of the line. -/
theorem loop_x_run (p_data : Int → ogt_yuvt_t) (b_crop : Bool) (base : Int) (w : CropWindow)
    (i_y : Int) : ∀ (n fuel : Nat) (st : I420State), n ≤ fuel →
    ∃ st1, RenderI420.loop_x p_data b_crop base w i_y fuel (n : Int) st = some st1
      ∧ st1.p_source = st.p_source + n
      ∧ st1.log = st.log ++ (List.range n).map (fun j : Nat =>
          RenderI420.event p_data b_crop base w ((n : Int) - j) i_y (st.p_source + j))
      ∧ ∀ a : Int, st1.pixels a =
          if 1 ≤ base - i_y - a ∧ base - i_y - a ≤ n ∧ ¬ cropped b_crop w (base - i_y - a) i_y then
            blend (st.pixels a) (p_data (st.p_source + (n - (base - i_y - a)))).y
              (p_data (st.p_source + (n - (base - i_y - a)))).t
          else st.pixels a := by
  intro n
  induction n with
  | zero =>
    intro fuel st _
    refine ⟨st, ?_, by simp, by simp, ?_⟩
    · cases fuel <;> simp [RenderI420.loop_x]
    · intro a
      have : ¬ (1 ≤ base - i_y - a ∧ base - i_y - a ≤ ((0 : Nat) : Int)
          ∧ ¬ cropped b_crop w (base - i_y - a) i_y) := by
        rintro ⟨h1, h2, _⟩; omega
      rw [if_neg this]
  | succ n ih =>
    intro fuel st hf
    obtain ⟨f, rfl⟩ : ∃ f, fuel = f + 1 := ⟨fuel - 1, by omega⟩
    simp only [Nat.cast_add, Nat.cast_one]
    have hne : (n : Int) + 1 ≠ 0 := by omega
    have hpred : (n : Int) + 1 - 1 = (n : Int) := by omega
    obtain ⟨st1, hrun, hsrc, hlog, hpix⟩ := ih f
      ⟨(RenderI420.body p_data b_crop base w ((n : Int) + 1) i_y st).pixels,
        (RenderI420.body p_data b_crop base w ((n : Int) + 1) i_y st).p_source + 1,
        (RenderI420.body p_data b_crop base w ((n : Int) + 1) i_y st).log⟩ (by omega)
    simp only [body_p_source, body_log] at hsrc hlog hpix
    refine ⟨st1, ?_, ?_, ?_, ?_⟩
    · rw [RenderI420.loop_x, if_neg hne, hpred]
      exact hrun
    · rw [hsrc]; ring
    · rw [hlog, List.range_succ_eq_map, List.map_cons, List.map_map, List.append_assoc]
      congr 1
      simp only [List.singleton_append, Nat.cast_zero, sub_zero, add_zero]
      congr 1
      apply List.map_congr_left
      intro j _
      simp only [Function.comp, Nat.succ_eq_add_one, Nat.cast_add, Nat.cast_one]
      congr 1
      · ring
      · ring
    · intro a
      rw [hpix a, body_pixels]
      by_cases hd : base - i_y - a = (n : Int) + 1
      · have ha : a = base - ((n : Int) + 1) - i_y := by omega
        have hn : ¬ (1 ≤ base - i_y - a ∧ base - i_y - a ≤ (n : Int)
            ∧ ¬ cropped b_crop w (base - i_y - a) i_y) := by
          rintro ⟨_, h2, _⟩; omega
        rw [if_neg hn, hd]
        have e0 : st.p_source + ((n : Int) + 1 - ((n : Int) + 1)) = st.p_source := by ring
        rw [e0]
        by_cases hc : cropped b_crop w ((n : Int) + 1) i_y
        · rw [if_neg (by tauto), if_neg (by tauto)]
        · rw [if_pos ⟨ha, hc⟩, if_pos ⟨by omega, le_refl _, hc⟩]
      · have ha : ¬ (a = base - ((n : Int) + 1) - i_y ∧ ¬ cropped b_crop w ((n : Int) + 1) i_y) := by
          rintro ⟨h, _⟩; omega
        have e1 : st.p_source + 1 + ((n : Int) - (base - i_y - a))
            = st.p_source + ((n : Int) + 1 - (base - i_y - a)) := by ring
        rw [if_neg ha, e1]
        by_cases hcond : 1 ≤ base - i_y - a ∧ base - i_y - a ≤ (n : Int)
            ∧ ¬ cropped b_crop w (base - i_y - a) i_y
        · rw [if_pos hcond, if_pos ⟨hcond.1, by omega, hcond.2.2⟩]
        · rw [if_neg hcond, if_neg]
          rintro ⟨h1, h2, h3⟩
          exact hcond ⟨h1, by omega, h3⟩

/-- The outer loop of `RenderI420` from `i_y = i_pitch * m`: it ends, having advanced `p_source`
by `m * W`, logged one event per sample in raster order and left unchanged every byte outside
the `m` lines; when the lines do not overlap (`W ≤ i_pitch`) each byte of the lines is blended
once. -/
theorem loop_y_run (p_data : Int → ogt_yuvt_t) (b_crop : Bool) (base : Int) (w : CropWindow)
    (W : Nat) (pitch : Int) (hp : 0 < pitch) (fuel_x : Nat) (hWf : W ≤ fuel_x) :
    ∀ (m fuel : Nat) (st : I420State), m ≤ fuel →
    ∃ st1, RenderI420.loop_y p_data b_crop base w (W : Int) pitch fuel_x fuel (pitch * m) st
        = some st1
      ∧ st1.p_source = st.p_source + m * W
      ∧ st1.log = st.log ++ (List.range m).flatMap (fun i : Nat =>
          (List.range W).map (fun j : Nat =>
            RenderI420.event p_data b_crop base w ((W : Int) - j) (pitch * ((m : Int) - i))
              (st.p_source + i * W + j)))
      ∧ (∀ a : Int, (∀ k i_x : Int, 1 ≤ k → k ≤ m → 1 ≤ i_x → i_x ≤ W →
            a ≠ base - i_x - pitch * k) → st1.pixels a = st.pixels a)
      ∧ ((W : Int) ≤ pitch → ∀ k i_x : Int, 1 ≤ k → k ≤ m → 1 ≤ i_x → i_x ≤ W →
          st1.pixels (base - i_x - pitch * k) =
            if cropped b_crop w i_x (pitch * k) then st.pixels (base - i_x - pitch * k)
            else blend (st.pixels (base - i_x - pitch * k))
              (p_data (st.p_source + ((m : Int) - k) * W + (W - i_x))).y
              (p_data (st.p_source + ((m : Int) - k) * W + (W - i_x))).t) := by
  intro m
  induction m with
  | zero =>
    intro fuel st _
    refine ⟨st, ?_, by simp, by simp, fun _ _ => rfl, ?_⟩
    · cases fuel <;> simp [RenderI420.loop_y]
    · intro _ k i_x h1 h2
      have : k ≤ 0 := by simpa using h2
      omega
  | succ m ih =>
    intro fuel st hf
    obtain ⟨f, rfl⟩ : ∃ f, fuel = f + 1 := ⟨fuel - 1, by omega⟩
    simp only [Nat.cast_add, Nat.cast_one]
    have hm0 : (0 : Int) ≤ (m : Int) := Int.ofNat_nonneg m
    have hpm : 0 ≤ pitch * (m : Int) := mul_nonneg (le_of_lt hp) hm0
    have hexp : pitch * ((m : Int) + 1) = pitch * m + pitch := by ring
    have hne : pitch * ((m : Int) + 1) ≠ 0 := by omega
    have hpred : pitch * ((m : Int) + 1) - pitch = pitch * m := by omega
    obtain ⟨str, hrow, hrsrc, hrlog, hrpix⟩ :=
      loop_x_run p_data b_crop base w (pitch * ((m : Int) + 1)) W fuel_x st hWf
    obtain ⟨st1, hrun, hsrc, hlog, hframe, hpix⟩ := ih f str (by omega)
    refine ⟨st1, ?_, ?_, ?_, ?_, ?_⟩
    · rw [RenderI420.loop_y, if_neg hne, hrow]
      dsimp only
      rw [hpred]
      exact hrun
    · rw [hsrc, hrsrc]; ring
    · rw [hlog, hrlog, hrsrc, List.range_succ_eq_map, List.flatMap_cons, List.flatMap_map,
        List.append_assoc]
      congr 1
      congr 1
      · apply List.map_congr_left
        intro j _
        simp only [Nat.cast_zero, sub_zero, zero_mul, add_zero]
      · apply List.flatMap_congr
        intro i _
        apply List.map_congr_left
        intro j _
        simp only [Nat.succ_eq_add_one, Nat.cast_add, Nat.cast_one]
        congr 1
        · ring
        · ring
    · intro a ha
      rw [hframe a (fun k i_x h1 h2 h3 h4 => ha k i_x h1 (by omega) h3 h4), hrpix a, if_neg]
      rintro ⟨h1, h2, _⟩
      exact ha ((m : Int) + 1) (base - pitch * ((m : Int) + 1) - a) (by omega) (by simp) h1 h2
        (by ring)
    · intro hWp k i_x hk1 hk2 hx1 hx2
      have hk2 : k ≤ (m : Int) + 1 := by simpa using hk2
      by_cases hk : k = (m : Int) + 1
      · subst hk
        rw [hframe, hrpix]
        · have hd : base - pitch * ((m : Int) + 1) - (base - i_x - pitch * ((m : Int) + 1)) = i_x := by
            ring
          rw [hd]
          have es : st.p_source + ((m : Int) + 1 - ((m : Int) + 1)) * (W : Int) + ((W : Int) - i_x)
              = st.p_source + ((W : Int) - i_x) := by ring
          rw [es]
          by_cases hc : cropped b_crop w i_x (pitch * ((m : Int) + 1))
          · rw [if_neg (by tauto), if_pos hc]
          · rw [if_pos ⟨hx1, hx2, hc⟩, if_neg hc]
        · intro k' i_x' h1 h2 h3 h4
          have : pitch * k' ≤ pitch * (m : Int) := mul_le_mul_of_nonneg_left h2 (le_of_lt hp)
          omega
      · have hkm : k ≤ (m : Int) := by omega
        have hpk : pitch * k ≤ pitch * (m : Int) := mul_le_mul_of_nonneg_left hkm (le_of_lt hp)
        have hstr : str.pixels (base - i_x - pitch * k) = st.pixels (base - i_x - pitch * k) := by
          rw [hrpix, if_neg]
          rintro ⟨h1, _, _⟩
          omega
        have es : st.p_source + (W : Int) + ((m : Int) - k) * W + ((W : Int) - i_x)
            = st.p_source + ((m : Int) + 1 - k) * W + ((W : Int) - i_x) := by ring
        rw [hpix hWp k i_x hk1 hkm hx1 hx2, hstr, hrsrc, es]

/-- The crop test of `RenderI420` at the loop counters of row `r`, column `c` fails exactly
when the crop box holds `(r, c)`. -/
theorem cropped_window_iff (p_pic : picture_t) (p_spu : subpicture_t) (b_crop : Bool)
    (hp : 0 < (p_pic.p Y_PLANE).i_pitch) (r c : Int) :
    cropped b_crop (RenderI420.window p_pic p_spu) (p_spu.i_width - c)
        ((p_pic.p Y_PLANE).i_pitch * (p_spu.i_height - r))
      ↔ (b_crop = true ∧ ¬ in_crop_box p_spu.p_sys r c) := by
  unfold cropped RenderI420.window in_crop_box
  dsimp only
  simp only [gt_iff_lt, mul_lt_mul_left hp]
  constructor
  · rintro ⟨hb, h⟩
    refine ⟨hb, ?_⟩
    rintro ⟨h1, h2, h3, h4⟩
    omega
  · rintro ⟨hb, h⟩
    refine ⟨hb, ?_⟩
    by_contra hn
    apply h
    refine ⟨?_, ?_, ?_, ?_⟩ <;> omega

theorem event_eq_event_at (p_pic : picture_t) (p_spu : subpicture_t) (b_crop : Bool)
    (hp : 0 < (p_pic.p Y_PLANE).i_pitch) (r c : Int) :
    RenderI420.event p_spu.p_sys.p_data b_crop (RenderI420.pixel_base p_pic p_spu)
        (RenderI420.window p_pic p_spu) (p_spu.i_width - c)
        ((p_pic.p Y_PLANE).i_pitch * (p_spu.i_height - r)) (r * p_spu.i_width + c)
      = RenderI420.event_at p_pic p_spu b_crop r c := by
  unfold RenderI420.event RenderI420.event_at
  simp only [cropped_window_iff p_pic p_spu b_crop hp]
  have : RenderI420.pixel_base p_pic p_spu - (p_spu.i_width - c)
      - (p_pic.p Y_PLANE).i_pitch * (p_spu.i_height - r) = luma_offset p_pic p_spu r c := by
    unfold RenderI420.pixel_base luma_offset; ring
  rw [this]

/-- `RenderI420` on an overlay of `W` columns and `H` lines, over a plane of positive pitch,
with fuel for `W` and for `H` iterations: the call ends; only the bytes of the luma plane
change; the log holds one entry per overlay position, in raster order; the bytes outside the
overlay rectangle are unchanged; and when `W ≤ i_pitch` every byte under the overlay holds the
blend of its former value with the sample over it, or its former value if cropped. -/
theorem RenderI420_run (fuel : Nat) (p_vout : vout_thread_t) (p_pic : picture_t)
    (p_spu : subpicture_t) (b_crop : Bool) (W H : Nat)
    (hW : p_spu.i_width = W) (hH : p_spu.i_height = H)
    (hp : 0 < (p_pic.p Y_PLANE).i_pitch) (hfW : W ≤ fuel) (hfH : H ≤ fuel) :
    ∃ px : Int → Nat,
      RenderI420 fuel p_vout p_pic p_spu b_crop
        = some ⟨p_pic.setPixels Y_PLANE px,
            (List.range H).flatMap (fun r : Nat => (List.range W).map (fun c : Nat =>
              RenderI420.event_at p_pic p_spu b_crop r c))⟩
      ∧ (∀ a : Int, (∀ r c : Nat, r < H → c < W → a ≠ luma_offset p_pic p_spu r c) →
          px a = (p_pic.p Y_PLANE).p_pixels a)
      ∧ ((W : Int) ≤ (p_pic.p Y_PLANE).i_pitch → ∀ r c : Nat, r < H → c < W →
          px (luma_offset p_pic p_spu r c) =
            if b_crop = true ∧ ¬ in_crop_box p_spu.p_sys r c then
              (p_pic.p Y_PLANE).p_pixels (luma_offset p_pic p_spu r c)
            else blend ((p_pic.p Y_PLANE).p_pixels (luma_offset p_pic p_spu r c))
              (p_spu.p_sys.p_data (r * W + c)).y (p_spu.p_sys.p_data (r * W + c)).t) := by
  obtain ⟨st1, hrun, -, hlog, hframe, hpix⟩ :=
    loop_y_run p_spu.p_sys.p_data b_crop (RenderI420.pixel_base p_pic p_spu)
      (RenderI420.window p_pic p_spu) W (p_pic.p Y_PLANE).i_pitch hp fuel hfW H fuel
      ⟨(p_pic.p Y_PLANE).p_pixels, 0, []⟩ hfH
  have hoff : ∀ r c : Int, RenderI420.pixel_base p_pic p_spu - ((W : Int) - c)
      - (p_pic.p Y_PLANE).i_pitch * ((H : Int) - r) = luma_offset p_pic p_spu r c := by
    intro r c
    unfold RenderI420.pixel_base luma_offset
    rw [hW, hH]; ring
  refine ⟨st1.pixels, ?_, ?_, ?_⟩
  · unfold RenderI420
    dsimp only
    rw [hW, hH, mul_comm (H : Int), hrun]
    dsimp only
    rw [hlog]
    simp only [List.nil_append, zero_add]
    congr 2
    apply List.flatMap_congr
    intro r _
    apply List.map_congr_left
    intro c _
    have := event_eq_event_at p_pic p_spu b_crop hp r c
    rw [hW, hH] at this
    exact this
  · intro a ha
    rw [hframe a]
    intro k i_x hk1 hk2 hx1 hx2 heq
    have hk : k = (H : Int) - ((H - k.toNat : Nat) : Int) := by omega
    have hx : i_x = (W : Int) - ((W - i_x.toNat : Nat) : Int) := by omega
    rw [hk, hx, hoff] at heq
    exact ha (H - k.toNat) (W - i_x.toNat) (by omega) (by omega) heq
  · intro hWp r c hr hc
    have := hpix hWp ((H : Int) - r) ((W : Int) - c) (by omega) (by omega) (by omega) (by omega)
    rw [hoff] at this
    rw [this]
    have hcw := cropped_window_iff p_pic p_spu b_crop hp r c
    rw [hW, hH] at hcw
    have es : (0 : Int) + ((H : Int) - ((H : Int) - r)) * W + ((W : Int) - ((W : Int) - c))
        = r * W + c := by ring
    rw [es]
    by_cases hc : cropped b_crop (RenderI420.window p_pic p_spu) ((W : Int) - c)
        ((p_pic.p Y_PLANE).i_pitch * ((H : Int) - r))
    · rw [if_pos hc, if_pos (hcw.1 hc)]
    · rw [if_neg hc, if_neg (fun h => hc (hcw.2 h))]

theorem setPixels_pixels (p_pic : picture_t) (i : Nat) (px : Int → Nat) :
    ((p_pic.setPixels i px).p i).p_pixels = px := by
  simp [picture_t.setPixels]

theorem VCDSubRender_I420 (fuel : Nat) (p_vout : vout_thread_t) (p_pic : picture_t)
    (p_spu : subpicture_t)
    (hc : p_vout.output.i_chroma = VLC_FOURCC 'I' '4' '2' '0'
      ∨ p_vout.output.i_chroma = VLC_FOURCC 'I' 'Y' 'U' 'V'
      ∨ p_vout.output.i_chroma = VLC_FOURCC 'Y' 'V' '1' '2') :
    VCDSubRender fuel p_vout p_pic p_spu
      = RenderI420 fuel p_vout p_pic p_spu p_spu.p_sys.b_crop := by
  unfold VCDSubRender
  dsimp only
  rw [if_pos hc]

/-! ## Stores of a log -/

theorem stores_append (l1 l2 : List Event) : stores (l1 ++ l2) = stores l1 ++ stores l2 := by
  induction l1 with
  | nil => rfl
  | cons e l ih => cases e <;> simp [stores, ih]

theorem stores_flatMap {α : Type} (l : List α) (f : α → List Event) :
    stores (l.flatMap f) = l.flatMap (fun x => stores (f x)) := by
  induction l with
  | nil => rfl
  | cons x l ih => simp [List.flatMap_cons, stores_append, ih]

theorem stores_map {α : Type} (l : List α) (g : α → Event) :
    stores (l.map g) = l.flatMap (fun x => stores [g x]) := by
  induction l with
  | nil => rfl
  | cons x l ih =>
    rw [List.map_cons, List.flatMap_cons, ← ih]
    exact stores_append [g x] (l.map g)

/-- A `flatMap` over `List.range n` whose pieces are all empty but the one at `i0`. -/
theorem flatMap_range_single {β : Type} (f : Nat → List β) (n i0 : Nat) (h0 : i0 < n)
    (hf : ∀ i, i < n → i ≠ i0 → f i = []) : (List.range n).flatMap f = f i0 := by
  induction n with
  | zero => omega
  | succ n ih =>
    rw [List.range_succ, List.flatMap_append]
    by_cases h : i0 = n
    · subst h
      have : (List.range i0).flatMap f = [] := by
        rw [List.flatMap_eq_nil_iff]
        intro i hi
        have := List.mem_range.1 hi
        exact hf i (by omega) (by omega)
      simp [this]
    · have hn : f n = [] := hf n (by omega) (fun h' => h h'.symm)
      rw [ih (by omega) (fun i hi hne => hf i (by omega) hne)]
      simp [hn]

theorem stores_event_at (p_pic : picture_t) (p_spu : subpicture_t) (b_crop : Bool) (r c : Int) :
    stores [RenderI420.event_at p_pic p_spu b_crop r c]
      = if (b_crop = true ∧ ¬ in_crop_box p_spu.p_sys r c)
            ∨ (p_spu.p_sys.p_data (r * p_spu.i_width + c)).t = 0 then []
        else [(r * p_spu.i_width + c, luma_offset p_pic p_spu r c)] := by
  unfold RenderI420.event_at
  by_cases h1 : b_crop = true ∧ ¬ in_crop_box p_spu.p_sys r c
  · rw [if_pos h1, if_pos (Or.inl h1)]; rfl
  · by_cases h2 : (p_spu.p_sys.p_data (r * p_spu.i_width + c)).t = 0
    · rw [if_neg h1, if_pos h2, if_pos (Or.inr h2)]; rfl
    · rw [if_neg h1, if_neg h2, if_neg (by tauto)]; rfl

/-- The stores of the log of `RenderI420`, position by position. -/
theorem stores_I420_log (p_pic : picture_t) (p_spu : subpicture_t) (b_crop : Bool) (W H : Nat) :
    stores ((List.range H).flatMap (fun r : Nat => (List.range W).map (fun c : Nat =>
        RenderI420.event_at p_pic p_spu b_crop r c)))
      = (List.range H).flatMap (fun r : Nat => (List.range W).flatMap (fun c : Nat =>
          if (b_crop = true ∧ ¬ in_crop_box p_spu.p_sys r c)
              ∨ (p_spu.p_sys.p_data (r * p_spu.i_width + c)).t = 0 then []
          else [((r : Int) * p_spu.i_width + c, luma_offset p_pic p_spu r c)])) := by
  rw [stores_flatMap]
  apply List.flatMap_congr
  intro r _
  rw [stores_map]
  apply List.flatMap_congr
  intro c _
  exact stores_event_at p_pic p_spu b_crop r c

/-! ## Bytes change only where the log has a store -/

theorem body_frame (p_data : Int → ogt_yuvt_t) (b_crop : Bool) (base : Int) (w : CropWindow)
    (i_x i_y : Int) (st : I420State) (a : Int)
    (ha : ∀ src, (src, a) ∉ stores [RenderI420.event p_data b_crop base w i_x i_y st.p_source]) :
    (RenderI420.body p_data b_crop base w i_x i_y st).pixels a = st.pixels a := by
  rw [body_pixels]
  by_cases h : a = base - i_x - i_y ∧ ¬ cropped b_crop w i_x i_y
  · rw [if_pos h]
    by_cases h0 : (p_data st.p_source).t = 0
    · rw [h0, blend_zero]
    · exfalso
      apply ha st.p_source
      unfold RenderI420.event
      rw [if_neg h.2, if_neg h0, h.1]
      simp [stores]
  · rw [if_neg h]

theorem loop_x_frame (p_data : Int → ogt_yuvt_t) (b_crop : Bool) (base : Int) (w : CropWindow)
    (i_y : Int) : ∀ (fuel : Nat) (i_x : Int) (st st1 : I420State),
    RenderI420.loop_x p_data b_crop base w i_y fuel i_x st = some st1 →
    ∃ new, st1.log = st.log ++ new
      ∧ ∀ a, (∀ src, (src, a) ∉ stores new) → st1.pixels a = st.pixels a := by
  intro fuel
  induction fuel with
  | zero =>
    intro i_x st st1 h
    rw [RenderI420.loop_x] at h
    split at h
    · cases h; exact ⟨[], by simp, fun _ _ => rfl⟩
    · cases h
  | succ f ih =>
    intro i_x st st1 h
    rw [RenderI420.loop_x] at h
    split at h
    · cases h; exact ⟨[], by simp, fun _ _ => rfl⟩
    · obtain ⟨new, hlog, hpix⟩ := ih _ _ _ h
      dsimp only at hlog hpix
      rw [body_log] at hlog
      refine ⟨RenderI420.event p_data b_crop base w i_x i_y st.p_source :: new,
        by rw [hlog]; simp, ?_⟩
      intro a ha
      rw [hpix a, body_frame]
      · intro src hin
        apply ha src
        have := stores_append [RenderI420.event p_data b_crop base w i_x i_y st.p_source] new
        rw [List.singleton_append] at this
        rw [this]
        exact List.mem_append_left _ hin
      · intro src hin
        apply ha src
        have := stores_append [RenderI420.event p_data b_crop base w i_x i_y st.p_source] new
        rw [List.singleton_append] at this
        rw [this]
        exact List.mem_append_right _ hin

theorem loop_y_frame (p_data : Int → ogt_yuvt_t) (b_crop : Bool) (base : Int) (w : CropWindow)
    (i_width i_pitch : Int) (fuel_x : Nat) : ∀ (fuel : Nat) (i_y : Int) (st st1 : I420State),
    RenderI420.loop_y p_data b_crop base w i_width i_pitch fuel_x fuel i_y st = some st1 →
    ∃ new, st1.log = st.log ++ new
      ∧ ∀ a, (∀ src, (src, a) ∉ stores new) → st1.pixels a = st.pixels a := by
  intro fuel
  induction fuel with
  | zero =>
    intro i_y st st1 h
    rw [RenderI420.loop_y] at h
    split at h
    · cases h; exact ⟨[], by simp, fun _ _ => rfl⟩
    · cases h
  | succ f ih =>
    intro i_y st st1 h
    rw [RenderI420.loop_y] at h
    split at h
    · cases h; exact ⟨[], by simp, fun _ _ => rfl⟩
    · split at h
      · cases h
      · next str hrow =>
        obtain ⟨new1, hlog1, hpix1⟩ := loop_x_frame p_data b_crop base w i_y _ _ _ _ hrow
        obtain ⟨new2, hlog2, hpix2⟩ := ih _ _ _ h
        refine ⟨new1 ++ new2, by rw [hlog2, hlog1, List.append_assoc], ?_⟩
        intro a ha
        rw [hpix2 a, hpix1 a]
        · intro src hin
          apply ha src
          rw [stores_append]
          exact List.mem_append_left _ hin
        · intro src hin
          apply ha src
          rw [stores_append]
          exact List.mem_append_right _ hin

/-- `RenderI420` changes a byte of the luma plane only where its log has a store, and changes no
other plane. -/
theorem RenderI420_frame (fuel : Nat) (p_vout : vout_thread_t) (p_pic : picture_t)
    (p_spu : subpicture_t) (b_crop : Bool) (res : Rendered)
    (h : RenderI420 fuel p_vout p_pic p_spu b_crop = some res) :
    (∀ a, (∀ src, (src, a) ∉ stores res.log) →
        (res.pic.p Y_PLANE).p_pixels a = (p_pic.p Y_PLANE).p_pixels a)
      ∧ (∀ j, j ≠ Y_PLANE → res.pic.p j = p_pic.p j)
      ∧ (res.pic.p Y_PLANE).i_pitch = (p_pic.p Y_PLANE).i_pitch := by
  unfold RenderI420 at h
  dsimp only at h
  split at h
  · cases h
  · next st hrun =>
    cases h
    obtain ⟨new, hlog, hpix⟩ := loop_y_frame _ _ _ _ _ _ _ _ _ _ _ hrun
    dsimp only at hlog hpix
    rw [List.nil_append] at hlog
    refine ⟨?_, ?_, ?_⟩
    · intro a ha
      dsimp only
      rw [setPixels_pixels, hpix a]
      rw [hlog] at ha
      exact ha
    · intro j hj
      simp [picture_t.setPixels, hj]
    · simp [picture_t.setPixels]

/-! ## The full crop box against no crop -/

theorem body_crop_irrelevant (p_data : Int → ogt_yuvt_t) (base : Int) (w w2 : CropWindow)
    (i_x i_y : Int) (st : I420State) (h : ¬ cropped true w i_x i_y) :
    RenderI420.body p_data true base w i_x i_y st
      = RenderI420.body p_data false base w2 i_x i_y st := by
  unfold RenderI420.body
  rw [if_neg h, if_neg (by simp [cropped])]

theorem loop_x_crop_irrelevant (p_data : Int → ogt_yuvt_t) (base : Int) (w w2 : CropWindow)
    (i_y : Int) (hy : w.i_y_start ≤ i_y ∧ i_y ≤ w.i_y_end) (h0 : w.i_x_start ≤ 0) :
    ∀ (fuel : Nat) (i_x : Int) (st : I420State), 0 ≤ i_x → i_x ≤ w.i_x_end →
    RenderI420.loop_x p_data true base w i_y fuel i_x st
      = RenderI420.loop_x p_data false base w2 i_y fuel i_x st := by
  intro fuel
  induction fuel with
  | zero => intro i_x st _ _; simp [RenderI420.loop_x]
  | succ f ih =>
    intro i_x st h1 h2
    rw [RenderI420.loop_x, RenderI420.loop_x]
    by_cases hz : i_x = 0
    · rw [if_pos hz, if_pos hz]
    · rw [if_neg hz, if_neg hz]
      dsimp only
      rw [body_crop_irrelevant p_data base w w2 i_x i_y st
        (by unfold cropped; rintro ⟨_, h | h | h | h⟩ <;> omega)]
      exact ih _ _ (by omega) (by omega)

theorem loop_y_crop_irrelevant (p_data : Int → ogt_yuvt_t) (base : Int) (w w2 : CropWindow)
    (i_width i_pitch : Int) (fuel_x : Nat) (hp : 0 ≤ i_pitch) (hw : 0 ≤ i_width)
    (hx0 : w.i_x_start ≤ 0) (hx1 : i_width ≤ w.i_x_end) (hy0 : w.i_y_start ≤ 0) :
    ∀ (fuel : Nat) (k : Nat) (st : I420State), i_pitch * k ≤ w.i_y_end →
    RenderI420.loop_y p_data true base w i_width i_pitch fuel_x fuel (i_pitch * k) st
      = RenderI420.loop_y p_data false base w2 i_width i_pitch fuel_x fuel (i_pitch * k) st := by
  intro fuel
  induction fuel with
  | zero => intro k st _; simp [RenderI420.loop_y]
  | succ f ih =>
    intro k st hk
    rw [RenderI420.loop_y, RenderI420.loop_y]
    by_cases hz : i_pitch * (k : Int) = 0
    · rw [if_pos hz, if_pos hz]
    · rw [if_neg hz, if_neg hz]
      have hk0 : k ≠ 0 := by rintro rfl; simp at hz
      obtain ⟨j, rfl⟩ : ∃ j, k = j + 1 := ⟨k - 1, by omega⟩
      have hpos : 0 ≤ i_pitch * ((j + 1 : Nat) : Int) := mul_nonneg hp (Int.ofNat_nonneg _)
      rw [loop_x_crop_irrelevant p_data base w w2 _ ⟨by omega, hk⟩ hx0 fuel_x i_width st hw hx1]
      have hnext : i_pitch * ((j + 1 : Nat) : Int) - i_pitch = i_pitch * (j : Int) := by
        push_cast; ring
      rw [hnext]
      cases hrow : RenderI420.loop_x p_data false base w2 (i_pitch * ((j + 1 : Nat) : Int))
          fuel_x i_width st with
      | none => rfl
      | some str =>
        dsimp only
        exact ih j str (by omega)

theorem RenderI420_full_crop (fuel : Nat) (p_vout : vout_thread_t) (p_pic : picture_t)
    (p_spu : subpicture_t) (W H : Nat) (hW : p_spu.i_width = W) (hH : p_spu.i_height = H)
    (hp : 0 ≤ (p_pic.p Y_PLANE).i_pitch) :
    RenderI420 fuel p_vout p_pic (with_full_crop p_spu) true
      = RenderI420 fuel p_vout p_pic (without_crop p_spu) false := by
  unfold RenderI420
  have hl := loop_y_crop_irrelevant p_spu.p_sys.p_data (RenderI420.pixel_base p_pic p_spu)
    (RenderI420.window p_pic (with_full_crop p_spu)) (RenderI420.window p_pic (without_crop p_spu))
    p_spu.i_width (p_pic.p Y_PLANE).i_pitch fuel hp (by omega)
    (by simp [RenderI420.window, with_full_crop]) (by simp [RenderI420.window, with_full_crop])
    (by simp [RenderI420.window, with_full_crop]) fuel H ⟨(p_pic.p Y_PLANE).p_pixels, 0, []⟩
    (by simp [RenderI420.window, with_full_crop, hH])
  have e : p_spu.i_height * (p_pic.p Y_PLANE).i_pitch = (p_pic.p Y_PLANE).i_pitch * (H : Int) := by
    rw [hH, mul_comm]
  dsimp only [with_full_crop, without_crop, RenderI420.pixel_base] at hl ⊢
  rw [e, hl]

theorem loop_lines_crop_irrelevant (L : RV16Locals) (b1 b2 : Bool) (w1 w2 : CropWindow)
    (src i_ynext : Int) : ∀ (fuel : Nat) (i_ytmp : Int) (st : RV16State),
    RenderRV16.loop_lines { L with b_crop := b1, w := w1 } src i_ynext fuel i_ytmp st
      = RenderRV16.loop_lines { L with b_crop := b2, w := w2 } src i_ynext fuel i_ytmp st := by
  intro fuel
  induction fuel with
  | zero => intro i_ytmp st; rfl
  | succ f ih =>
    intro i_ytmp st
    rw [RenderRV16.loop_lines, RenderRV16.loop_lines]
    by_cases h : i_ytmp < i_ynext
    · rw [if_pos h, if_pos h]
      exact ih _ _
    · rw [if_neg h, if_neg h]

theorem body_one_crop_irrelevant (L : RV16Locals) (w1 w2 : CropWindow)
    (i_y i_y_src i_yreal i_x : Int) (st : RV16State) (h : ¬ cropped true w1 i_x i_y) :
    RenderRV16.body_one { L with b_crop := true, w := w1 } i_y i_y_src i_yreal i_x st
      = RenderRV16.body_one { L with b_crop := false, w := w2 } i_y i_y_src i_yreal i_x st := by
  unfold RenderRV16.body_one
  dsimp only
  rw [if_neg h, if_neg (show ¬ cropped false w2 i_x i_y by simp [cropped])]

theorem body_more_crop_irrelevant (L : RV16Locals) (w1 w2 : CropWindow) (fuel : Nat)
    (i_y i_y_src i_yreal i_ynext i_x : Int) (st : RV16State) (h : ¬ cropped true w1 i_x i_y) :
    RenderRV16.body_more { L with b_crop := true, w := w1 } fuel i_y i_y_src i_yreal i_ynext i_x st
      = RenderRV16.body_more { L with b_crop := false, w := w2 } fuel i_y i_y_src i_yreal i_ynext
          i_x st := by
  unfold RenderRV16.body_more
  dsimp only
  rw [if_neg h, if_neg (show ¬ cropped false w2 i_x i_y by simp [cropped])]
  have := loop_lines_crop_irrelevant L true false w1 w2
  simp only [this]

/-- Two bodies that agree on the loop counters `1 .. i_x` give the same inner loop. -/
theorem RV16_loop_x_congr (body1 body2 : Int → RV16State → Option Flow) :
    ∀ (fuel : Nat) (i_x : Int) (st : RV16State), 0 ≤ i_x →
    (∀ i : Int, 0 < i → i ≤ i_x → ∀ s, body1 i s = body2 i s) →
    RenderRV16.loop_x body1 fuel i_x st = RenderRV16.loop_x body2 fuel i_x st := by
  intro fuel
  induction fuel with
  | zero => intro i_x st _ _; simp [RenderRV16.loop_x]
  | succ f ih =>
    intro i_x st h0 hb
    rw [RenderRV16.loop_x, RenderRV16.loop_x]
    by_cases hz : i_x = 0
    · rw [if_pos hz, if_pos hz]
    · rw [if_neg hz, if_neg hz, hb i_x (by omega) (le_refl _) st]
      cases body2 i_x st with
      | none => rfl
      | some fl =>
        cases fl with
        | ret s => rfl
        | next s =>
          exact ih (i_x - 1) s (by omega) (fun i h1 h2 s => hb i h1 (by omega) s)

theorem RV16_loop_y_crop_irrelevant (L : RV16Locals) (w1 w2 : CropWindow) (fuel_in : Nat)
    (hys : 0 < L.i_yscale) (hw : 0 ≤ L.i_width)
    (hx0 : w1.i_x_start ≤ 0) (hx1 : L.i_width ≤ w1.i_x_end) (hy0 : w1.i_y_start ≤ 0)
    (hy1 : L.i_height ≤ w1.i_y_end) (H : Int) (hH : L.i_height = H * L.i_yscale) :
    ∀ (fuel : Nat) (k : Nat) (st : RV16State),
    RenderRV16.loop_y { L with b_crop := true, w := w1 } fuel_in fuel (k * L.i_yscale) st
      = RenderRV16.loop_y { L with b_crop := false, w := w2 } fuel_in fuel (k * L.i_yscale) st := by
  intro fuel
  induction fuel with
  | zero => intro k st; rfl
  | succ f ih =>
    intro k st
    rw [RenderRV16.loop_y, RenderRV16.loop_y]
    dsimp only
    by_cases hlt : (k : Int) * L.i_yscale < L.i_height
    · rw [if_pos hlt, if_pos hlt]
      have hk0 : (0 : Int) ≤ (k : Int) * L.i_yscale :=
        mul_nonneg (Int.ofNat_nonneg k) (le_of_lt hys)
      have hnext : (k : Int) * L.i_yscale + L.i_yscale = ((k + 1 : Nat) : Int) * L.i_yscale := by
        push_cast; ring
      have hkH : (k : Int) < H := by
        rw [hH] at hlt
        exact lt_of_mul_lt_mul_right hlt (le_of_lt hys)
      have hle : (k : Int) * L.i_yscale + L.i_yscale ≤ L.i_height := by
        rw [hnext, hH]
        exact mul_le_mul_of_nonneg_right (by push_cast; omega) (le_of_lt hys)
      have hnc : ∀ i : Int, 0 < i → i ≤ L.i_width →
          ¬ cropped true w1 i ((k : Int) * L.i_yscale + L.i_yscale) := by
        intro i h1 h2
        unfold cropped
        rintro ⟨_, h | h | h | h⟩ <;> omega
      have hone := fun (i_y_src i_yreal : Int) => RV16_loop_x_congr
        (RenderRV16.body_one { L with b_crop := true, w := w1 }
          ((k : Int) * L.i_yscale + L.i_yscale) i_y_src i_yreal)
        (RenderRV16.body_one { L with b_crop := false, w := w2 }
          ((k : Int) * L.i_yscale + L.i_yscale) i_y_src i_yreal) fuel_in L.i_width st hw
        (fun i h1 h2 s => body_one_crop_irrelevant L w1 w2 _ _ _ i s (hnc i h1 h2))
      have hmore := fun (i_y_src i_yreal i_ynext : Int) => RV16_loop_x_congr
        (RenderRV16.body_more { L with b_crop := true, w := w1 } fuel_in
          ((k : Int) * L.i_yscale + L.i_yscale) i_y_src i_yreal i_ynext)
        (RenderRV16.body_more { L with b_crop := false, w := w2 } fuel_in
          ((k : Int) * L.i_yscale + L.i_yscale) i_y_src i_yreal i_ynext) fuel_in L.i_width st hw
        (fun i h1 h2 s => body_more_crop_irrelevant L w1 w2 fuel_in _ _ _ _ i s (hnc i h1 h2))
      rw [hone, hmore, hnext]
      split
      · rfl
      · rfl
      · exact ih (k + 1) _
    · rw [if_neg hlt, if_neg hlt]

theorem RenderRV16_full_crop (fuel : Nat) (p_vout : vout_thread_t) (p_pic : picture_t)
    (p_spu : subpicture_t) (hW : 0 ≤ p_spu.i_width)
    (hxs : 0 < Int.tdiv (p_vout.output.i_width * 2 ^ 6) p_vout.render.i_width)
    (hys : 0 < Int.tdiv (p_vout.output.i_height * 2 ^ 6) p_vout.render.i_height) :
    RenderRV16 fuel p_vout p_pic (with_full_crop p_spu) true
      = RenderRV16 fuel p_vout p_pic (without_crop p_spu) false := by
  have hl := RV16_loop_y_crop_irrelevant (RenderRV16.locals p_vout p_pic p_spu false)
    (RenderRV16.locals p_vout p_pic (with_full_crop p_spu) true).w
    (RenderRV16.locals p_vout p_pic (without_crop p_spu) false).w fuel hys
    (mul_nonneg hW (le_of_lt hxs))
    (by simp [RenderRV16.locals, with_full_crop, mul_comm])
    (by simp [RenderRV16.locals, with_full_crop])
    (by simp [RenderRV16.locals, with_full_crop])
    (by simp [RenderRV16.locals, with_full_crop, mul_comm])
    p_spu.i_height rfl fuel 0 ⟨(p_pic.p 0).p_pixels, []⟩
  have e0 : ((0 : Nat) : Int) * (RenderRV16.locals p_vout p_pic p_spu false).i_yscale = 0 := by
    simp
  rw [e0] at hl
  unfold RenderRV16
  exact congrArg (fun o : Option Flow => match o with
    | none => none
    | some (Flow.ret st) => some (⟨p_pic.setPixels 0 st.pixels, st.log⟩ : Rendered)
    | some (Flow.next st) => some ⟨p_pic.setPixels 0 st.pixels, st.log⟩) hl

/-! ## `RenderRV16` ends -/

theorem loop_lines_ends (L : RV16Locals) (src i_ynext : Int) :
    ∀ (fuel : Nat) (i_ytmp : Int) (st : RV16State), i_ynext - i_ytmp ≤ fuel * L.i_pitch →
    ∃ st1, RenderRV16.loop_lines L src i_ynext fuel i_ytmp st = some st1 := by
  intro fuel
  induction fuel with
  | zero =>
    intro i_ytmp st h
    rw [RenderRV16.loop_lines, if_neg (by simp at h; omega)]
    exact ⟨st, rfl⟩
  | succ f ih =>
    intro i_ytmp st h
    rw [RenderRV16.loop_lines]
    by_cases hlt : i_ytmp < i_ynext
    · rw [if_pos hlt]
      apply ih
      have : ((f + 1 : Nat) : Int) * L.i_pitch = f * L.i_pitch + L.i_pitch := by
        push_cast; ring
      omega
    · rw [if_neg hlt]
      exact ⟨st, rfl⟩

theorem body_one_ends (L : RV16Locals) (i_y i_y_src i_yreal i_x : Int) (st : RV16State) :
    ∃ fl, RenderRV16.body_one L i_y i_y_src i_yreal i_x st = some fl := by
  unfold RenderRV16.body_one
  split
  · exact ⟨_, rfl⟩
  · dsimp only
    split
    · exact ⟨_, rfl⟩
    · split <;> exact ⟨_, rfl⟩

theorem body_more_ends (L : RV16Locals) (fuel : Nat) (i_y i_y_src i_yreal i_ynext i_x : Int)
    (st : RV16State) (hf : i_ynext - i_yreal ≤ fuel * L.i_pitch) :
    ∃ fl, RenderRV16.body_more L fuel i_y i_y_src i_yreal i_ynext i_x st = some fl := by
  unfold RenderRV16.body_more
  split
  · exact ⟨_, rfl⟩
  · dsimp only
    split
    · exact ⟨_, rfl⟩
    · split
      · exact ⟨_, rfl⟩
      · obtain ⟨st1, h⟩ := loop_lines_ends L
          (i_y_src + Int.tdiv (L.i_width - i_x) L.i_xscale) i_ynext fuel i_yreal st hf
        rw [h]
        exact ⟨_, rfl⟩

theorem RV16_loop_x_ends (body : Int → RV16State → Option Flow)
    (hb : ∀ i s, ∃ fl, body i s = some fl) :
    ∀ (n fuel : Nat) (st : RV16State), n ≤ fuel →
    ∃ fl, RenderRV16.loop_x body fuel (n : Int) st = some fl := by
  intro n
  induction n with
  | zero =>
    intro fuel st _
    cases fuel <;> exact ⟨Flow.next st, by simp [RenderRV16.loop_x]⟩
  | succ n ih =>
    intro fuel st hf
    obtain ⟨f, rfl⟩ : ∃ f, fuel = f + 1 := ⟨fuel - 1, by omega⟩
    rw [RenderRV16.loop_x, if_neg (by omega)]
    obtain ⟨fl, hfl⟩ := hb ((n + 1 : Nat) : Int) st
    rw [hfl]
    cases fl with
    | ret s => exact ⟨_, rfl⟩
    | next s =>
      have : ((n + 1 : Nat) : Int) - 1 = (n : Int) := by omega
      dsimp only
      rw [this]
      exact ih f s (by omega)

/-- The lines filled for one source line fit in `fuel` iterations when
`i_yscale + 63 ≤ 64 * fuel`. -/
theorem lines_bound (pitch i_y ys : Int) (fuel : Nat) (hp : 0 < pitch)
    (hf : ys + 63 ≤ 64 * (fuel : Int)) :
    (pitch * (i_y + ys)) >>> (6 : Nat) - pitch * (i_y >>> (6 : Nat)) ≤ fuel * pitch := by
  rw [Int.shiftRight_eq_div_pow, Int.shiftRight_eq_div_pow]
  have h64 : ((2 ^ 6 : Nat) : Int) = 64 := by norm_num
  rw [h64]
  have hq1 : 64 * (i_y / 64) ≤ i_y := by omega
  have hq2 : i_y < 64 * (i_y / 64) + 64 := by omega
  have hn : 64 * (pitch * (i_y + ys) / 64) ≤ pitch * (i_y + ys) := by
    have := Int.mul_ediv_self_le (x := pitch * (i_y + ys)) (k := 64) (by norm_num)
    linarith
  have h1 : pitch * (i_y + ys) ≤ pitch * (64 * (i_y / 64) + 64 * (fuel : Int)) :=
    mul_le_mul_of_nonneg_left (by omega) (le_of_lt hp)
  have h2 : pitch * (64 * (i_y / 64) + 64 * (fuel : Int))
      = 64 * (pitch * (i_y / 64) + fuel * pitch) := by ring
  rw [h2] at h1
  have h3 : 64 * (pitch * (i_y + ys) / 64) ≤ 64 * (pitch * (i_y / 64) + fuel * pitch) :=
    le_trans hn h1
  have h4 : pitch * (i_y + ys) / 64 ≤ pitch * (i_y / 64) + fuel * pitch := by
    exact le_of_mul_le_mul_left h3 (by norm_num)
  linarith

theorem RV16_loop_y_ends (L : RV16Locals) (fuel_in n H : Nat)
    (hys : 0 < L.i_yscale) (hp : 0 < L.i_pitch) (hw : L.i_width = n) (hn : n ≤ fuel_in)
    (hH : L.i_height = H * L.i_yscale) (hf : L.i_yscale + 63 ≤ 64 * (fuel_in : Int)) :
    ∀ (m fuel k : Nat) (st : RV16State), H ≤ k + m → m ≤ fuel →
    ∃ fl, RenderRV16.loop_y L fuel_in fuel (k * L.i_yscale) st = some fl := by
  intro m
  induction m with
  | zero =>
    intro fuel k st hk _
    have hge : ¬ ((k : Int) * L.i_yscale < L.i_height) := by
      rw [hH, not_lt]
      exact mul_le_mul_of_nonneg_right (by exact_mod_cast hk) (le_of_lt hys)
    cases fuel with
    | zero => rw [RenderRV16.loop_y, if_neg hge]; exact ⟨_, rfl⟩
    | succ f => rw [RenderRV16.loop_y, if_neg hge]; exact ⟨_, rfl⟩
  | succ m ih =>
    intro fuel k st hk hfm
    obtain ⟨f, rfl⟩ : ∃ f, fuel = f + 1 := ⟨fuel - 1, by omega⟩
    rw [RenderRV16.loop_y]
    by_cases hlt : (k : Int) * L.i_yscale < L.i_height
    · rw [if_pos hlt]
      dsimp only
      have hnext : (k : Int) * L.i_yscale + L.i_yscale = ((k + 1 : Nat) : Int) * L.i_yscale := by
        push_cast; ring
      have hrow : ∃ fl, (if ((k : Int) * L.i_yscale) >>> (6 : Nat) + 1
            ≥ ((k : Int) * L.i_yscale + L.i_yscale) >>> (6 : Nat) then
          RenderRV16.loop_x (RenderRV16.body_one L ((k : Int) * L.i_yscale + L.i_yscale)
            (Int.tdiv ((k : Int) * L.i_yscale) L.i_yscale * L.spu_width)
            (L.i_pitch * (((k : Int) * L.i_yscale) >>> (6 : Nat)))) fuel_in L.i_width st
        else
          RenderRV16.loop_x (RenderRV16.body_more L fuel_in ((k : Int) * L.i_yscale + L.i_yscale)
            (Int.tdiv ((k : Int) * L.i_yscale) L.i_yscale * L.spu_width)
            (L.i_pitch * (((k : Int) * L.i_yscale) >>> (6 : Nat)))
            ((L.i_pitch * ((k : Int) * L.i_yscale + L.i_yscale)) >>> (6 : Nat)))
            fuel_in L.i_width st) = some fl := by
        rw [hw]
        split
        · exact RV16_loop_x_ends _ (fun i s => body_one_ends L _ _ _ i s) n fuel_in st hn
        · exact RV16_loop_x_ends _ (fun i s => body_more_ends L fuel_in _ _ _ _ i s
            (lines_bound L.i_pitch _ L.i_yscale fuel_in hp hf)) n fuel_in st hn
      obtain ⟨fl, hfl⟩ := hrow
      rw [hfl]
      cases fl with
      | ret s => exact ⟨_, rfl⟩
      | next s =>
        dsimp only
        rw [hnext]
        exact ih f (k + 1) s (by omega) (by omega)
    · rw [if_neg hlt]
      exact ⟨_, rfl⟩

theorem RenderRV16_ends (fuel : Nat) (p_vout : vout_thread_t) (p_pic : picture_t)
    (p_spu : subpicture_t) (b_crop : Bool) (H : Nat)
    (hW : 0 ≤ p_spu.i_width) (hH : p_spu.i_height = H) (hp : 0 < (p_pic.p 0).i_pitch)
    (hxs : 0 < Int.tdiv (p_vout.output.i_width * 2 ^ 6) p_vout.render.i_width)
    (hys : 0 < Int.tdiv (p_vout.output.i_height * 2 ^ 6) p_vout.render.i_height)
    (hfx : p_spu.i_width * Int.tdiv (p_vout.output.i_width * 2 ^ 6) p_vout.render.i_width ≤ fuel)
    (hfy : Int.tdiv (p_vout.output.i_height * 2 ^ 6) p_vout.render.i_height ≤ fuel)
    (hfH : H ≤ fuel) :
    ∃ res, RenderRV16 fuel p_vout p_pic p_spu b_crop = some res := by
  have hwn : 0 ≤ p_spu.i_width * Int.tdiv (p_vout.output.i_width * 2 ^ 6) p_vout.render.i_width :=
    mul_nonneg hW (le_of_lt hxs)
  obtain ⟨n, hn⟩ := Int.eq_ofNat_of_zero_le hwn
  obtain ⟨fl, hfl⟩ := RV16_loop_y_ends (RenderRV16.locals p_vout p_pic p_spu b_crop) fuel n H
    hys hp hn (by rw [hn] at hfx; exact_mod_cast hfx)
    (by simp [RenderRV16.locals, hH])
    (by
      show Int.tdiv (p_vout.output.i_height * 2 ^ 6) p_vout.render.i_height + 63 ≤ 64 * (fuel : Int)
      omega)
    H fuel 0 ⟨(p_pic.p 0).p_pixels, []⟩ (by omega) hfH
  have e0 : ((0 : Nat) : Int) * (RenderRV16.locals p_vout p_pic p_spu b_crop).i_yscale = 0 := by
    simp
  rw [e0] at hfl
  unfold RenderRV16
  dsimp only
  rw [hfl]
  cases fl <;> exact ⟨_, rfl⟩

/-! ## The invariant of the loops of `RenderRV16` -/

theorem stores_snoc_store (l : List Event) (src addr : Int) :
    stores (l ++ [Event.store src addr]) = stores l ++ [(src, addr)] := by
  rw [stores_append]; rfl

theorem RV16_inv_quiet (L : RV16Locals) (px0 : Int → Nat) (s : RV16State) (e : Event)
    (hs : RV16_inv L px0 s) (he : RV16_good L e) :
    RV16_inv L px0 { s with log := s.log ++ [e] } := by
  refine ⟨?_, ?_⟩
  · intro e' he'
    rcases List.mem_append.1 he' with h | h
    · exact hs.1 e' h
    · rw [List.mem_singleton.1 h]; exact he
  · intro a ha
    apply hs.2 a
    intro src hin
    apply ha src
    show (src, a) ∈ stores (s.log ++ [e])
    rw [stores_append]
    exact List.mem_append_left _ hin

theorem RV16_inv_store (L : RV16Locals) (px0 : Int → Nat) (s : RV16State) (src addr : Int)
    (v : Nat) (hs : RV16_inv L px0 s) (he : RV16_good L (Event.store src addr)) :
    RV16_inv L px0 { pixels := poke s.pixels addr v, log := s.log ++ [Event.store src addr] } := by
  refine ⟨?_, ?_⟩
  · intro e' he'
    rcases List.mem_append.1 he' with h | h
    · exact hs.1 e' h
    · rw [List.mem_singleton.1 h]; exact he
  · intro a ha
    have hne : a ≠ addr := by
      intro h
      apply ha src
      show (src, a) ∈ stores (s.log ++ [Event.store src addr])
      rw [stores_snoc_store, h]
      exact List.mem_append_right _ (List.mem_singleton.2 rfl)
    show poke s.pixels addr v a = px0 a
    unfold poke
    rw [if_neg hne]
    apply hs.2 a
    intro src' hin
    apply ha src'
    show (src', a) ∈ stores (s.log ++ [Event.store src addr])
    rw [stores_snoc_store]
    exact List.mem_append_left _ hin

theorem loop_lines_inv (L : RV16Locals) (px0 : Int → Nat) (src i_ynext : Int)
    (h0 : 0 ≤ src) (h1 : src < L.p_src_end) (ht : (L.p_data src).t ≠ 0) :
    ∀ (fuel : Nat) (m : Int) (s s1 : RV16State), RV16_inv L px0 s →
    RenderRV16.loop_lines L src i_ynext fuel (L.i_pitch * m) s = some s1 →
    RV16_inv L px0 s1 := by
  intro fuel
  induction fuel with
  | zero =>
    intro m s s1 hs h
    rw [RenderRV16.loop_lines] at h
    split at h
    · cases h
    · cases h; exact hs
  | succ f ih =>
    intro m s s1 hs h
    rw [RenderRV16.loop_lines] at h
    split at h
    · have hnext : L.i_pitch * m + L.i_pitch = L.i_pitch * (m + 1) := by ring
      dsimp only at h
      rw [hnext] at h
      exact ih (m + 1) _ s1
        (RV16_inv_store L px0 s src (L.p_pixel_base + L.i_pitch * m) _ hs
          ⟨h0, h1, ht, m, rfl⟩) h
    · cases h; exact hs

theorem body_one_inv (L : RV16Locals) (px0 : Int → Nat) (i_y i_y_src m i_x : Int)
    (s : RV16State) (fl : Flow)
    (h0 : 0 ≤ i_y_src + Int.tdiv (L.i_width - i_x) L.i_xscale)
    (h1 : i_y_src + Int.tdiv (L.i_width - i_x) L.i_xscale < L.p_src_end)
    (hs : RV16_inv L px0 s)
    (h : RenderRV16.body_one L i_y i_y_src (L.i_pitch * m) i_x s = some fl) :
    ∃ s1, fl = Flow.next s1 ∧ RV16_inv L px0 s1 := by
  unfold RenderRV16.body_one at h
  split at h
  · next hc =>
    cases h
    exact ⟨_, rfl, RV16_inv_quiet L px0 s _ hs hc.1⟩
  · dsimp only at h
    rw [if_neg (by omega)] at h
    split at h
    · next ht =>
      cases h
      exact ⟨_, rfl, RV16_inv_quiet L px0 s _ hs ⟨h0, h1, ht⟩⟩
    · next ht =>
      cases h
      exact ⟨_, rfl, RV16_inv_store L px0 s _ _ _ hs ⟨h0, h1, ht, m, rfl⟩⟩

theorem body_more_inv (L : RV16Locals) (px0 : Int → Nat) (fuel : Nat)
    (i_y i_y_src m i_ynext i_x : Int) (s : RV16State) (fl : Flow)
    (h0 : 0 ≤ i_y_src + Int.tdiv (L.i_width - i_x) L.i_xscale)
    (h1 : i_y_src + Int.tdiv (L.i_width - i_x) L.i_xscale < L.p_src_end)
    (hs : RV16_inv L px0 s)
    (h : RenderRV16.body_more L fuel i_y i_y_src (L.i_pitch * m) i_ynext i_x s = some fl) :
    ∃ s1, fl = Flow.next s1 ∧ RV16_inv L px0 s1 := by
  unfold RenderRV16.body_more at h
  split at h
  · next hc =>
    cases h
    exact ⟨_, rfl, RV16_inv_quiet L px0 s _ hs hc.1⟩
  · dsimp only at h
    rw [if_neg (by omega)] at h
    split at h
    · next ht =>
      cases h
      exact ⟨_, rfl, RV16_inv_quiet L px0 s _ hs ⟨h0, h1, ht⟩⟩
    · next ht =>
      cases hl : RenderRV16.loop_lines L (i_y_src + Int.tdiv (L.i_width - i_x) L.i_xscale)
          i_ynext fuel (L.i_pitch * m) s with
      | none => rw [hl] at h; cases h
      | some s1 =>
        rw [hl] at h
        cases h
        exact ⟨s1, rfl, loop_lines_inv L px0 _ i_ynext h0 h1 ht fuel m s s1 hs hl⟩

/-- An inner loop of `RenderRV16` keeps what its body keeps, and does not `return` if its body
does not. -/
theorem RV16_loop_x_inv (body : Int → RV16State → Option Flow) (P : RV16State → Prop) (n : Int)
    (hbody : ∀ (i : Int) (s : RV16State) (fl : Flow), 0 < i → i ≤ n → P s → body i s = some fl →
      ∃ s1, fl = Flow.next s1 ∧ P s1) :
    ∀ (fuel : Nat) (i_x : Int) (st : RV16State) (fl : Flow), 0 ≤ i_x → i_x ≤ n → P st →
    RenderRV16.loop_x body fuel i_x st = some fl → ∃ s1, fl = Flow.next s1 ∧ P s1 := by
  intro fuel
  induction fuel with
  | zero =>
    intro i_x st fl _ _ hP h
    rw [RenderRV16.loop_x] at h
    split at h
    · cases h; exact ⟨st, rfl, hP⟩
    · cases h
  | succ f ih =>
    intro i_x st fl h0 hn hP h
    rw [RenderRV16.loop_x] at h
    split at h
    · cases h; exact ⟨st, rfl, hP⟩
    · next hne =>
      cases hb : body i_x st with
      | none => rw [hb] at h; cases h
      | some fl1 =>
        obtain ⟨s1, rfl, hP1⟩ := hbody i_x st fl1 (by omega) hn hP hb
        rw [hb] at h
        exact ih (i_x - 1) s1 fl (by omega) (by omega) hP1 h

/-- The outer loop of `RenderRV16`, for non-negative scale factors and an overlay of `W ≥ 0`
columns and `H` lines: every sample index it computes lies in `0 .. H * W - 1`, so the
bounds-check branch is never taken, and the invariant is kept. -/
theorem RV16_loop_y_inv (L : RV16Locals) (px0 : Int → Nat) (fuel_in : Nat) (W : Int) (H : Nat)
    (hW : 0 ≤ W) (hxs : 0 ≤ L.i_xscale) (hys : 0 ≤ L.i_yscale)
    (hsw : L.spu_width = W) (hend : L.p_src_end = H * W)
    (hwid : L.i_width = W * L.i_xscale) (hhei : L.i_height = H * L.i_yscale) :
    ∀ (fuel : Nat) (k : Nat) (st : RV16State) (fl : Flow), RV16_inv L px0 st →
    RenderRV16.loop_y L fuel_in fuel (k * L.i_yscale) st = some fl →
    ∃ s1, fl = Flow.next s1 ∧ RV16_inv L px0 s1 := by
  intro fuel
  induction fuel with
  | zero =>
    intro k st fl hs h
    rw [RenderRV16.loop_y] at h
    split at h
    · cases h
    · cases h; exact ⟨st, rfl, hs⟩
  | succ f ih =>
    intro k st fl hs h
    rw [RenderRV16.loop_y] at h
    split at h
    · next hlt =>
      dsimp only at h
      have hys0 : L.i_yscale ≠ 0 := by
        intro hz; rw [hhei, hz] at hlt; simp at hlt
      have hysp : 0 < L.i_yscale := lt_of_le_of_ne hys (Ne.symm hys0)
      have hkH : (k : Int) < H := by
        rw [hhei] at hlt
        exact lt_of_mul_lt_mul_right hlt hys
      have hsrc : Int.tdiv ((k : Int) * L.i_yscale) L.i_yscale * L.spu_width = k * W := by
        rw [Int.mul_tdiv_cancel _ hys0, hsw]
      have hnext : (k : Int) * L.i_yscale + L.i_yscale = ((k + 1 : Nat) : Int) * L.i_yscale := by
        push_cast; ring
      have hkW : (k : Int) * W + W ≤ H * W := by
        have : ((k : Int) + 1) * W ≤ H * W := mul_le_mul_of_nonneg_right (by omega) hW
        linarith
      have hk0 : 0 ≤ (k : Int) * W := mul_nonneg (Int.ofNat_nonneg k) hW
      have hbound : ∀ i : Int, 0 < i → i ≤ L.i_width →
          0 ≤ (k : Int) * W + Int.tdiv (L.i_width - i) L.i_xscale
          ∧ (k : Int) * W + Int.tdiv (L.i_width - i) L.i_xscale < L.p_src_end := by
        intro i hi0 hin
        have hxs0 : L.i_xscale ≠ 0 := by
          intro hz; rw [hwid, hz] at hin; simp at hin; omega
        have hxsp : 0 < L.i_xscale := lt_of_le_of_ne hxs (Ne.symm hxs0)
        have hd0 : 0 ≤ Int.tdiv (L.i_width - i) L.i_xscale :=
          Int.tdiv_nonneg (by omega) hxs
        have hd1 : Int.tdiv (L.i_width - i) L.i_xscale < W := by
          rw [Int.tdiv_eq_ediv (by omega) hxs]
          exact Int.ediv_lt_of_lt_mul hxsp (by rw [← hwid]; omega)
        rw [hend]
        constructor <;> omega
      rw [hsrc, hnext] at h
      have hrow : ∀ row : Option Flow, row = (if ((k : Int) * L.i_yscale) >>> (6 : Nat) + 1
            ≥ (((k + 1 : Nat) : Int) * L.i_yscale) >>> (6 : Nat) then
          RenderRV16.loop_x (RenderRV16.body_one L (((k + 1 : Nat) : Int) * L.i_yscale)
            ((k : Int) * W) (L.i_pitch * (((k : Int) * L.i_yscale) >>> (6 : Nat))))
            fuel_in L.i_width st
        else
          RenderRV16.loop_x (RenderRV16.body_more L fuel_in (((k + 1 : Nat) : Int) * L.i_yscale)
            ((k : Int) * W) (L.i_pitch * (((k : Int) * L.i_yscale) >>> (6 : Nat)))
            ((L.i_pitch * (((k + 1 : Nat) : Int) * L.i_yscale)) >>> (6 : Nat)))
            fuel_in L.i_width st) →
          ∀ fl1, row = some fl1 → ∃ s1, fl1 = Flow.next s1 ∧ RV16_inv L px0 s1 := by
        intro row hrow fl1 hfl1
        rw [hrow] at hfl1
        split at hfl1
        · exact RV16_loop_x_inv _ (RV16_inv L px0) L.i_width
            (fun i s fl2 hi0 hin hP hb =>
              body_one_inv L px0 _ _ _ i s fl2 (hbound i hi0 hin).1 (hbound i hi0 hin).2 hP hb)
            fuel_in L.i_width st fl1 (by rw [hwid]; exact mul_nonneg hW hxs) (le_refl _) hs hfl1
        · exact RV16_loop_x_inv _ (RV16_inv L px0) L.i_width
            (fun i s fl2 hi0 hin hP hb =>
              body_more_inv L px0 fuel_in _ _ _ _ i s fl2 (hbound i hi0 hin).1
                (hbound i hi0 hin).2 hP hb)
            fuel_in L.i_width st fl1 (by rw [hwid]; exact mul_nonneg hW hxs) (le_refl _) hs hfl1
      split at h
      · cases h
      · next st1 hr =>
        obtain ⟨s1, hfl, -⟩ := hrow _ rfl _ hr
        cases hfl
      · next st1 hr =>
        obtain ⟨s1, hfl, hP1⟩ := hrow _ rfl _ hr
        cases hfl
        exact ih (k + 1) _ fl hP1 h
    · cases h; exact ⟨st, rfl, hs⟩

/-! ## What a call of `RenderRV16` that ends has done -/

theorem RenderRV16_inv (fuel : Nat) (p_vout : vout_thread_t) (p_pic : picture_t)
    (p_spu : subpicture_t) (b_crop : Bool) (H : Nat) (res : Rendered)
    (hW : 0 ≤ p_spu.i_width) (hH : p_spu.i_height = H)
    (hxs : 0 ≤ Int.tdiv (p_vout.output.i_width * 2 ^ 6) p_vout.render.i_width)
    (hys : 0 ≤ Int.tdiv (p_vout.output.i_height * 2 ^ 6) p_vout.render.i_height)
    (h : RenderRV16 fuel p_vout p_pic p_spu b_crop = some res) :
    (∀ e ∈ res.log, RV16_good (RenderRV16.locals p_vout p_pic p_spu b_crop) e)
      ∧ (∀ a : Int, (∀ src : Int, (src, a) ∉ stores res.log) →
          (res.pic.p 0).p_pixels a = (p_pic.p 0).p_pixels a)
      ∧ (res.pic.p 0).i_pitch = (p_pic.p 0).i_pitch
      ∧ ∀ j, j ≠ 0 → res.pic.p j = p_pic.p j := by
  unfold RenderRV16 at h
  dsimp only at h
  have hinv := RV16_loop_y_inv (RenderRV16.locals p_vout p_pic p_spu b_crop)
    (p_pic.p 0).p_pixels fuel p_spu.i_width H hW hxs hys rfl
    (by simp [RenderRV16.locals, hH]) rfl (by simp [RenderRV16.locals, hH]) fuel 0
    ⟨(p_pic.p 0).p_pixels, []⟩
  have e0 : ((0 : Nat) : Int) * (RenderRV16.locals p_vout p_pic p_spu b_crop).i_yscale = 0 := by
    simp
  rw [e0] at hinv
  cases hl : RenderRV16.loop_y (RenderRV16.locals p_vout p_pic p_spu b_crop) fuel fuel 0
      ⟨(p_pic.p 0).p_pixels, []⟩ with
  | none => rw [hl] at h; cases h
  | some fl =>
    obtain ⟨s1, rfl, hP⟩ := hinv fl
      ⟨fun e he => absurd he (List.not_mem_nil e), fun _ _ => rfl⟩ hl
    rw [hl] at h
    cases h
    refine ⟨hP.1, ?_, ?_, ?_⟩
    · intro a ha
      dsimp only
      rw [setPixels_pixels]
      exact hP.2 a ha
    · simp [picture_t.setPixels]
    · intro j hj
      simp [picture_t.setPixels, hj]

theorem outcome_of_good (L : RV16Locals) (l : List Event) (h : ∀ e ∈ l, RV16_good L e) :
    outcome l = Outcome.Ok := by
  induction l with
  | nil => rfl
  | cons e l ih =>
    have he := h e (List.mem_cons_self _ _)
    have hl := ih (fun e' he' => h e' (List.mem_cons_of_mem _ he'))
    cases e with
    | skip a b => exact hl
    | transparent s => exact hl
    | store s a => exact hl
    | err m => exact absurd he (by simp [RV16_good])

theorem reads_of_good (L : RV16Locals) (l : List Event) (h : ∀ e ∈ l, RV16_good L e) :
    ∀ src ∈ reads l, 0 ≤ src ∧ src < L.p_src_end := by
  induction l with
  | nil => intro src hs; exact absurd hs (List.not_mem_nil src)
  | cons e l ih =>
    have he := h e (List.mem_cons_self _ _)
    have hl := ih (fun e' he' => h e' (List.mem_cons_of_mem _ he'))
    intro src hs
    cases e with
    | skip a b => exact hl src hs
    | err m => exact hl src hs
    | transparent s =>
      rcases List.mem_cons.1 hs with h1 | h1
      · rw [h1]; exact ⟨he.1, he.2.1⟩
      · exact hl src h1
    | store s a =>
      rcases List.mem_cons.1 hs with h1 | h1
      · rw [h1]; exact ⟨he.1, he.2.1⟩
      · exact hl src h1

theorem stores_of_good_transparent (L : RV16Locals) (l : List Event)
    (h : ∀ e ∈ l, RV16_good L e)
    (ht : ∀ k : Int, 0 ≤ k → k < L.p_src_end → (L.p_data k).t = 0) : stores l = [] := by
  induction l with
  | nil => rfl
  | cons e l ih =>
    have he := h e (List.mem_cons_self _ _)
    have hl := ih (fun e' he' => h e' (List.mem_cons_of_mem _ he'))
    cases e with
    | skip a b => exact hl
    | err m => exact hl
    | transparent s => exact hl
    | store s a => exact absurd (ht s he.1 he.2.1) he.2.2.1

/-! ## The stores of `RenderI420` hit distinct bytes -/

theorem luma_offset_inj (p_pic : picture_t) (p_spu : subpicture_t) (W : Nat)
    (hp : 0 < (p_pic.p Y_PLANE).i_pitch) (hWp : (W : Int) ≤ (p_pic.p Y_PLANE).i_pitch)
    (r r2 c c2 : Nat) (hc : c < W) (hc2 : c2 < W)
    (h : luma_offset p_pic p_spu r c = luma_offset p_pic p_spu r2 c2) : r = r2 ∧ c = c2 := by
  unfold luma_offset at h
  have hr : r = r2 := by
    by_contra hne
    rcases Nat.lt_or_gt_of_ne hne with hlt | hlt
    · have : (p_pic.p Y_PLANE).i_pitch * (p_spu.i_y + r + 1)
          ≤ (p_pic.p Y_PLANE).i_pitch * (p_spu.i_y + r2) :=
        mul_le_mul_of_nonneg_left (by omega) (le_of_lt hp)
      have e : (p_pic.p Y_PLANE).i_pitch * (p_spu.i_y + r + 1)
          = (p_pic.p Y_PLANE).i_pitch * (p_spu.i_y + r) + (p_pic.p Y_PLANE).i_pitch := by ring
      omega
    · have : (p_pic.p Y_PLANE).i_pitch * (p_spu.i_y + r2 + 1)
          ≤ (p_pic.p Y_PLANE).i_pitch * (p_spu.i_y + r) :=
        mul_le_mul_of_nonneg_left (by omega) (le_of_lt hp)
      have e : (p_pic.p Y_PLANE).i_pitch * (p_spu.i_y + r2 + 1)
          = (p_pic.p Y_PLANE).i_pitch * (p_spu.i_y + r2) + (p_pic.p Y_PLANE).i_pitch := by ring
      omega
  subst hr
  exact ⟨rfl, by omega⟩

/-- On the I420 path with pitch > 0 and width ≤ pitch no two stores of a call hit the same
byte. -/
theorem RenderI420_stores_nodup (fuel : Nat) (p_vout : vout_thread_t) (p_pic : picture_t)
    (p_spu : subpicture_t) (b_crop : Bool) (W H : Nat)
    (hW : p_spu.i_width = W) (hH : p_spu.i_height = H)
    (hp : 0 < (p_pic.p Y_PLANE).i_pitch) (hWp : (W : Int) ≤ (p_pic.p Y_PLANE).i_pitch)
    (hfW : W ≤ fuel) (hfH : H ≤ fuel) :
    ∃ res, RenderI420 fuel p_vout p_pic p_spu b_crop = some res
      ∧ ((stores res.log).map Prod.snd).Nodup := by
  obtain ⟨px, hrun, -, -⟩ := RenderI420_run fuel p_vout p_pic p_spu b_crop W H hW hH hp hfW hfH
  refine ⟨_, hrun, ?_⟩
  dsimp only
  rw [stores_I420_log, List.map_flatMap]
  have hmem : ∀ (r : Nat) (a : Int),
      a ∈ List.map Prod.snd ((List.range W).flatMap (fun c : Nat =>
        if (b_crop = true ∧ ¬ in_crop_box p_spu.p_sys r c)
            ∨ (p_spu.p_sys.p_data ((r : Int) * p_spu.i_width + c)).t = 0 then []
        else [((r : Int) * p_spu.i_width + c, luma_offset p_pic p_spu r c)])) →
      ∃ c : Nat, c < W ∧ a = luma_offset p_pic p_spu r c := by
    intro r a ha
    rw [List.map_flatMap, List.mem_flatMap] at ha
    obtain ⟨c, hc, hac⟩ := ha
    refine ⟨c, List.mem_range.1 hc, ?_⟩
    split at hac
    · simp at hac
    · simpa using hac
  rw [List.nodup_flatMap]
  constructor
  · intro r _
    rw [List.map_flatMap, List.nodup_flatMap]
    constructor
    · intro c _
      split <;> simp
    · apply List.Pairwise.imp_of_mem _ (List.pairwise_lt_range W)
      intro c c2 hc hc2 hlt
      show List.Disjoint _ _
      intro a ha ha2
      beta_reduce at ha ha2
      have e1 : a = luma_offset p_pic p_spu r c := by
        split at ha
        · simp at ha
        · simpa using ha
      have e2 : a = luma_offset p_pic p_spu r c2 := by
        split at ha2
        · simp at ha2
        · simpa using ha2
      have := luma_offset_inj p_pic p_spu W hp hWp r r c c2 (List.mem_range.1 hc)
        (List.mem_range.1 hc2) (e1.symm.trans e2)
      omega
  · apply List.Pairwise.imp_of_mem _ (List.pairwise_lt_range H)
    intro r r2 _ _ hlt
    show List.Disjoint _ _
    intro a ha ha2
    obtain ⟨c, hc, e1⟩ := hmem r a ha
    obtain ⟨c2, hc2, e2⟩ := hmem r2 a ha2
    have := luma_offset_inj p_pic p_spu W hp hWp r r2 c c2 hc hc2 (e1.symm.trans e2)
    omega

/-! ## Where the stores of `RenderI420` go, whatever the fuel -/

theorem stores_event (p_data : Int → ogt_yuvt_t) (b_crop : Bool) (base : Int) (w : CropWindow)
    (i_x i_y src0 src a : Int)
    (h : (src, a) ∈ stores [RenderI420.event p_data b_crop base w i_x i_y src0]) :
    a = base - i_x - i_y := by
  unfold RenderI420.event at h
  split at h
  · simp [stores] at h
  · split at h
    · simp [stores] at h
    · simp [stores] at h
      exact h.2

/-- An inner loop of `RenderI420` that ends was started at a counter `i_x ≥ 0` and has stored
only at the offsets `base - i - i_y` with `1 ≤ i ≤ i_x`. -/
theorem loop_x_stores_in (p_data : Int → ogt_yuvt_t) (b_crop : Bool) (base : Int)
    (w : CropWindow) (i_y : Int) : ∀ (fuel : Nat) (i_x : Int) (st st1 : I420State),
    RenderI420.loop_x p_data b_crop base w i_y fuel i_x st = some st1 →
    0 ≤ i_x ∧ ∃ new, st1.log = st.log ++ new
      ∧ ∀ src a, (src, a) ∈ stores new → ∃ i : Int, 1 ≤ i ∧ i ≤ i_x ∧ a = base - i - i_y := by
  intro fuel
  induction fuel with
  | zero =>
    intro i_x st st1 h
    rw [RenderI420.loop_x] at h
    split at h
    · next hz =>
      cases h
      exact ⟨by omega, [], by simp, fun _ _ hin => absurd hin (List.not_mem_nil _)⟩
    · cases h
  | succ f ih =>
    intro i_x st st1 h
    rw [RenderI420.loop_x] at h
    split at h
    · next hz =>
      cases h
      exact ⟨by omega, [], by simp, fun _ _ hin => absurd hin (List.not_mem_nil _)⟩
    · obtain ⟨h0, new, hlog, hin⟩ := ih _ _ _ h
      dsimp only at hlog
      rw [body_log] at hlog
      refine ⟨by omega, RenderI420.event p_data b_crop base w i_x i_y st.p_source :: new,
        by rw [hlog]; simp, ?_⟩
      intro src a hmem
      have hsplit := stores_append [RenderI420.event p_data b_crop base w i_x i_y st.p_source] new
      rw [List.singleton_append] at hsplit
      rw [hsplit] at hmem
      rcases List.mem_append.1 hmem with hm | hm
      · exact ⟨i_x, by omega, le_refl _, stores_event _ _ _ _ _ _ _ _ _ hm⟩
      · obtain ⟨i, hi1, hi2, hia⟩ := hin src a hm
        exact ⟨i, hi1, by omega, hia⟩

/-- An outer loop of `RenderI420` over a plane of positive pitch that ends was started at a
counter `i_pitch * k` with `k ≥ 0` and has stored only at the offsets
`base - i - i_pitch * j` with `1 ≤ i ≤ i_width` and `1 ≤ j ≤ k`. -/
theorem loop_y_stores_in (p_data : Int → ogt_yuvt_t) (b_crop : Bool) (base : Int)
    (w : CropWindow) (i_width i_pitch : Int) (hp : 0 < i_pitch) (fuel_x : Nat) :
    ∀ (fuel : Nat) (k : Int) (st st1 : I420State),
    RenderI420.loop_y p_data b_crop base w i_width i_pitch fuel_x fuel (i_pitch * k) st
      = some st1 →
    0 ≤ k ∧ ∃ new, st1.log = st.log ++ new
      ∧ ∀ src a, (src, a) ∈ stores new →
          ∃ i j : Int, 1 ≤ i ∧ i ≤ i_width ∧ 1 ≤ j ∧ j ≤ k ∧ a = base - i - i_pitch * j := by
  intro fuel
  induction fuel with
  | zero =>
    intro k st st1 h
    rw [RenderI420.loop_y] at h
    split at h
    · next hz =>
      cases h
      have hk : k = 0 := by
        rcases mul_eq_zero.1 hz with h1 | h1
        · omega
        · exact h1
      exact ⟨by omega, [], by simp, fun _ _ hin => absurd hin (List.not_mem_nil _)⟩
    · cases h
  | succ f ih =>
    intro k st st1 h
    rw [RenderI420.loop_y] at h
    split at h
    · next hz =>
      cases h
      have hk : k = 0 := by
        rcases mul_eq_zero.1 hz with h1 | h1
        · omega
        · exact h1
      exact ⟨by omega, [], by simp, fun _ _ hin => absurd hin (List.not_mem_nil _)⟩
    · split at h
      · cases h
      · next str hrow =>
        obtain ⟨-, new1, hlog1, hin1⟩ := loop_x_stores_in p_data b_crop base w _ _ _ _ _ hrow
        have hnext : i_pitch * k - i_pitch = i_pitch * (k - 1) := by ring
        rw [hnext] at h
        obtain ⟨hk0, new2, hlog2, hin2⟩ := ih _ _ _ h
        refine ⟨by omega, new1 ++ new2, by rw [hlog2, hlog1, List.append_assoc], ?_⟩
        intro src a hmem
        rw [stores_append] at hmem
        rcases List.mem_append.1 hmem with hm | hm
        · obtain ⟨i, hi1, hi2, hia⟩ := hin1 src a hm
          exact ⟨i, k, hi1, hi2, by omega, le_refl _, hia⟩
        · obtain ⟨i, j, hi1, hi2, hj1, hj2, hia⟩ := hin2 src a hm
          exact ⟨i, j, hi1, hi2, hj1, by omega, hia⟩

/-- Every store of a call of `RenderI420` over a plane of positive pitch goes to a byte under
the overlay rectangle: row `i_y + r`, column `i_x + c` with `0 ≤ r < i_height` and
`0 ≤ c < i_width`, whatever the fuel, the crop setting and the crop box. -/
theorem RenderI420_stores_in (fuel : Nat) (p_vout : vout_thread_t) (p_pic : picture_t)
    (p_spu : subpicture_t) (b_crop : Bool) (res : Rendered)
    (hp : 0 < (p_pic.p Y_PLANE).i_pitch)
    (h : RenderI420 fuel p_vout p_pic p_spu b_crop = some res) :
    ∀ src a, (src, a) ∈ stores res.log →
      ∃ r c : Int, 0 ≤ r ∧ r < p_spu.i_height ∧ 0 ≤ c ∧ c < p_spu.i_width
        ∧ a = luma_offset p_pic p_spu r c := by
  unfold RenderI420 at h
  dsimp only at h
  split at h
  · cases h
  · next st hrun =>
    cases h
    rw [mul_comm] at hrun
    obtain ⟨-, new, hlog, hin⟩ := loop_y_stores_in _ _ _ _ _ _ hp _ _ _ _ _ hrun
    dsimp only at hlog
    rw [List.nil_append] at hlog
    intro src a hmem
    dsimp only at hmem
    rw [hlog] at hmem
    obtain ⟨i, j, hi1, hi2, hj1, hj2, hia⟩ := hin src a hmem
    refine ⟨p_spu.i_height - j, p_spu.i_width - i, by omega, by omega, by omega, by omega, ?_⟩
    rw [hia]
    unfold RenderI420.pixel_base luma_offset
    ring

/-- A byte under an overlay that lies inside a plane of `i_lines` lines lies inside the
plane. -/
theorem luma_offset_inside (p_pic : picture_t) (p_spu : subpicture_t) (i_lines r c : Int)
    (hp : 0 < (p_pic.p Y_PLANE).i_pitch)
    (hx0 : 0 ≤ p_spu.i_x) (hx1 : p_spu.i_x + p_spu.i_width ≤ (p_pic.p Y_PLANE).i_pitch)
    (hy0 : 0 ≤ p_spu.i_y) (hy1 : p_spu.i_y + p_spu.i_height ≤ i_lines)
    (hr0 : 0 ≤ r) (hr1 : r < p_spu.i_height) (hc0 : 0 ≤ c) (hc1 : c < p_spu.i_width) :
    0 ≤ luma_offset p_pic p_spu r c
      ∧ luma_offset p_pic p_spu r c < (p_pic.p Y_PLANE).i_pitch * i_lines := by
  unfold luma_offset
  have h1 : 0 ≤ (p_pic.p Y_PLANE).i_pitch * (p_spu.i_y + r) :=
    mul_nonneg (le_of_lt hp) (by omega)
  have h2 : (p_pic.p Y_PLANE).i_pitch * (p_spu.i_y + r + 1)
      ≤ (p_pic.p Y_PLANE).i_pitch * i_lines :=
    mul_le_mul_of_nonneg_left (by omega) (le_of_lt hp)
  have e : (p_pic.p Y_PLANE).i_pitch * (p_spu.i_y + r + 1)
      = (p_pic.p Y_PLANE).i_pitch * (p_spu.i_y + r) + (p_pic.p Y_PLANE).i_pitch := by ring
  constructor <;> omega

/-! ## Indexing the log of `RenderI420` -/

theorem flatMap_range_map_length {β : Type} (f : Nat → Nat → β) (W : Nat) : ∀ H : Nat,
    ((List.range H).flatMap (fun r : Nat => (List.range W).map (f r))).length = H * W := by
  intro H
  induction H with
  | zero => simp
  | succ H ih =>
    rw [List.range_succ, List.flatMap_append, List.length_append, ih]
    simp
    ring

theorem flatMap_range_map_getElem {β : Type} (f : Nat → Nat → β) (W : Nat) : ∀ (H r c : Nat),
    r < H → c < W →
    ((List.range H).flatMap (fun r : Nat => (List.range W).map (f r)))[r * W + c]?
      = some (f r c) := by
  intro H
  induction H with
  | zero => intro r c hr; omega
  | succ H ih =>
    intro r c hr hc
    rw [List.range_succ, List.flatMap_append]
    by_cases hlt : r < H
    · have hlen : r * W + c
          < ((List.range H).flatMap (fun r : Nat => (List.range W).map (f r))).length := by
        rw [flatMap_range_map_length]
        have : (r + 1) * W ≤ H * W := Nat.mul_le_mul_right W (by omega)
        have e : (r + 1) * W = r * W + W := by ring
        omega
      rw [List.getElem?_append_left hlen]
      exact ih r c hlt hc
    · have hr : r = H := by omega
      subst hr
      have hlen : ((List.range r).flatMap (fun r : Nat => (List.range W).map (f r))).length
          ≤ r * W + c := by
        rw [flatMap_range_map_length]; omega
      rw [List.getElem?_append_right hlen, flatMap_range_map_length]
      simp [hc]

theorem outcome_no_err (l : List Event) (h : ∀ e ∈ l, ∀ m, e ≠ Event.err m) :
    outcome l = Outcome.Ok := by
  induction l with
  | nil => rfl
  | cons e l ih =>
    have he := h e (List.mem_cons_self _ _)
    have hl := ih (fun e' he' => h e' (List.mem_cons_of_mem _ he'))
    cases e with
    | skip a b => exact hl
    | transparent s => exact hl
    | store s a => exact hl
    | err m => exact absurd rfl (he m)

theorem event_at_cases (p_pic : picture_t) (p_spu : subpicture_t) (b_crop : Bool) (r c : Int) :
    (RenderI420.event_at p_pic p_spu b_crop r c
          = Event.skip (p_spu.i_width - c) ((p_pic.p Y_PLANE).i_pitch * (p_spu.i_height - r))
        ∧ b_crop = true ∧ ¬ in_crop_box p_spu.p_sys r c)
      ∨ RenderI420.event_at p_pic p_spu b_crop r c = Event.transparent (r * p_spu.i_width + c)
      ∨ RenderI420.event_at p_pic p_spu b_crop r c
          = Event.store (r * p_spu.i_width + c) (luma_offset p_pic p_spu r c) := by
  unfold RenderI420.event_at
  by_cases h1 : b_crop = true ∧ ¬ in_crop_box p_spu.p_sys r c
  · rw [if_pos h1]; exact Or.inl ⟨rfl, h1⟩
  · rw [if_neg h1]
    by_cases h2 : (p_spu.p_sys.p_data (r * p_spu.i_width + c)).t = 0
    · rw [if_pos h2]; exact Or.inr (Or.inl rfl)
    · rw [if_neg h2]; exact Or.inr (Or.inr rfl)

/-! ## Blending twice -/

theorem blend_idem (dest luma alpha : Nat) (h : alpha = 0 ∨ alpha = 15) :
    blend (blend dest luma alpha) luma alpha = blend dest luma alpha := by
  rcases h with h | h
  · subst h; rw [blend_zero, blend_zero]
  · subst h; simp [blend, RenderI420.switch_t, MAX_ALPHA, ALPHA_BITS]

theorem setPixels_setPixels (p_pic : picture_t) (i : Nat) (px : Int → Nat) :
    (p_pic.setPixels i px).setPixels i px = p_pic.setPixels i px := by
  unfold picture_t.setPixels
  congr 1
  funext j
  by_cases hj : j = i <;> simp [hj]

theorem luma_offset_setPixels (p_pic : picture_t) (p_spu : subpicture_t) (px : Int → Nat)
    (r c : Int) :
    luma_offset (p_pic.setPixels Y_PLANE px) p_spu r c = luma_offset p_pic p_spu r c := by
  simp [luma_offset, picture_t.setPixels]

/-! ## The log of `RenderRV16` -/

theorem loop_lines_log (L : RV16Locals) (src i_ynext : Int) :
    ∀ (fuel : Nat) (i_ytmp : Int) (st st1 : RV16State),
    RenderRV16.loop_lines L src i_ynext fuel i_ytmp st = some st1 →
    st1.log = st.log ++ (RenderRV16.line_offsets L.i_pitch i_ynext fuel i_ytmp).map
      (fun off => Event.store src (L.p_pixel_base + off)) := by
  intro fuel
  induction fuel with
  | zero =>
    intro i_ytmp st st1 h
    rw [RenderRV16.loop_lines] at h
    split at h
    · cases h
    · cases h; simp [RenderRV16.line_offsets]
  | succ f ih =>
    intro i_ytmp st st1 h
    rw [RenderRV16.loop_lines] at h
    rw [RenderRV16.line_offsets]
    split at h
    · next hlt =>
      rw [if_pos hlt, ih _ _ _ h]
      simp
    · next hlt =>
      cases h
      rw [if_neg hlt]
      simp

theorem body_one_log (L : RV16Locals) (i_y i_y_src i_yreal i_x : Int) (s : RV16State)
    (fl : Flow) (h1 : i_y_src + Int.tdiv (L.i_width - i_x) L.i_xscale < L.p_src_end)
    (h : RenderRV16.body_one L i_y i_y_src i_yreal i_x s = some fl) :
    ∃ s1, fl = Flow.next s1
      ∧ s1.log = s.log ++ RenderRV16.events L [i_yreal] i_y i_y_src i_x := by
  unfold RenderRV16.body_one at h
  unfold RenderRV16.events
  split at h
  · next hc =>
    cases h
    exact ⟨_, rfl, by rw [if_pos hc]⟩
  · next hc =>
    dsimp only at h ⊢
    rw [if_neg hc, if_neg (by omega)]
    rw [if_neg (by omega)] at h
    split at h
    · next ht =>
      cases h
      exact ⟨_, rfl, by rw [if_pos ht]⟩
    · next ht =>
      cases h
      exact ⟨_, rfl, by rw [if_neg ht]; rfl⟩

theorem body_more_log (L : RV16Locals) (fuel : Nat) (i_y i_y_src i_yreal i_ynext i_x : Int)
    (s : RV16State) (fl : Flow)
    (h1 : i_y_src + Int.tdiv (L.i_width - i_x) L.i_xscale < L.p_src_end)
    (h : RenderRV16.body_more L fuel i_y i_y_src i_yreal i_ynext i_x s = some fl) :
    ∃ s1, fl = Flow.next s1
      ∧ s1.log = s.log ++ RenderRV16.events L
          (RenderRV16.line_offsets L.i_pitch i_ynext fuel i_yreal) i_y i_y_src i_x := by
  unfold RenderRV16.body_more at h
  unfold RenderRV16.events
  split at h
  · next hc =>
    cases h
    exact ⟨_, rfl, by rw [if_pos hc]⟩
  · next hc =>
    dsimp only at h ⊢
    rw [if_neg hc, if_neg (by omega)]
    rw [if_neg (by omega)] at h
    split at h
    · next ht =>
      cases h
      exact ⟨_, rfl, by rw [if_pos ht]⟩
    · next ht =>
      rw [if_neg ht]
      cases hl : RenderRV16.loop_lines L (i_y_src + Int.tdiv (L.i_width - i_x) L.i_xscale)
          i_ynext fuel i_yreal s with
      | none => rw [hl] at h; cases h
      | some s1 =>
        rw [hl] at h
        cases h
        exact ⟨s1, rfl, loop_lines_log L _ i_ynext fuel i_yreal s s1 hl⟩

/-- An inner loop of `RenderRV16` whose body appends `ev i_x` to the log and falls through: the
loop entered at `i_x = m` appends `ev m`, `ev (m - 1)`, ..., `ev 1` and falls through. -/
theorem RV16_loop_x_log (body : Int → RV16State → Option Flow) (ev : Int → List Event) (n : Int)
    (hbody : ∀ (i : Int) (s : RV16State) (fl : Flow), 0 < i → i ≤ n → body i s = some fl →
      ∃ s1, fl = Flow.next s1 ∧ s1.log = s.log ++ ev i) :
    ∀ (fuel m : Nat) (st : RV16State) (fl : Flow), (m : Int) ≤ n →
    RenderRV16.loop_x body fuel (m : Int) st = some fl →
    ∃ s1, fl = Flow.next s1
      ∧ s1.log = st.log ++ (List.range m).flatMap (fun j : Nat => ev ((m : Int) - j)) := by
  intro fuel
  induction fuel with
  | zero =>
    intro m st fl _ h
    rw [RenderRV16.loop_x] at h
    split at h
    · next hz =>
      cases h
      have : m = 0 := by omega
      subst this
      exact ⟨st, rfl, by simp⟩
    · cases h
  | succ f ih =>
    intro m st fl hm h
    rw [RenderRV16.loop_x] at h
    split at h
    · next hz =>
      cases h
      have : m = 0 := by omega
      subst this
      exact ⟨st, rfl, by simp⟩
    · next hne =>
      obtain ⟨m', rfl⟩ : ∃ m', m = m' + 1 := ⟨m - 1, by omega⟩
      cases hb : body ((m' + 1 : Nat) : Int) st with
      | none => rw [hb] at h; cases h
      | some fl1 =>
        obtain ⟨s1, rfl, hlog1⟩ := hbody _ st fl1 (by omega) hm hb
        rw [hb] at h
        dsimp only at h
        have hpred : ((m' + 1 : Nat) : Int) - 1 = (m' : Int) := by omega
        rw [hpred] at h
        obtain ⟨s2, hfl, hlog2⟩ := ih m' s1 fl (by omega) h
        refine ⟨s2, hfl, ?_⟩
        rw [hlog2, hlog1, List.range_succ_eq_map, List.flatMap_cons, List.flatMap_map,
          List.append_assoc]
        have e0 : ((m' + 1 : Nat) : Int) - ((0 : Nat) : Int) = ((m' + 1 : Nat) : Int) := by simp
        have e1 : ∀ j : Nat, ((m' + 1 : Nat) : Int) - ((Nat.succ j : Nat) : Int)
            = (m' : Int) - (j : Int) := by
          intro j; push_cast; ring
        simp only [Function.comp, e0, e1]

/-- The outer loop of `RenderRV16`, for a positive `i_yscale`, a non-negative `i_xscale` and an
overlay of `W ≥ 0` columns and `H` lines, entered at source line `k`: if it ends, it falls
through and its log entries are, source line by source line and counter `i_x` by counter
`i_x`, those of `RenderRV16.events` at the line offsets of `RenderRV16.row_offsets`. -/
theorem RV16_loop_y_log (L : RV16Locals) (fuel_in : Nat) (W : Int) (H n : Nat)
    (hW : 0 ≤ W) (hxs : 0 ≤ L.i_xscale) (hys : 0 < L.i_yscale)
    (hsw : L.spu_width = W) (hend : L.p_src_end = H * W)
    (hwid : L.i_width = W * L.i_xscale) (hn : L.i_width = n)
    (hhei : L.i_height = H * L.i_yscale) :
    ∀ (fuel : Nat) (k : Nat) (st : RV16State) (fl : Flow), k ≤ H →
    RenderRV16.loop_y L fuel_in fuel (k * L.i_yscale) st = some fl →
    ∃ s1, fl = Flow.next s1
      ∧ s1.log = st.log ++ (List.range (H - k)).flatMap (fun i : Nat =>
          (List.range n).flatMap (fun j : Nat =>
            RenderRV16.events L
              (RenderRV16.row_offsets L fuel_in (((k + i : Nat) : Int) * L.i_yscale))
              (((k + i : Nat) : Int) * L.i_yscale + L.i_yscale)
              (((k + i : Nat) : Int) * W) ((n : Int) - j))) := by
  intro fuel
  induction fuel with
  | zero =>
    intro k st fl hk h
    rw [RenderRV16.loop_y] at h
    split at h
    · cases h
    · next hge =>
      cases h
      have hkH : ¬ ((k : Int) < H) := by
        intro hlt
        apply hge
        rw [hhei]
        exact mul_lt_mul_of_pos_right hlt hys
      have : H - k = 0 := by omega
      rw [this]
      exact ⟨st, rfl, by simp⟩
  | succ f ih =>
    intro k st fl hk h
    rw [RenderRV16.loop_y] at h
    split at h
    · next hlt =>
      dsimp only at h
      have hys0 : L.i_yscale ≠ 0 := by omega
      have hkH : (k : Int) < H := by
        rw [hhei] at hlt
        exact lt_of_mul_lt_mul_right hlt (le_of_lt hys)
      have hsrc : Int.tdiv ((k : Int) * L.i_yscale) L.i_yscale * L.spu_width = k * W := by
        rw [Int.mul_tdiv_cancel _ hys0, hsw]
      have hnext : (k : Int) * L.i_yscale + L.i_yscale = ((k + 1 : Nat) : Int) * L.i_yscale := by
        push_cast; ring
      have hkW : (k : Int) * W + W ≤ H * W := by
        have : ((k : Int) + 1) * W ≤ H * W := mul_le_mul_of_nonneg_right (by omega) hW
        linarith
      have hbound : ∀ i : Int, 0 < i → i ≤ L.i_width →
          (k : Int) * W + Int.tdiv (L.i_width - i) L.i_xscale < L.p_src_end := by
        intro i hi0 hin
        have hxs0 : L.i_xscale ≠ 0 := by
          intro hz; rw [hwid, hz] at hin; simp at hin; omega
        have hxsp : 0 < L.i_xscale := lt_of_le_of_ne hxs (Ne.symm hxs0)
        have hd1 : Int.tdiv (L.i_width - i) L.i_xscale < W := by
          rw [Int.tdiv_eq_ediv (by omega) hxs]
          exact Int.ediv_lt_of_lt_mul hxsp (by rw [← hwid]; omega)
        rw [hend]
        omega
      rw [hsrc] at h
      have hrow : ∀ row : Option Flow, row = (if ((k : Int) * L.i_yscale) >>> (6 : Nat) + 1
            ≥ ((k : Int) * L.i_yscale + L.i_yscale) >>> (6 : Nat) then
          RenderRV16.loop_x (RenderRV16.body_one L ((k : Int) * L.i_yscale + L.i_yscale)
            ((k : Int) * W) (L.i_pitch * (((k : Int) * L.i_yscale) >>> (6 : Nat))))
            fuel_in L.i_width st
        else
          RenderRV16.loop_x (RenderRV16.body_more L fuel_in ((k : Int) * L.i_yscale + L.i_yscale)
            ((k : Int) * W) (L.i_pitch * (((k : Int) * L.i_yscale) >>> (6 : Nat)))
            ((L.i_pitch * ((k : Int) * L.i_yscale + L.i_yscale)) >>> (6 : Nat)))
            fuel_in L.i_width st) →
          ∀ fl1, row = some fl1 → ∃ s1, fl1 = Flow.next s1
            ∧ s1.log = st.log ++ (List.range n).flatMap (fun j : Nat =>
                RenderRV16.events L (RenderRV16.row_offsets L fuel_in ((k : Int) * L.i_yscale))
                  ((k : Int) * L.i_yscale + L.i_yscale) ((k : Int) * W) ((n : Int) - j)) := by
        intro row hrow fl1 hfl1
        rw [hrow] at hfl1
        unfold RenderRV16.row_offsets
        dsimp only
        rw [hn] at hfl1
        split at hfl1
        · next hc =>
          rw [if_pos hc]
          exact RV16_loop_x_log _ _ L.i_width
            (fun i s fl2 hi0 hin hb => body_one_log L _ _ _ i s fl2 (hbound i hi0 hin) hb)
            fuel_in n st fl1 (by rw [hn]) hfl1
        · next hc =>
          rw [if_neg hc]
          exact RV16_loop_x_log _ _ L.i_width
            (fun i s fl2 hi0 hin hb => body_more_log L fuel_in _ _ _ _ i s fl2
              (hbound i hi0 hin) hb)
            fuel_in n st fl1 (by rw [hn]) hfl1
      have hHk : H - k = (H - (k + 1)) + 1 := by omega
      have hjoin : ∀ new : List Event, new = (List.range n).flatMap (fun j : Nat =>
            RenderRV16.events L (RenderRV16.row_offsets L fuel_in ((k : Int) * L.i_yscale))
              ((k : Int) * L.i_yscale + L.i_yscale) ((k : Int) * W) ((n : Int) - j)) →
          new ++ (List.range (H - (k + 1))).flatMap (fun i : Nat =>
            (List.range n).flatMap (fun j : Nat =>
              RenderRV16.events L
                (RenderRV16.row_offsets L fuel_in (((k + 1 + i : Nat) : Int) * L.i_yscale))
                (((k + 1 + i : Nat) : Int) * L.i_yscale + L.i_yscale)
                (((k + 1 + i : Nat) : Int) * W) ((n : Int) - j)))
          = (List.range (H - k)).flatMap (fun i : Nat =>
            (List.range n).flatMap (fun j : Nat =>
              RenderRV16.events L
                (RenderRV16.row_offsets L fuel_in (((k + i : Nat) : Int) * L.i_yscale))
                (((k + i : Nat) : Int) * L.i_yscale + L.i_yscale)
                (((k + i : Nat) : Int) * W) ((n : Int) - j))) := by
        intro new hnew
        rw [hHk, List.range_succ_eq_map, List.flatMap_cons, List.flatMap_map, hnew]
        refine congrArg₂ (fun a b : List Event => a ++ b) rfl ?_
        apply List.flatMap_congr
        intro i _
        have e1 : k + 1 + i = k + Nat.succ i := by omega
        simp only [Function.comp, e1]
      split at h
      · cases h
      · next st1 hr =>
        obtain ⟨s1, hfl, -⟩ := hrow _ rfl _ hr
        cases hfl
      · next st1 hr =>
        obtain ⟨s1, hfl, hlog1⟩ := hrow _ rfl _ hr
        cases hfl
        rw [hnext] at h
        obtain ⟨s2, hfl2, hlog2⟩ := ih (k + 1) _ fl (by omega) h
        refine ⟨s2, hfl2, ?_⟩
        rw [hlog2, hlog1, List.append_assoc, hjoin _ rfl]
    · next hge =>
      cases h
      have hkH : ¬ ((k : Int) < H) := by
        intro hlt
        apply hge
        rw [hhei]
        exact mul_lt_mul_of_pos_right hlt hys
      have : H - k = 0 := by omega
      rw [this]
      exact ⟨st, rfl, by simp⟩

/-- The log of a call of `RenderRV16` that ends, for a positive `i_yscale`, a non-negative
`i_xscale` and an overlay of non-negative width and `H` lines. -/
theorem RenderRV16_log (fuel : Nat) (p_vout : vout_thread_t) (p_pic : picture_t)
    (p_spu : subpicture_t) (b_crop : Bool) (H n : Nat) (res : Rendered)
    (hW : 0 ≤ p_spu.i_width) (hH : p_spu.i_height = H)
    (hxs : 0 ≤ Int.tdiv (p_vout.output.i_width * 2 ^ 6) p_vout.render.i_width)
    (hys : 0 < Int.tdiv (p_vout.output.i_height * 2 ^ 6) p_vout.render.i_height)
    (hn : p_spu.i_width * Int.tdiv (p_vout.output.i_width * 2 ^ 6) p_vout.render.i_width = n)
    (h : RenderRV16 fuel p_vout p_pic p_spu b_crop = some res) :
    res.log = (List.range H).flatMap (fun k : Nat => (List.range n).flatMap (fun j : Nat =>
      RenderRV16.events (RenderRV16.locals p_vout p_pic p_spu b_crop)
        (RenderRV16.row_offsets (RenderRV16.locals p_vout p_pic p_spu b_crop) fuel
          ((k : Int) * (RenderRV16.locals p_vout p_pic p_spu b_crop).i_yscale))
        ((k : Int) * (RenderRV16.locals p_vout p_pic p_spu b_crop).i_yscale
          + (RenderRV16.locals p_vout p_pic p_spu b_crop).i_yscale)
        ((k : Int) * p_spu.i_width) ((n : Int) - j))) := by
  unfold RenderRV16 at h
  dsimp only at h
  have hlog := RV16_loop_y_log (RenderRV16.locals p_vout p_pic p_spu b_crop) fuel
    p_spu.i_width H n hW hxs hys rfl (by simp [RenderRV16.locals, hH]) rfl hn
    (by simp [RenderRV16.locals, hH]) fuel 0 ⟨(p_pic.p 0).p_pixels, []⟩
  have e0 : ((0 : Nat) : Int) * (RenderRV16.locals p_vout p_pic p_spu b_crop).i_yscale = 0 := by
    simp
  rw [e0] at hlog
  cases hl : RenderRV16.loop_y (RenderRV16.locals p_vout p_pic p_spu b_crop) fuel fuel 0
      ⟨(p_pic.p 0).p_pixels, []⟩ with
  | none => rw [hl] at h; cases h
  | some fl =>
    obtain ⟨s1, rfl, hlog1⟩ := hlog fl (Nat.zero_le H) hl
    rw [hl] at h
    cases h
    dsimp only at hlog1 ⊢
    rw [hlog1]
    simp only [List.nil_append, Nat.sub_zero, Nat.zero_add]

/-! ## The lines filled at a whole-number magnification -/

theorem line_offsets_whole (pitch : Int) (hp : 0 < pitch) : ∀ (d fuel : Nat) (y0 : Int),
    d ≤ fuel →
    RenderRV16.line_offsets pitch (pitch * (y0 + d)) fuel (pitch * y0)
      = (List.range d).map (fun e : Nat => pitch * (y0 + e)) := by
  intro d
  induction d with
  | zero =>
    intro fuel y0 _
    cases fuel with
    | zero => simp [RenderRV16.line_offsets]
    | succ f => simp [RenderRV16.line_offsets]
  | succ d ih =>
    intro fuel y0 hf
    obtain ⟨f, rfl⟩ : ∃ f, fuel = f + 1 := ⟨fuel - 1, by omega⟩
    have hlt : pitch * y0 < pitch * (y0 + ((d + 1 : Nat) : Int)) :=
      mul_lt_mul_of_pos_left (by push_cast; omega) hp
    have e1 : pitch * y0 + pitch = pitch * (y0 + 1) := by ring
    have e2 : pitch * (y0 + ((d + 1 : Nat) : Int)) = pitch * (y0 + 1 + (d : Int)) := by
      push_cast; ring
    rw [RenderRV16.line_offsets, if_pos hlt, e1, e2, ih f (y0 + 1) (by omega),
      List.range_succ_eq_map, List.map_cons, List.map_map]
    have e3 : ∀ e : Nat, pitch * (y0 + ((Nat.succ e : Nat) : Int)) = pitch * (y0 + 1 + (e : Int)) := by
      intro e; push_cast; ring
    simp only [Nat.cast_zero, add_zero]
    congr 1
    apply List.map_congr_left
    intro e _
    simp only [Function.comp, e3]

/-- At `i_yscale = 64 * m` with `m ≥ 1`, over a plane of positive pitch, source line `k` fills
the `m` lines `k * m`, ..., `k * m + m - 1`. -/
theorem row_offsets_whole (L : RV16Locals) (fuel m : Nat) (k : Nat)
    (hp : 0 < L.i_pitch) (hys : L.i_yscale = 64 * (m : Int)) (hm : 1 ≤ m) (hf : m ≤ fuel) :
    RenderRV16.row_offsets L fuel ((k : Int) * L.i_yscale)
      = (List.range m).map (fun d : Nat => L.i_pitch * ((k * m + d : Nat) : Int)) := by
  unfold RenderRV16.row_offsets
  dsimp only
  have h64 : ((2 ^ 6 : Nat) : Int) = 64 := by norm_num
  have ea : ((k : Int) * L.i_yscale) >>> (6 : Nat) = (k : Int) * m := by
    rw [Int.shiftRight_eq_div_pow, h64, hys]
    have : (k : Int) * (64 * (m : Int)) = 64 * ((k : Int) * m) := by ring
    rw [this]
    omega
  have eb : ((k : Int) * L.i_yscale + L.i_yscale) >>> (6 : Nat) = (k : Int) * m + m := by
    rw [Int.shiftRight_eq_div_pow, h64, hys]
    have : (k : Int) * (64 * (m : Int)) + 64 * (m : Int) = 64 * ((k : Int) * m + m) := by ring
    rw [this]
    omega
  have ec : (L.i_pitch * ((k : Int) * L.i_yscale + L.i_yscale)) >>> (6 : Nat)
      = L.i_pitch * ((k : Int) * m + m) := by
    rw [Int.shiftRight_eq_div_pow, h64, hys]
    have : L.i_pitch * ((k : Int) * (64 * (m : Int)) + 64 * (m : Int))
        = 64 * (L.i_pitch * ((k : Int) * m + m)) := by ring
    rw [this]
    omega
  have ed : ∀ d : Nat, ((k * m + d : Nat) : Int) = (k : Int) * m + d := by
    intro d; push_cast; ring
  rw [ea, eb, ec]
  simp only [ed]
  by_cases h1 : m = 1
  · subst h1
    rw [if_pos (by omega)]
    simp [List.range_succ]
  · rw [if_neg (by omega)]
    exact line_offsets_whole L.i_pitch hp m fuel _ hf

theorem mem_whole_rows (pitch : Int) (hp : 0 < pitch) (m k y : Nat) :
    pitch * (y : Int) ∈ (List.range m).map (fun d : Nat => pitch * ((k * m + d : Nat) : Int))
      ↔ ∃ d : Nat, d < m ∧ k * m + d = y := by
  rw [List.mem_map]
  constructor
  · rintro ⟨d, hd, heq⟩
    refine ⟨d, List.mem_range.1 hd, ?_⟩
    have := mul_left_cancel₀ (ne_of_gt hp) heq
    exact_mod_cast this
  · rintro ⟨d, hd, heq⟩
    exact ⟨d, List.mem_range.2 hd, by rw [heq]⟩

theorem whole_row_iff (m k y : Nat) (hm : 1 ≤ m) :
    (∃ d : Nat, d < m ∧ k * m + d = y) ↔ k = y / m := by
  constructor
  · rintro ⟨d, hd, rfl⟩
    symm
    apply Nat.div_eq_of_lt_le
    · omega
    · have e : (k + 1) * m = k * m + m := by ring
      show k * m + d < (k + 1) * m
      omega
  · intro hk
    refine ⟨y % m, Nat.mod_lt _ (by omega), ?_⟩
    rw [hk, Nat.mul_comm]
    exact Nat.div_add_mod y m

theorem nearest_row (m y : Nat) (hm : 1 ≤ m) :
    Int.tdiv ((y : Int) * 2 ^ 6) (64 * (m : Int)) = ((y / m : Nat) : Int) := by
  rw [Int.tdiv_eq_ediv (by positivity) (by positivity)]
  have e : (y : Int) * 2 ^ 6 = 64 * (y : Int) := by ring
  rw [e, Int.mul_ediv_mul_of_pos _ _ (by norm_num)]
  norm_cast

/-! ## The claims -/

/-- C1: for every render request whose destination tag is I420, IYUV or YV12, with crop
disabled, pitch > 0, overlay width ≤ pitch, every sample alpha in `0..15` (samples and
destination bytes being bytes): `VCDSubRender` ends, and afterwards the luma-plane byte at row
`i_y + r`, column `i_x + c` is the three-case blend rule of the specification applied to the
byte that was there, the luma and the alpha of sample `r * width + c`, for every `r < height`
and `c < width`. -/
theorem C1_I420_row_major_blend (fuel : Nat) (p_vout : vout_thread_t) (p_pic : picture_t)
    (p_spu : subpicture_t) (W H : Nat)
    (hchroma : p_vout.output.i_chroma = VLC_FOURCC 'I' '4' '2' '0'
      ∨ p_vout.output.i_chroma = VLC_FOURCC 'I' 'Y' 'U' 'V'
      ∨ p_vout.output.i_chroma = VLC_FOURCC 'Y' 'V' '1' '2')
    (hcrop : p_spu.p_sys.b_crop = false)
    (hW : p_spu.i_width = W) (hH : p_spu.i_height = H)
    (hp : 0 < (p_pic.p Y_PLANE).i_pitch) (hWp : (W : Int) ≤ (p_pic.p Y_PLANE).i_pitch)
    (halpha : ∀ r c : Nat, r < H → c < W → (p_spu.p_sys.p_data (r * W + c)).t ≤ 15)
    (hluma : ∀ r c : Nat, r < H → c < W → (p_spu.p_sys.p_data (r * W + c)).y < 256)
    (hbyte : ∀ a : Int, (p_pic.p Y_PLANE).p_pixels a < 256)
    (hfW : W ≤ fuel) (hfH : H ≤ fuel) :
    ∃ res, VCDSubRender fuel p_vout p_pic p_spu = some res
      ∧ ∀ r c : Nat, r < H → c < W →
        (res.pic.p Y_PLANE).p_pixels (luma_offset p_pic p_spu r c)
          = spec_blend ((p_pic.p Y_PLANE).p_pixels (luma_offset p_pic p_spu r c))
              (p_spu.p_sys.p_data (r * W + c)).y (p_spu.p_sys.p_data (r * W + c)).t := by
  obtain ⟨px, hrun, -, hpix⟩ :=
    RenderI420_run fuel p_vout p_pic p_spu p_spu.p_sys.b_crop W H hW hH hp hfW hfH
  refine ⟨_, by rw [VCDSubRender_I420 fuel p_vout p_pic p_spu hchroma]; exact hrun, ?_⟩
  intro r c hr hc
  dsimp only
  rw [setPixels_pixels, hpix hWp r c hr hc, if_neg (by simp [hcrop]),
    spec_blend_eq _ _ _ (hluma r c hr hc) (hbyte _) (halpha r c hr hc)]

/-- C1 at example A: the 4x4 overlay of `{luma 200, alpha 15}` over a zero-filled plane of pitch 4,
with the tag I420. -/
theorem C1_I420_row_major_blend_witness :
    ∃ res, VCDSubRender 4 example_vout (filled_picture 4 0) exampleA_spu = some res
      ∧ ∀ r c : Nat, r < 4 → c < 4 →
        (res.pic.p Y_PLANE).p_pixels (luma_offset (filled_picture 4 0) exampleA_spu r c)
          = spec_blend ((filled_picture 4 0).p Y_PLANE |>.p_pixels
                (luma_offset (filled_picture 4 0) exampleA_spu r c))
              (exampleA_spu.p_sys.p_data (r * (4 : Nat) + c)).y
              (exampleA_spu.p_sys.p_data (r * (4 : Nat) + c)).t :=
  C1_I420_row_major_blend 4 example_vout (filled_picture 4 0) exampleA_spu 4 4
    (Or.inl rfl) rfl rfl rfl (by decide) (by decide)
    (fun _ _ _ _ => Nat.le_refl 15) (fun _ _ _ _ => (by decide : (200 : Nat) < 256))
    (fun _ => (by decide : (0 : Nat) < 256))
    (le_refl _) (le_refl _)

/-- C2: for every `dest` and `luma` (in `0..255`, and beyond), `blend dest luma 0 = dest`; for a
sample of alpha 0 the `switch` of the I420 path stores nothing, so that an iteration of the
inner loop on such a sample leaves every byte as it was and adds no store to the log. -/
theorem C2_blend_alpha_zero (dest luma : Nat) :
    blend dest luma 0 = dest
      ∧ RenderI420.switch_t ⟨luma, 0⟩ dest = none
      ∧ ∀ (p_data : Int → ogt_yuvt_t) (b_crop : Bool) (base : Int) (w : CropWindow)
          (i_x i_y : Int) (st : I420State), (p_data st.p_source).t = 0 →
          (RenderI420.body p_data b_crop base w i_x i_y st).pixels = st.pixels
            ∧ stores (RenderI420.body p_data b_crop base w i_x i_y st).log = stores st.log := by
  refine ⟨blend_zero luma dest, switch_t_zero luma dest, ?_⟩
  intro p_data b_crop base w i_x i_y st h0
  constructor
  · funext a
    rw [body_pixels, h0, blend_zero]
    split <;> rfl
  · rw [body_log, stores_append]
    unfold RenderI420.event
    rw [if_pos h0]
    split <;> simp [stores]

/-- C2 at a sample `{luma 200, alpha 0}` over a plane filled with `0x7F`. -/
theorem C2_blend_alpha_zero_witness :
    (RenderI420.body (fun _ => ⟨200, 0⟩) false 0 ⟨0, 0, 0, 0⟩ 1 1 ⟨fun _ => 0x7F, 0, []⟩).pixels
        = (fun _ => 0x7F)
      ∧ stores (RenderI420.body (fun _ => ⟨200, 0⟩) false 0 ⟨0, 0, 0, 0⟩ 1 1
          ⟨fun _ => 0x7F, 0, []⟩).log = stores [] :=
  (C2_blend_alpha_zero 0x7F 200).2.2 (fun _ => ⟨200, 0⟩) false 0 ⟨0, 0, 0, 0⟩ 1 1
    ⟨fun _ => 0x7F, 0, []⟩ rfl

/-- C3: for every `dest1`, `dest2` and every `luma` in `0..255`,
`blend dest1 luma 15 = blend dest2 luma 15 = (luma * 15) >> 4`, and this is the byte the
I420 path stores at maximal alpha, whatever the destination byte held. -/
theorem C3_blend_alpha_max (dest1 dest2 luma : Nat) (hl : luma < 256) :
    blend dest1 luma 15 = blend dest2 luma 15
      ∧ blend dest2 luma 15 = (luma * 15) >>> 4
      ∧ RenderI420.switch_t ⟨luma, 15⟩ dest1 = some ((luma * 15) >>> 4) := by
  rw [blend_max luma dest1 hl, blend_max luma dest2 hl, switch_t_max luma dest1 hl]
  simp [Nat.shiftRight_eq_div_pow]

/-- C3 at `luma = 255`, over the destination bytes 0 and 200. -/
theorem C3_blend_alpha_max_witness :
    (255 : Nat) < 256 ∧ (blend 0 255 15 = blend 200 255 15
      ∧ blend 200 255 15 = (255 * 15) >>> 4
      ∧ RenderI420.switch_t ⟨255, 15⟩ 0 = some ((255 * 15) >>> 4)) :=
  ⟨by decide, C3_blend_alpha_max 0 200 255 (by decide)⟩

/-- C4: for every `dest` and `luma` in `0..255` and every `alpha` in `1..14`, the byte the I420
path stores is `((luma * (alpha + 1)) + dest * (15 - alpha)) >> 4` computed over the unbounded
integers; the `uint16_t` intermediates stay below `2 ^ 16` and the result below `2 ^ 8`. -/
theorem C4_blend_no_wrap (dest luma alpha : Nat) (hl : luma < 256) (hd : dest < 256)
    (h1 : 1 ≤ alpha) (h14 : alpha ≤ 14) :
    (∃ v : Nat, RenderI420.switch_t ⟨luma, alpha⟩ dest = some v
        ∧ (v : Int) = ((luma : Int) * ((alpha : Int) + 1) + (dest : Int) * (15 - (alpha : Int))) >>> (4 : Nat))
      ∧ (luma : Int) * ((alpha : Int) + 1) < 2 ^ 16
      ∧ (luma : Int) * ((alpha : Int) + 1) + (dest : Int) * (15 - (alpha : Int)) < 2 ^ 16
      ∧ ((luma : Int) * ((alpha : Int) + 1) + (dest : Int) * (15 - (alpha : Int))) >>> (4 : Nat) < 2 ^ 8 := by
  have hA : luma * (alpha + 1) ≤ 255 * (alpha + 1) := Nat.mul_le_mul_right _ (by omega)
  have hB : dest * (15 - alpha) ≤ 255 * (15 - alpha) := Nat.mul_le_mul_right _ (by omega)
  have hcast : ((luma : Int) * ((alpha : Int) + 1) + (dest : Int) * (15 - (alpha : Int)))
      = ((luma * (alpha + 1) + dest * (15 - alpha) : Nat) : Int) := by
    push_cast [Nat.cast_sub (show alpha ≤ 15 by omega)]; ring
  have hA2 : (luma : Int) * ((alpha : Int) + 1) = ((luma * (alpha + 1) : Nat) : Int) := by
    push_cast; ring
  rw [hcast, hA2, Int.shiftRight_eq_div_pow]
  refine ⟨⟨_, switch_t_mid luma dest alpha hl hd h1 h14, ?_⟩, ?_, ?_, ?_⟩
  · norm_cast
  · omega
  · omega
  · omega

/-- C4 at the largest operands: `dest = luma = 255`, `alpha = 14`. -/
theorem C4_blend_no_wrap_witness :
    (∃ v : Nat, RenderI420.switch_t ⟨255, 14⟩ 255 = some v
        ∧ (v : Int) = (((255 : Nat) : Int) * (((14 : Nat) : Int) + 1)
            + ((255 : Nat) : Int) * (15 - ((14 : Nat) : Int))) >>> (4 : Nat))
      ∧ ((255 : Nat) : Int) * (((14 : Nat) : Int) + 1) < 2 ^ 16
      ∧ ((255 : Nat) : Int) * (((14 : Nat) : Int) + 1)
          + ((255 : Nat) : Int) * (15 - ((14 : Nat) : Int)) < 2 ^ 16
      ∧ (((255 : Nat) : Int) * (((14 : Nat) : Int) + 1)
          + ((255 : Nat) : Int) * (15 - ((14 : Nat) : Int))) >>> (4 : Nat) < 2 ^ 8 :=
  C4_blend_no_wrap 255 255 14 (by decide) (by decide) (by decide) (by decide)

/-- C5 as stated fails at two inputs. With `dest = 200`, `luma = 255`: `blend dest luma 15` is
`239 ≥ dest`, yet `blend dest luma 14 = 251` is above `blend dest luma 15`. With `dest = 239`,
`luma = 255`: `blend dest luma 15` is `239 ≤ dest`, yet `blend dest luma 1 = 241` is below
`blend dest luma 2 = 242`. -/
theorem C5_monotone_counterexample :
    (blend 200 255 15 ≥ 200 ∧ ¬ (blend 200 255 14 ≤ blend 200 255 (14 + 1)))
      ∧ (blend 239 255 15 ≤ 239 ∧ ¬ (blend 239 255 1 ≥ blend 239 255 (1 + 1))) := by
  decide

/-- C5, amended: for every `dest` and `luma` in `0..255`, `blend dest luma alpha` is monotonic in
`alpha` over `1..14`, in the direction given by comparing `luma` with `dest`: if `luma ≥ dest`
then `blend dest luma a ≤ blend dest luma (a + 1)` for every `a` in `1..13`, and if
`luma ≤ dest` then `blend dest luma a ≥ blend dest luma (a + 1)` for every `a` in `1..14`; the
last step never goes up: `blend dest luma 15 ≤ blend dest luma 14`. -/
theorem C5_monotone_amended (dest luma : Nat) (hd : dest < 256) (hl : luma < 256) :
    (luma ≥ dest → ∀ a, 1 ≤ a → a ≤ 13 → blend dest luma a ≤ blend dest luma (a + 1))
      ∧ (luma ≤ dest → ∀ a, 1 ≤ a → a ≤ 14 → blend dest luma a ≥ blend dest luma (a + 1))
      ∧ blend dest luma 15 ≤ blend dest luma 14 := by
  have h1514 : blend dest luma 15 ≤ blend dest luma 14 := by
    rw [blend_max luma dest hl, blend_mid luma dest 14 hl hd (by decide) (by decide)]
    omega
  refine ⟨?_, ?_, h1514⟩
  · intro hge a h1 h13
    rw [blend_mid luma dest a hl hd h1 (by omega),
      blend_mid luma dest (a + 1) hl hd (by omega) (by omega)]
    apply Nat.div_le_div_right
    have e : 15 - a = (15 - (a + 1)) + 1 := by omega
    rw [e]
    nlinarith
  · intro hle a h1 h14
    by_cases h : a = 14
    · subst h
      have h2 : blend dest luma 15 ≤ blend dest luma 14 := h1514
      exact h2
    · rw [blend_mid luma dest a hl hd h1 (by omega),
        blend_mid luma dest (a + 1) hl hd (by omega) (by omega)]
      apply Nat.div_le_div_right
      have e : 15 - a = (15 - (a + 1)) + 1 := by omega
      rw [e]
      nlinarith

/-- C5, amended, at `dest = 200`, `luma = 255`. -/
theorem C5_monotone_amended_witness :
    (200 : Nat) < 256 ∧ (255 : Nat) < 256 ∧
    ((255 ≥ 200 → ∀ a, 1 ≤ a → a ≤ 13 → blend 200 255 a ≤ blend 200 255 (a + 1))
      ∧ (255 ≤ 200 → ∀ a, 1 ≤ a → a ≤ 14 → blend 200 255 a ≥ blend 200 255 (a + 1))
      ∧ blend 200 255 15 ≤ blend 200 255 14) :=
  ⟨by decide, by decide, C5_monotone_amended 200 255 (by decide) (by decide)⟩

/-- C6: for every overlay (lumas being bytes), in particular one whose samples all have alpha 0
or alpha 15, rendered by the I420 path with crop disabled and width ≤ pitch: every destination byte under an
alpha-15 sample ends equal to `(luma * 15) >> 4` of that sample, whatever it held before, and
every destination byte under an alpha-0 sample keeps its value. -/
theorem C6_alpha_0_or_15 (fuel : Nat) (p_vout : vout_thread_t) (p_pic : picture_t)
    (p_spu : subpicture_t) (W H : Nat)
    (hW : p_spu.i_width = W) (hH : p_spu.i_height = H)
    (hp : 0 < (p_pic.p Y_PLANE).i_pitch) (hWp : (W : Int) ≤ (p_pic.p Y_PLANE).i_pitch)
    (hluma : ∀ r c : Nat, r < H → c < W → (p_spu.p_sys.p_data (r * W + c)).y < 256)
    (hfW : W ≤ fuel) (hfH : H ≤ fuel) :
    ∃ res, RenderI420 fuel p_vout p_pic p_spu false = some res
      ∧ ∀ r c : Nat, r < H → c < W →
        ((p_spu.p_sys.p_data (r * W + c)).t = 15 →
          (res.pic.p Y_PLANE).p_pixels (luma_offset p_pic p_spu r c)
            = ((p_spu.p_sys.p_data (r * W + c)).y * 15) >>> 4)
        ∧ ((p_spu.p_sys.p_data (r * W + c)).t = 0 →
          (res.pic.p Y_PLANE).p_pixels (luma_offset p_pic p_spu r c)
            = (p_pic.p Y_PLANE).p_pixels (luma_offset p_pic p_spu r c)) := by
  obtain ⟨px, hrun, -, hpix⟩ := RenderI420_run fuel p_vout p_pic p_spu false W H hW hH hp hfW hfH
  refine ⟨_, hrun, ?_⟩
  intro r c hr hc
  dsimp only
  rw [setPixels_pixels, hpix hWp r c hr hc, if_neg (by simp)]
  constructor
  · intro h15
    rw [h15, blend_max _ _ (hluma r c hr hc), Nat.shiftRight_eq_div_pow]
  · intro h0
    rw [h0, blend_zero]

/-- The two end-to-end examples of C6. A: the 4x4 overlay of `{luma 200, alpha 15}` on a
zero-filled 4x4 plane gives 187 everywhere. B: the 4x4 checkerboard of `{200, 0}` and
`{200, 15}` on a plane filled with `0x7F` leaves `0x7F` under the alpha-0 samples and gives 187
under the alpha-15 samples. -/
theorem C6_alpha_0_or_15_witness :
    (∃ res, RenderI420 4 example_vout (filled_picture 4 0) exampleA_spu false = some res
      ∧ ∀ r c : Nat, r < 4 → c < 4 → (res.pic.p Y_PLANE).p_pixels (4 * (r : Int) + c) = 187)
    ∧ (∃ res, RenderI420 4 example_vout (filled_picture 4 0x7F) exampleB_spu false = some res
      ∧ ∀ r c : Nat, r < 4 → c < 4 →
        (res.pic.p Y_PLANE).p_pixels (4 * (r : Int) + c) = if (r + c) % 2 = 0 then 0x7F else 187) := by
  constructor
  · obtain ⟨res, hrun, h⟩ := C6_alpha_0_or_15 4 example_vout (filled_picture 4 0)
      exampleA_spu 4 4 rfl rfl (by decide) (by decide)
      (fun _ _ _ _ => (by decide : (200 : Nat) < 256)) (le_refl _) (le_refl _)
    refine ⟨res, hrun, fun r c hr hc => ?_⟩
    have h1 := (h r c hr hc).1 rfl
    have e : luma_offset (filled_picture 4 0) exampleA_spu r c = 4 * (r : Int) + c := by
      simp [luma_offset, filled_picture, exampleA_spu]
    rw [e] at h1
    rw [h1]
    show ((200 : Nat) * 15) >>> 4 = 187
    decide
  · have hB : ∀ r c : Nat, r < 4 → c < 4 →
        (exampleB_spu.p_sys.p_data ((r : Int) * ((4 : Nat) : Int) + c)).t
          = if (r + c) % 2 = 0 then 0 else 15 := by
      intro r c hr hc
      have e1 : ((r : Int) * ((4 : Nat) : Int) + c) / 4 = r := by omega
      have e2 : ((r : Int) * ((4 : Nat) : Int) + c) % 4 = c := by omega
      show (if (((r : Int) * ((4 : Nat) : Int) + c) / 4 + ((r : Int) * ((4 : Nat) : Int) + c) % 4)
        % 2 = 0 then 0 else 15) = _
      rw [e1, e2]
      by_cases h : (r + c) % 2 = 0
      · rw [if_pos h, if_pos (by omega)]
      · rw [if_neg h, if_neg (by omega)]
    obtain ⟨res, hrun, h⟩ := C6_alpha_0_or_15 4 example_vout (filled_picture 4 0x7F)
      exampleB_spu 4 4 rfl rfl (by decide) (by decide)
      (fun _ _ _ _ => (by decide : (200 : Nat) < 256)) (le_refl _) (le_refl _)
    refine ⟨res, hrun, fun r c hr hc => ?_⟩
    have e : luma_offset (filled_picture 4 0x7F) exampleB_spu r c = 4 * (r : Int) + c := by
      simp [luma_offset, filled_picture, exampleB_spu]
    have h2 := h r c hr hc
    rw [e, hB r c hr hc] at h2
    by_cases hrc : (r + c) % 2 = 0
    · rw [if_pos hrc] at h2 ⊢
      rw [h2.2 rfl]
      rfl
    · rw [if_neg hrc] at h2 ⊢
      rw [h2.1 rfl]
      show ((200 : Nat) * 15) >>> 4 = 187
      decide

/-- C7: on the I420 path with crop enabled and pitch > 0, the crop test at the reversed loop
counters of overlay row `r`, column `c` skips exactly the positions outside the crop box
`i_x_start ≤ c ≤ i_x_end`, `i_y_start ≤ r ≤ i_y_end` (both ends included). The call ends and
its log is, in raster order, one entry per overlay position: inside the box the sample is read
at index `r * width + c` and, unless its alpha is 0, stored at row `i_y + r`, column `i_x + c`;
outside the box the iteration is skipped without a read or a store. When width ≤ pitch the
bytes under skipped positions keep their value and the others hold the blend. -/
theorem C7_crop_window (fuel : Nat) (p_vout : vout_thread_t) (p_pic : picture_t)
    (p_spu : subpicture_t) (W H : Nat)
    (hW : p_spu.i_width = W) (hH : p_spu.i_height = H)
    (hp : 0 < (p_pic.p Y_PLANE).i_pitch) (hfW : W ≤ fuel) (hfH : H ≤ fuel) :
    (∀ r c : Int,
      cropped true (RenderI420.window p_pic p_spu) (p_spu.i_width - c)
          ((p_pic.p Y_PLANE).i_pitch * (p_spu.i_height - r))
        ↔ ¬ (p_spu.p_sys.i_x_start ≤ c ∧ c ≤ p_spu.p_sys.i_x_end
              ∧ p_spu.p_sys.i_y_start ≤ r ∧ r ≤ p_spu.p_sys.i_y_end))
    ∧ ∃ res, RenderI420 fuel p_vout p_pic p_spu true = some res
      ∧ res.log = (List.range H).flatMap (fun r : Nat => (List.range W).map (fun c : Nat =>
          if p_spu.p_sys.i_x_start ≤ c ∧ (c : Int) ≤ p_spu.p_sys.i_x_end
              ∧ p_spu.p_sys.i_y_start ≤ r ∧ (r : Int) ≤ p_spu.p_sys.i_y_end then
            if (p_spu.p_sys.p_data (r * W + c)).t = 0 then Event.transparent (r * W + c)
            else Event.store (r * W + c) (luma_offset p_pic p_spu r c)
          else Event.skip ((W : Int) - c) ((p_pic.p Y_PLANE).i_pitch * ((H : Int) - r))))
      ∧ ((W : Int) ≤ (p_pic.p Y_PLANE).i_pitch → ∀ r c : Nat, r < H → c < W →
          (res.pic.p Y_PLANE).p_pixels (luma_offset p_pic p_spu r c) =
            if p_spu.p_sys.i_x_start ≤ c ∧ (c : Int) ≤ p_spu.p_sys.i_x_end
                ∧ p_spu.p_sys.i_y_start ≤ r ∧ (r : Int) ≤ p_spu.p_sys.i_y_end then
              blend ((p_pic.p Y_PLANE).p_pixels (luma_offset p_pic p_spu r c))
                (p_spu.p_sys.p_data (r * W + c)).y (p_spu.p_sys.p_data (r * W + c)).t
            else (p_pic.p Y_PLANE).p_pixels (luma_offset p_pic p_spu r c)) := by
  constructor
  · intro r c
    rw [cropped_window_iff p_pic p_spu true hp r c]
    simp [in_crop_box]
  · obtain ⟨px, hrun, -, hpix⟩ :=
      RenderI420_run fuel p_vout p_pic p_spu true W H hW hH hp hfW hfH
    refine ⟨_, hrun, ?_, ?_⟩
    · dsimp only
      apply List.flatMap_congr
      intro r _
      apply List.map_congr_left
      intro c _
      unfold RenderI420.event_at in_crop_box
      rw [hW, hH]
      by_cases hb : p_spu.p_sys.i_x_start ≤ c ∧ (c : Int) ≤ p_spu.p_sys.i_x_end
              ∧ p_spu.p_sys.i_y_start ≤ r ∧ (r : Int) ≤ p_spu.p_sys.i_y_end
      · rw [if_neg (by simp [hb]), if_pos hb]
      · rw [if_pos ⟨rfl, hb⟩, if_neg hb]
    · intro hWp r c hr hc
      dsimp only
      rw [setPixels_pixels, hpix hWp r c hr hc]
      unfold in_crop_box
      by_cases hb : p_spu.p_sys.i_x_start ≤ c ∧ (c : Int) ≤ p_spu.p_sys.i_x_end
              ∧ p_spu.p_sys.i_y_start ≤ r ∧ (r : Int) ≤ p_spu.p_sys.i_y_end
      · rw [if_neg (by simp [hb]), if_pos hb]
      · rw [if_pos ⟨rfl, hb⟩, if_neg hb]

/-- C7 on a 4x4 overlay with the crop box `1 ≤ c ≤ 2`, `1 ≤ r ≤ 2`: the four samples 5, 6, 9, 10
are stored, each at its own offset. -/
theorem C7_crop_window_witness :
    ∃ res, RenderI420 4 example_vout (filled_picture 4 0) (solid_spu 4 4 1 2 1 2) true = some res
      ∧ stores res.log = [(5, 5), (6, 6), (9, 9), (10, 10)] := by
  obtain ⟨res, hrun, hlog, -⟩ := (C7_crop_window 4 example_vout (filled_picture 4 0)
    (solid_spu 4 4 1 2 1 2) 4 4 rfl rfl (by decide) (le_refl _) (le_refl _)).2
  refine ⟨res, hrun, ?_⟩
  rw [hlog]
  decide

/-- C8: for every overlay (width, height ≥ 0), destination (pitch > 0) and chroma, hence on both
blit paths (on the RV16 path for any positive scale factors), rendering with crop enabled and
the crop box of the full overlay (`i_x_start = 0`, `i_x_end = width`, `i_y_start = 0`,
`i_y_end = height`) gives exactly the same picture and the same log (hence the same outcome) as
rendering with crop disabled, at every fuel; and with enough fuel the call ends. -/
theorem C8_full_crop_is_no_crop (fuel : Nat) (p_vout : vout_thread_t) (p_pic : picture_t)
    (p_spu : subpicture_t) (hW : 0 ≤ p_spu.i_width) (hH : 0 ≤ p_spu.i_height)
    (hp : 0 < (p_pic.p 0).i_pitch)
    (hxs : p_vout.output.i_chroma = VLC_FOURCC 'R' 'V' '1' '6' →
      0 < Int.tdiv (p_vout.output.i_width * 2 ^ 6) p_vout.render.i_width)
    (hys : p_vout.output.i_chroma = VLC_FOURCC 'R' 'V' '1' '6' →
      0 < Int.tdiv (p_vout.output.i_height * 2 ^ 6) p_vout.render.i_height) :
    VCDSubRender fuel p_vout p_pic (with_full_crop p_spu)
        = VCDSubRender fuel p_vout p_pic (without_crop p_spu)
      ∧ (p_spu.i_width ≤ fuel → p_spu.i_height ≤ fuel →
          (p_vout.output.i_chroma = VLC_FOURCC 'R' 'V' '1' '6' →
            p_spu.i_width * Int.tdiv (p_vout.output.i_width * 2 ^ 6) p_vout.render.i_width ≤ fuel
            ∧ Int.tdiv (p_vout.output.i_height * 2 ^ 6) p_vout.render.i_height ≤ fuel) →
          ∃ res, VCDSubRender fuel p_vout p_pic (without_crop p_spu) = some res) := by
  obtain ⟨W, hWn⟩ := Int.eq_ofNat_of_zero_le hW
  obtain ⟨H, hHn⟩ := Int.eq_ofNat_of_zero_le hH
  have hI := RenderI420_full_crop fuel p_vout p_pic p_spu W H hWn hHn (le_of_lt hp)
  unfold VCDSubRender
  dsimp only
  by_cases h1 : p_vout.output.i_chroma = VLC_FOURCC 'I' '4' '2' '0'
      ∨ p_vout.output.i_chroma = VLC_FOURCC 'I' 'Y' 'U' 'V'
      ∨ p_vout.output.i_chroma = VLC_FOURCC 'Y' 'V' '1' '2'
  · rw [if_pos h1, if_pos h1]
    refine ⟨hI, fun hfW hfH _ => ?_⟩
    obtain ⟨px, hrun, -⟩ := RenderI420_run fuel p_vout p_pic (without_crop p_spu) false W H
      hWn hHn hp (by rw [hWn] at hfW; exact_mod_cast hfW) (by rw [hHn] at hfH; exact_mod_cast hfH)
    exact ⟨_, hrun⟩
  · rw [if_neg h1, if_neg h1]
    by_cases h2 : p_vout.output.i_chroma = VLC_FOURCC 'R' 'V' '1' '6'
    · rw [if_pos h2, if_pos h2]
      refine ⟨RenderRV16_full_crop fuel p_vout p_pic p_spu hW (hxs h2) (hys h2),
        fun _ hfH hf => ?_⟩
      exact RenderRV16_ends fuel p_vout p_pic (without_crop p_spu) false H hW hHn hp
        (hxs h2) (hys h2) (hf h2).1 (hf h2).2 (by rw [hHn] at hfH; exact_mod_cast hfH)
    · rw [if_neg h2, if_neg h2]
      refine ⟨rfl, fun _ _ _ => ?_⟩
      split
      · exact ⟨_, rfl⟩
      · split <;> exact ⟨_, rfl⟩

/-- C8 on the RV16 path, at scale 2 (`i_xscale = i_yscale = 128`), on the overlay of example B. -/
theorem C8_full_crop_is_no_crop_witness :
    VCDSubRender 512 ⟨⟨8, 8, VLC_FOURCC 'R' 'V' '1' '6'⟩, ⟨4, 4, 0⟩⟩ (filled_picture 16 0)
        (with_full_crop exampleB_spu)
      = VCDSubRender 512 ⟨⟨8, 8, VLC_FOURCC 'R' 'V' '1' '6'⟩, ⟨4, 4, 0⟩⟩ (filled_picture 16 0)
        (without_crop exampleB_spu)
    ∧ ∃ res, VCDSubRender 512 ⟨⟨8, 8, VLC_FOURCC 'R' 'V' '1' '6'⟩, ⟨4, 4, 0⟩⟩
        (filled_picture 16 0) (without_crop exampleB_spu) = some res := by
  have h := C8_full_crop_is_no_crop 512 ⟨⟨8, 8, VLC_FOURCC 'R' 'V' '1' '6'⟩, ⟨4, 4, 0⟩⟩
    (filled_picture 16 0) exampleB_spu (by decide) (by decide) (by decide)
    (fun _ => by decide) (fun _ => by decide)
  exact ⟨h.1, h.2 (by decide) (by decide) (fun _ => by decide)⟩

/-- C9 as stated fails: a 2x2 overlay of opaque samples with the crop box `i_x_start = 0`,
`i_x_end = 1`, `i_y_start = 0`, `i_y_end = 1` (one pixel in the convention where
`(0, width, 0, height)` is the full overlay) has all four of its samples stored. -/
theorem C9_single_pixel_counterexample :
    (RenderI420 2 example_vout (filled_picture 2 0) (solid_spu 2 2 0 1 0 1) true).map
        (fun res => stores res.log)
      = some [(0, 0), (1, 1), (2, 2), (3, 3)] := by
  decide

/-- C9, amended: on the I420 path with crop enabled, pitch > 0 and a crop box that holds the
single overlay position row `y0`, column `x0` under the inclusive crop test
(`i_x_start = i_x_end = x0 < width`, `i_y_start = i_y_end = y0 < height`), whose sample has
non-zero alpha: the call ends and exactly one sample is blended, the sample `y0 * width + x0`,
stored at row `i_y + y0`, column `i_x + x0`. -/
theorem C9_single_pixel_amended (fuel : Nat) (p_vout : vout_thread_t) (p_pic : picture_t)
    (p_spu : subpicture_t) (W H x0 y0 : Nat)
    (hW : p_spu.i_width = W) (hH : p_spu.i_height = H)
    (hp : 0 < (p_pic.p Y_PLANE).i_pitch) (hfW : W ≤ fuel) (hfH : H ≤ fuel)
    (hx : x0 < W) (hy : y0 < H)
    (hxs : p_spu.p_sys.i_x_start = x0) (hxe : p_spu.p_sys.i_x_end = x0)
    (hys : p_spu.p_sys.i_y_start = y0) (hye : p_spu.p_sys.i_y_end = y0)
    (halpha : (p_spu.p_sys.p_data ((y0 : Int) * W + x0)).t ≠ 0) :
    ∃ res, RenderI420 fuel p_vout p_pic p_spu true = some res
      ∧ stores res.log = [((y0 : Int) * W + x0, luma_offset p_pic p_spu y0 x0)] := by
  obtain ⟨px, hrun, -, -⟩ := RenderI420_run fuel p_vout p_pic p_spu true W H hW hH hp hfW hfH
  refine ⟨_, hrun, ?_⟩
  dsimp only
  rw [stores_I420_log, flatMap_range_single _ H y0 hy, flatMap_range_single _ W x0 hx]
  · rw [if_neg, hW]
    rintro (⟨_, h⟩ | h)
    · exact h ⟨by omega, by omega, by omega, by omega⟩
    · rw [hW] at h; exact halpha h
  · intro c _ hc
    rw [if_pos]
    left
    refine ⟨rfl, ?_⟩
    rintro ⟨h1, h2, _, _⟩
    omega
  · intro r _ hr
    rw [List.flatMap_eq_nil_iff]
    intro c _
    rw [if_pos]
    left
    refine ⟨rfl, ?_⟩
    rintro ⟨_, _, h3, h4⟩
    omega

/-- C9, amended, on a 4x4 overlay with the crop box `i_x_start = i_x_end = 2`,
`i_y_start = i_y_end = 1`: the one sample stored is sample 6. -/
theorem C9_single_pixel_amended_witness :
    ∃ res, RenderI420 4 example_vout (filled_picture 4 0) (solid_spu 4 4 2 2 1 1) true = some res
      ∧ stores res.log = [(((1 : Nat) : Int) * (4 : Nat) + (2 : Nat),
          luma_offset (filled_picture 4 0) (solid_spu 4 4 2 2 1 1) (1 : Nat) (2 : Nat))] :=
  C9_single_pixel_amended 4 example_vout (filled_picture 4 0) (solid_spu 4 4 2 2 1 1) 4 4 2 1
    rfl rfl (by decide) (le_refl _) (le_refl _) (by decide) (by decide) rfl rfl rfl rfl
    (by decide)

/-- C10 as stated fails: a 1x1 overlay with an opaque sample and the zero-area crop box
`i_x_start = i_x_end = 0`, `i_y_start = i_y_end = 0` has its sample stored. -/
theorem C10_empty_box_counterexample :
    (RenderI420 1 example_vout (filled_picture 1 0) (solid_spu 1 1 0 0 0 0) true).map
        (fun res => stores res.log)
      = some [(0, 0)] := by
  decide

/-- C10, amended: on the I420 path with crop enabled, pitch > 0 and a crop box that holds no
overlay position under the inclusive crop test (`i_x_end < i_x_start`, or
`i_y_end < i_y_start`, or `i_x_start ≥ width`, or `i_y_start ≥ height`, or `i_x_end < 0`, or
`i_y_end < 0`; among them the zero-area boxes with `i_x_start = i_x_end = width` or
`i_y_start = i_y_end = height`): the call ends, every iteration is skipped, no store occurs and
every byte of the luma plane keeps its value, for every overlay and every sample content. -/
theorem C10_empty_box_amended (fuel : Nat) (p_vout : vout_thread_t) (p_pic : picture_t)
    (p_spu : subpicture_t) (W H : Nat)
    (hW : p_spu.i_width = W) (hH : p_spu.i_height = H)
    (hp : 0 < (p_pic.p Y_PLANE).i_pitch) (hfW : W ≤ fuel) (hfH : H ≤ fuel)
    (hbox : p_spu.p_sys.i_x_end < p_spu.p_sys.i_x_start
      ∨ p_spu.p_sys.i_y_end < p_spu.p_sys.i_y_start
      ∨ (W : Int) ≤ p_spu.p_sys.i_x_start ∨ (H : Int) ≤ p_spu.p_sys.i_y_start
      ∨ p_spu.p_sys.i_x_end < 0 ∨ p_spu.p_sys.i_y_end < 0) :
    ∃ res, RenderI420 fuel p_vout p_pic p_spu true = some res
      ∧ stores res.log = []
      ∧ res.log = (List.range H).flatMap (fun r : Nat => (List.range W).map (fun c : Nat =>
          Event.skip ((W : Int) - c) ((p_pic.p Y_PLANE).i_pitch * ((H : Int) - r))))
      ∧ ∀ a, (res.pic.p Y_PLANE).p_pixels a = (p_pic.p Y_PLANE).p_pixels a := by
  obtain ⟨px, hrun, -, -⟩ := RenderI420_run fuel p_vout p_pic p_spu true W H hW hH hp hfW hfH
  have hout : ∀ r c : Nat, r < H → c < W → ¬ in_crop_box p_spu.p_sys r c := by
    intro r c hr hc
    unfold in_crop_box
    rintro ⟨h1, h2, h3, h4⟩
    omega
  have hst : stores ((List.range H).flatMap (fun r : Nat => (List.range W).map (fun c : Nat =>
      RenderI420.event_at p_pic p_spu true r c))) = [] := by
    rw [stores_I420_log, List.flatMap_eq_nil_iff]
    intro r hr
    rw [List.flatMap_eq_nil_iff]
    intro c hc
    rw [if_pos]
    exact Or.inl ⟨rfl, hout r c (List.mem_range.1 hr) (List.mem_range.1 hc)⟩
  refine ⟨_, hrun, hst, ?_, ?_⟩
  · dsimp only
    apply List.flatMap_congr
    intro r hr
    apply List.map_congr_left
    intro c hc
    unfold RenderI420.event_at
    rw [if_pos ⟨rfl, hout r c (List.mem_range.1 hr) (List.mem_range.1 hc)⟩, hW, hH]
  · intro a
    apply (RenderI420_frame fuel p_vout p_pic p_spu true _ hrun).1
    intro src
    dsimp only
    rw [hst]
    exact List.not_mem_nil _

/-- C10, amended, on a 4x4 overlay with the zero-area crop box at the far corner (`4, 4, 4, 4`). -/
theorem C10_empty_box_amended_witness :
    ∃ res, RenderI420 4 example_vout (filled_picture 4 0) (solid_spu 4 4 4 4 4 4) true = some res
      ∧ stores res.log = []
      ∧ res.log = (List.range 4).flatMap (fun r : Nat => (List.range 4).map (fun c : Nat =>
          Event.skip (((4 : Nat) : Int) - c)
            (((filled_picture 4 0).p Y_PLANE).i_pitch * (((4 : Nat) : Int) - r))))
      ∧ ∀ a, (res.pic.p Y_PLANE).p_pixels a = ((filled_picture 4 0).p Y_PLANE).p_pixels a :=
  C10_empty_box_amended 4 example_vout (filled_picture 4 0) (solid_spu 4 4 4 4 4 4) 4 4
    rfl rfl (by decide) (le_refl _) (le_refl _) (Or.inr (Or.inr (Or.inl (by decide))))

/-- C11: for every destination format tag other than I420, IYUV, YV12 and RV16, `VCDSubRender`
ends at once (whatever the fuel, so without an iteration of either blit loop), its log is the
one `msg_Err` of the dispatch (the "not implemented" message for RV24 and RV32, the one for
YUY2, "unknown chroma" otherwise), the outcome is `SkippedUnsupportedFormat`, and the picture
is returned as it was. -/
theorem C11_unsupported_chroma (fuel : Nat) (p_vout : vout_thread_t) (p_pic : picture_t)
    (p_spu : subpicture_t)
    (hI420 : p_vout.output.i_chroma ≠ VLC_FOURCC 'I' '4' '2' '0')
    (hIYUV : p_vout.output.i_chroma ≠ VLC_FOURCC 'I' 'Y' 'U' 'V')
    (hYV12 : p_vout.output.i_chroma ≠ VLC_FOURCC 'Y' 'V' '1' '2')
    (hRV16 : p_vout.output.i_chroma ≠ VLC_FOURCC 'R' 'V' '1' '6') :
    ∃ res, VCDSubRender fuel p_vout p_pic p_spu = some res
      ∧ res.pic = p_pic
      ∧ res.log = [Event.err
          (if p_vout.output.i_chroma = VLC_FOURCC 'R' 'V' '2' '4'
              ∨ p_vout.output.i_chroma = VLC_FOURCC 'R' 'V' '3' '2' then
            ErrMsg.rv24_not_implemented
          else if p_vout.output.i_chroma = VLC_FOURCC 'Y' 'U' 'Y' '2' then
            ErrMsg.yuv2_not_implemented
          else ErrMsg.unknown_chroma)]
      ∧ outcome res.log = Outcome.SkippedUnsupportedFormat
      ∧ stores res.log = [] ∧ reads res.log = [] := by
  unfold VCDSubRender
  dsimp only
  rw [if_neg (by tauto), if_neg hRV16]
  by_cases h1 : p_vout.output.i_chroma = VLC_FOURCC 'R' 'V' '2' '4'
      ∨ p_vout.output.i_chroma = VLC_FOURCC 'R' 'V' '3' '2'
  · rw [if_pos h1, if_pos h1]
    exact ⟨_, rfl, rfl, rfl, rfl, rfl, rfl⟩
  · rw [if_neg h1, if_neg h1]
    by_cases h2 : p_vout.output.i_chroma = VLC_FOURCC 'Y' 'U' 'Y' '2'
    · rw [if_pos h2, if_pos h2]
      exact ⟨_, rfl, rfl, rfl, rfl, rfl, rfl⟩
    · rw [if_neg h2, if_neg h2]
      exact ⟨_, rfl, rfl, rfl, rfl, rfl, rfl⟩

/-- C11 at the reserved tag RV32, at fuel 0, on example A. -/
theorem C11_unsupported_chroma_witness :
    ∃ res, VCDSubRender 0 ⟨⟨4, 4, VLC_FOURCC 'R' 'V' '3' '2'⟩, ⟨4, 4, 0⟩⟩ (filled_picture 4 0)
        exampleA_spu = some res
      ∧ res.pic = filled_picture 4 0
      ∧ res.log = [Event.err ErrMsg.rv24_not_implemented]
      ∧ outcome res.log = Outcome.SkippedUnsupportedFormat
      ∧ stores res.log = [] ∧ reads res.log = [] :=
  C11_unsupported_chroma 0 ⟨⟨4, 4, VLC_FOURCC 'R' 'V' '3' '2'⟩, ⟨4, 4, 0⟩⟩ (filled_picture 4 0)
    exampleA_spu (by decide) (by decide) (by decide) (by decide)

set_option maxRecDepth 100000 in
/-- C12 fails on the code. Failing input: a 2x1 overlay at the origin, both samples
`{luma 255, alpha 15}`, crop disabled, identity scale (`i_xscale = i_yscale = 64`), over a
zero-filled RV16 plane of pitch 8. `RenderRV16` stores both samples at byte offset 4, the
pixel of column 2, which the overlay does not cover; the pixels of columns 0 and 1 (bytes
0..3), which it covers, keep their value. On the same input the I420 path stores sample `c` at
column `c`. -/
theorem C12_identity_scale_failing :
    (VCDSubRender 128 identity_vout (filled_picture 8 0) (white_spu 2 1 false 0 0 0 0)).map
        (fun res => ((List.range 8).map (fun a : Nat => (res.pic.p 0).p_pixels a),
          (stores res.log).dedup))
      = some ([0, 0, 0, 0, 255, 0, 0, 0], [(0, 4), (1, 4)])
    ∧ (VCDSubRender 128 example_vout (filled_picture 8 0) (white_spu 2 1 false 0 0 0 0)).map
        (fun res => stores res.log)
      = some [(0, 0), (1, 1)] := by
  decide

/-- C13 as stated fails: no overlay of width ≥ 1 and height ≥ 1 and no positive output and
render dimensions make a call of `RenderRV16` that ends report the bounds check (outcome
`AbortedOutOfBounds`), whatever the fuel, the picture and the crop setting. -/
theorem C13_bounds_check_counterexample :
    ¬ ∃ (fuel : Nat) (p_vout : vout_thread_t) (p_pic : picture_t) (p_spu : subpicture_t)
        (b_crop : Bool) (res : Rendered),
        1 ≤ p_spu.i_width ∧ 1 ≤ p_spu.i_height
          ∧ 0 < p_vout.output.i_width ∧ 0 < p_vout.output.i_height
          ∧ 0 < p_vout.render.i_width ∧ 0 < p_vout.render.i_height
          ∧ RenderRV16 fuel p_vout p_pic p_spu b_crop = some res
          ∧ outcome res.log = Outcome.AbortedOutOfBounds := by
  rintro ⟨fuel, p_vout, p_pic, p_spu, b_crop, res, hW, hH, how, hoh, hrw, hrh, hrun, hout⟩
  obtain ⟨H, hHn⟩ := Int.eq_ofNat_of_zero_le (show 0 ≤ p_spu.i_height by omega)
  have hgood := (RenderRV16_inv fuel p_vout p_pic p_spu b_crop H res (by omega) hHn
    (Int.tdiv_nonneg (mul_nonneg (le_of_lt how) (by norm_num)) (le_of_lt hrw))
    (Int.tdiv_nonneg (mul_nonneg (le_of_lt hoh) (by norm_num)) (le_of_lt hrh)) hrun).1
  rw [outcome_of_good _ _ hgood] at hout
  exact Outcome.noConfusion hout

/-- C13, amended: for every overlay (width ≥ 0, height ≥ 0) and all positive scale factors
`i_xscale`, `i_yscale`, every source sample index a call of `RenderRV16` computes,
`(i_y / i_yscale) * width + (i_width - i_x) / i_xscale`, lies in `0 .. width * height - 1`: the
bounds-check branch is never taken and the outcome is `Ok`; and over a plane of positive pitch
the call ends, given fuel for `width * i_xscale`, `height` and `i_yscale` iterations. -/
theorem C13_bounds_check_amended (fuel : Nat) (p_vout : vout_thread_t) (p_pic : picture_t)
    (p_spu : subpicture_t) (b_crop : Bool) (H : Nat)
    (hW : 0 ≤ p_spu.i_width) (hH : p_spu.i_height = H)
    (hxs : 0 < Int.tdiv (p_vout.output.i_width * 2 ^ 6) p_vout.render.i_width)
    (hys : 0 < Int.tdiv (p_vout.output.i_height * 2 ^ 6) p_vout.render.i_height) :
    (∀ res, RenderRV16 fuel p_vout p_pic p_spu b_crop = some res →
        outcome res.log = Outcome.Ok
          ∧ ∀ src ∈ reads res.log, 0 ≤ src ∧ src < p_spu.i_height * p_spu.i_width)
      ∧ (0 < (p_pic.p 0).i_pitch →
          p_spu.i_width * Int.tdiv (p_vout.output.i_width * 2 ^ 6) p_vout.render.i_width ≤ fuel →
          Int.tdiv (p_vout.output.i_height * 2 ^ 6) p_vout.render.i_height ≤ fuel →
          H ≤ fuel →
          ∃ res, RenderRV16 fuel p_vout p_pic p_spu b_crop = some res) := by
  constructor
  · intro res hrun
    have hgood := (RenderRV16_inv fuel p_vout p_pic p_spu b_crop H res hW hH
      (le_of_lt hxs) (le_of_lt hys) hrun).1
    exact ⟨outcome_of_good _ _ hgood, reads_of_good _ _ hgood⟩
  · intro hp hfx hfy hfH
    exact RenderRV16_ends fuel p_vout p_pic p_spu b_crop H hW hH hp hxs hys hfx hfy hfH

/-- C13, amended, on a 3x3 overlay magnified from a 4x4 render size to a 7x7 output
(`i_xscale = i_yscale = 112`). -/
theorem C13_bounds_check_amended_witness :
    (∀ res, RenderRV16 336 ⟨⟨7, 7, VLC_FOURCC 'R' 'V' '1' '6'⟩, ⟨4, 4, 0⟩⟩ (filled_picture 16 0)
          (white_spu 3 3 false 0 0 0 0) false = some res →
        outcome res.log = Outcome.Ok
          ∧ ∀ src ∈ reads res.log, 0 ≤ src
            ∧ src < (white_spu 3 3 false 0 0 0 0).i_height * (white_spu 3 3 false 0 0 0 0).i_width)
      ∧ ∃ res, RenderRV16 336 ⟨⟨7, 7, VLC_FOURCC 'R' 'V' '1' '6'⟩, ⟨4, 4, 0⟩⟩
          (filled_picture 16 0) (white_spu 3 3 false 0 0 0 0) false = some res := by
  have h := C13_bounds_check_amended 336 ⟨⟨7, 7, VLC_FOURCC 'R' 'V' '1' '6'⟩, ⟨4, 4, 0⟩⟩
    (filled_picture 16 0) (white_spu 3 3 false 0 0 0 0) false 3 (by decide) rfl
    (by decide) (by decide)
  exact ⟨h.1, h.2 (by decide) (by decide) (by decide) (by decide)⟩

/-- C14 fails on the code. The value converted from luma 255 is `0x0FFF`, but the store goes
through a `uint8_t` pointer: at alpha 15 the byte stored is the low byte of the converted value,
for every luma. Failing input: a 1x1 overlay at the origin, sample `{luma 255, alpha 15}`, crop
disabled, identity scale, over an RV16 plane of pitch 8 filled with `0xAA`. The one byte the
call changes is byte 2, set to `0xFF`; bytes 3 and 1 keep `0xAA`, so that no 16-bit pixel
holds `0x0FFF`. -/
theorem C14_alpha_max_failing :
    Y2RV16 255 = 0x0FFF
      ∧ (∀ y old : Nat, RenderRV16.new_pixel ⟨y, MAX_ALPHA⟩ old = Y2RV16 y % 256)
      ∧ RenderRV16.new_pixel ⟨255, 15⟩ 0xAA = 0xFF
      ∧ (VCDSubRender 64 identity_vout (filled_picture 8 0xAA) (white_spu 1 1 false 0 0 0 0)).map
          (fun res => ((List.range 8).map (fun a : Nat => (res.pic.p 0).p_pixels a),
            (stores res.log).dedup))
        = some ([0xAA, 0xAA, 0xFF, 0xAA, 0xAA, 0xAA, 0xAA, 0xAA], [(0, 2)]) := by
  refine ⟨by decide, ?_, by decide, by decide⟩
  intro y old
  simp [RenderRV16.new_pixel]

/-- C15: for every luma `v` in `0..255`, with `n = v >> 4`: `Y2RV16 v = n + 16 * n + 256 * n`,
each of the three low nibbles of the result is `n`, bits 12..15 are zero, and the product
`0x111 * n` stays below `2 ^ 16` (neither `uint16_t` cast truncates). -/
theorem C15_Y2RV16_nibbles (v : Nat) (hv : v < 256) :
    Y2RV16 v = (v >>> 4) + 16 * (v >>> 4) + 256 * (v >>> 4)
      ∧ Y2RV16 v % 16 = v >>> 4
      ∧ Y2RV16 v / 16 % 16 = v >>> 4
      ∧ Y2RV16 v / 256 % 16 = v >>> 4
      ∧ Y2RV16 v / 4096 = 0
      ∧ 0x111 * (v >>> 4) < 2 ^ 16 := by
  unfold Y2RV16
  rw [Nat.shiftRight_eq_div_pow]
  have h1 : v / 2 ^ 4 ≤ 15 := by omega
  have h2 : v / 2 ^ 4 % 65536 = v / 2 ^ 4 := Nat.mod_eq_of_lt (by omega)
  have h3 : 0x111 * (v / 2 ^ 4) % 65536 = 0x111 * (v / 2 ^ 4) := Nat.mod_eq_of_lt (by omega)
  rw [h2, h3]
  generalize v / 2 ^ 4 = n at h1
  interval_cases n <;> decide

/-- C15 at `v = 0xA7`: the result is `0xAAA`. -/
theorem C15_Y2RV16_nibbles_witness :
    Y2RV16 0xA7 = (0xA7 >>> 4) + 16 * (0xA7 >>> 4) + 256 * (0xA7 >>> 4)
      ∧ Y2RV16 0xA7 % 16 = 0xA7 >>> 4
      ∧ Y2RV16 0xA7 / 16 % 16 = 0xA7 >>> 4
      ∧ Y2RV16 0xA7 / 256 % 16 = 0xA7 >>> 4
      ∧ Y2RV16 0xA7 / 4096 = 0
      ∧ 0x111 * (0xA7 >>> 4) < 2 ^ 16 :=
  C15_Y2RV16_nibbles 0xA7 (by decide)

set_option maxRecDepth 100000 in
/-- C16 fails on the code, on the RV16 path. Failing input: the 2x1 overlay of
`C12_identity_scale_failing`. The call makes 128 stores, and every one of them hits byte
offset 4. -/
theorem C16_written_once_failing :
    (VCDSubRender 128 identity_vout (filled_picture 8 0) (white_spu 2 1 false 0 0 0 0)).map
        (fun res => (stores res.log).map Prod.snd)
      = some (List.replicate 128 4)
    ∧ ¬ (List.replicate 128 (4 : Int)).Nodup := by
  decide

/-- C17: for every I420-path render (overlay of `W` columns and `H` lines, pitch > 0, any
samples, crop enabled or not, any crop box): the call ends, and the only bytes that can differ
afterwards are luma bytes under the overlay rectangle, at offsets
`i_pitch * (i_y + r) + (i_x + c)` with `r < H` and `c < W`; every other luma byte, the pitch of
the luma plane and every other plane (both chroma planes) are unchanged. -/
theorem C17_I420_frame (fuel : Nat) (p_vout : vout_thread_t) (p_pic : picture_t)
    (p_spu : subpicture_t) (b_crop : Bool) (W H : Nat)
    (hW : p_spu.i_width = W) (hH : p_spu.i_height = H)
    (hp : 0 < (p_pic.p Y_PLANE).i_pitch) (hfW : W ≤ fuel) (hfH : H ≤ fuel) :
    ∃ res, RenderI420 fuel p_vout p_pic p_spu b_crop = some res
      ∧ (∀ a : Int, (∀ r c : Nat, r < H → c < W → a ≠ luma_offset p_pic p_spu r c) →
          (res.pic.p Y_PLANE).p_pixels a = (p_pic.p Y_PLANE).p_pixels a)
      ∧ (res.pic.p Y_PLANE).i_pitch = (p_pic.p Y_PLANE).i_pitch
      ∧ res.pic.p U_PLANE = p_pic.p U_PLANE
      ∧ res.pic.p V_PLANE = p_pic.p V_PLANE
      ∧ ∀ j, j ≠ Y_PLANE → res.pic.p j = p_pic.p j := by
  obtain ⟨px, hrun, hframe, -⟩ :=
    RenderI420_run fuel p_vout p_pic p_spu b_crop W H hW hH hp hfW hfH
  have hf := RenderI420_frame fuel p_vout p_pic p_spu b_crop _ hrun
  refine ⟨_, hrun, ?_, hf.2.2, hf.2.1 U_PLANE (by decide), hf.2.1 V_PLANE (by decide), hf.2.1⟩
  intro a ha
  dsimp only
  rw [setPixels_pixels]
  exact hframe a ha

/-- C17 on a 4x4 overlay with an out-of-range crop box, over a plane of pitch 4. -/
theorem C17_I420_frame_witness :
    ∃ res, RenderI420 4 example_vout (filled_picture 4 0) (solid_spu 4 4 (-3) 9 (-3) 9) true
        = some res
      ∧ (∀ a : Int, (∀ r c : Nat, r < 4 → c < 4 →
            a ≠ luma_offset (filled_picture 4 0) (solid_spu 4 4 (-3) 9 (-3) 9) r c) →
          (res.pic.p Y_PLANE).p_pixels a = ((filled_picture 4 0).p Y_PLANE).p_pixels a)
      ∧ (res.pic.p Y_PLANE).i_pitch = ((filled_picture 4 0).p Y_PLANE).i_pitch
      ∧ res.pic.p U_PLANE = (filled_picture 4 0).p U_PLANE
      ∧ res.pic.p V_PLANE = (filled_picture 4 0).p V_PLANE
      ∧ ∀ j, j ≠ Y_PLANE → res.pic.p j = (filled_picture 4 0).p j :=
  C17_I420_frame 4 example_vout (filled_picture 4 0) (solid_spu 4 4 (-3) 9 (-3) 9) true 4 4
    rfl rfl (by decide) (le_refl _) (le_refl _)

/-- C18: for every overlay (of `W` columns and `H` lines) whose samples all have alpha 0,
whatever the chroma, the placement, the crop setting and the crop box, over planes of positive
pitch and, on the RV16 path, for positive scale factors: `VCDSubRender` ends, makes no store,
and every byte and the pitch of every plane are as before. -/
theorem C18_all_transparent (fuel : Nat) (p_vout : vout_thread_t) (p_pic : picture_t)
    (p_spu : subpicture_t) (W H : Nat)
    (hW : p_spu.i_width = W) (hH : p_spu.i_height = H)
    (hp : 0 < (p_pic.p 0).i_pitch)
    (hxs : p_vout.output.i_chroma = VLC_FOURCC 'R' 'V' '1' '6' →
      0 < Int.tdiv (p_vout.output.i_width * 2 ^ 6) p_vout.render.i_width)
    (hys : p_vout.output.i_chroma = VLC_FOURCC 'R' 'V' '1' '6' →
      0 < Int.tdiv (p_vout.output.i_height * 2 ^ 6) p_vout.render.i_height)
    (halpha : ∀ k : Int, 0 ≤ k → k < (H : Int) * W → (p_spu.p_sys.p_data k).t = 0)
    (hfW : W ≤ fuel) (hfH : H ≤ fuel)
    (hf16 : p_vout.output.i_chroma = VLC_FOURCC 'R' 'V' '1' '6' →
      (W : Int) * Int.tdiv (p_vout.output.i_width * 2 ^ 6) p_vout.render.i_width ≤ fuel
      ∧ Int.tdiv (p_vout.output.i_height * 2 ^ 6) p_vout.render.i_height ≤ fuel) :
    ∃ res, VCDSubRender fuel p_vout p_pic p_spu = some res
      ∧ stores res.log = []
      ∧ ∀ j, (res.pic.p j).i_pitch = (p_pic.p j).i_pitch
          ∧ ∀ a, (res.pic.p j).p_pixels a = (p_pic.p j).p_pixels a := by
  unfold VCDSubRender
  dsimp only
  by_cases h1 : p_vout.output.i_chroma = VLC_FOURCC 'I' '4' '2' '0'
      ∨ p_vout.output.i_chroma = VLC_FOURCC 'I' 'Y' 'U' 'V'
      ∨ p_vout.output.i_chroma = VLC_FOURCC 'Y' 'V' '1' '2'
  · rw [if_pos h1]
    obtain ⟨px, hrun, -, -⟩ := RenderI420_run fuel p_vout p_pic p_spu p_spu.p_sys.b_crop W H
      hW hH hp hfW hfH
    have hst : stores ((List.range H).flatMap (fun r : Nat => (List.range W).map (fun c : Nat =>
        RenderI420.event_at p_pic p_spu p_spu.p_sys.b_crop r c))) = [] := by
      rw [stores_I420_log, List.flatMap_eq_nil_iff]
      intro r hr
      rw [List.flatMap_eq_nil_iff]
      intro c hc
      rw [if_pos]
      right
      rw [hW]
      have hr' := List.mem_range.1 hr
      have hc' := List.mem_range.1 hc
      apply halpha
      · positivity
      · have : ((r : Int) + 1) * W ≤ (H : Int) * W :=
          mul_le_mul_of_nonneg_right (by omega) (Int.ofNat_nonneg W)
        have e : ((r : Int) + 1) * W = r * W + W := by ring
        omega
    have hf := RenderI420_frame fuel p_vout p_pic p_spu p_spu.p_sys.b_crop _ hrun
    refine ⟨_, hrun, hst, ?_⟩
    intro j
    by_cases hj : j = Y_PLANE
    · subst hj
      refine ⟨hf.2.2, fun a => hf.1 a ?_⟩
      intro src
      dsimp only
      rw [hst]
      exact List.not_mem_nil _
    · rw [hf.2.1 j hj]
      exact ⟨rfl, fun _ => rfl⟩
  · rw [if_neg h1]
    by_cases h2 : p_vout.output.i_chroma = VLC_FOURCC 'R' 'V' '1' '6'
    · rw [if_pos h2]
      have hWn : 0 ≤ p_spu.i_width := by rw [hW]; exact Int.ofNat_nonneg W
      obtain ⟨res, hrun⟩ := RenderRV16_ends fuel p_vout p_pic p_spu p_spu.p_sys.b_crop H hWn hH
        hp (hxs h2) (hys h2) (by rw [hW]; exact (hf16 h2).1) (hf16 h2).2 hfH
      have hinv := RenderRV16_inv fuel p_vout p_pic p_spu p_spu.p_sys.b_crop H res hWn hH
        (le_of_lt (hxs h2)) (le_of_lt (hys h2)) hrun
      have hst : stores res.log = [] :=
        stores_of_good_transparent _ _ hinv.1 (by
          intro k hk0 hk1
          apply halpha k hk0
          have : (RenderRV16.locals p_vout p_pic p_spu p_spu.p_sys.b_crop).p_src_end
              = (H : Int) * W := by simp [RenderRV16.locals, hH, hW]
          rw [this] at hk1
          exact hk1)
      refine ⟨res, hrun, hst, ?_⟩
      intro j
      by_cases hj : j = 0
      · subst hj
        refine ⟨hinv.2.2.1, fun a => hinv.2.1 a ?_⟩
        intro src
        rw [hst]
        exact List.not_mem_nil _
      · rw [hinv.2.2.2 j hj]
        exact ⟨rfl, fun _ => rfl⟩
    · rw [if_neg h2]
      split
      · exact ⟨_, rfl, rfl, fun _ => ⟨rfl, fun _ => rfl⟩⟩
      · split <;> exact ⟨_, rfl, rfl, fun _ => ⟨rfl, fun _ => rfl⟩⟩

/-- C18 on the RV16 path at identity scale: a 4x4 overlay of `{luma 200, alpha 0}` with crop
enabled, over a plane filled with `0x7F`. -/
theorem C18_all_transparent_witness :
    ∃ res, VCDSubRender 256 identity_vout (filled_picture 8 0x7F) (clear_spu 4 4 true 1 2 1 2)
        = some res
      ∧ stores res.log = []
      ∧ ∀ j, (res.pic.p j).i_pitch = ((filled_picture 8 0x7F).p j).i_pitch
          ∧ ∀ a, (res.pic.p j).p_pixels a = ((filled_picture 8 0x7F).p j).p_pixels a :=
  C18_all_transparent 256 identity_vout (filled_picture 8 0x7F) (clear_spu 4 4 true 1 2 1 2) 4 4
    rfl rfl (by decide) (fun _ => by decide) (fun _ => by decide) (fun _ _ _ => rfl)
    (by decide) (by decide) (fun _ => by decide)

/-- C19 as stated fails: on a byte holding 100 a sample of luma 200 with alpha 15 does not leave
the byte unchanged (it stores 187), and a sample with alpha 0 does not overwrite it (the byte
stays 100, the `switch` stores nothing). -/
theorem C19_header_comment_counterexample :
    blend 100 200 15 ≠ 100 ∧ blend 100 200 0 ≠ 200
      ∧ RenderI420.switch_t ⟨200, 15⟩ 100 = some 187
      ∧ RenderI420.switch_t ⟨200, 0⟩ 100 = none := by
  decide

/-- C19, amended: the 4-bit alpha works the other way round than the header comment says, as
the comments of the `switch` say: alpha 0 is completely transparent and alpha 15 completely
opaque. For every `dest` and every byte `luma`, a sample with alpha 0 leaves the destination
byte unchanged (nothing is stored) and a sample with alpha 15 overwrites it with
`(luma * 15) >> 4`, whatever it held. -/
theorem C19_header_comment_amended (dest luma : Nat) (hl : luma < 256) :
    (RenderI420.switch_t ⟨luma, 0⟩ dest = none ∧ blend dest luma 0 = dest)
      ∧ (RenderI420.switch_t ⟨luma, MAX_ALPHA⟩ dest = some ((luma * 15) >>> 4)
          ∧ ∀ dest2 : Nat, blend dest2 luma MAX_ALPHA = (luma * 15) >>> 4) := by
  have hm : MAX_ALPHA = 15 := by decide
  rw [hm, Nat.shiftRight_eq_div_pow]
  exact ⟨⟨switch_t_zero luma dest, blend_zero luma dest⟩, switch_t_max luma dest hl,
    fun d2 => blend_max luma d2 hl⟩

/-- C19, amended, at `dest = 100`, `luma = 200`. -/
theorem C19_header_comment_amended_witness :
    (RenderI420.switch_t ⟨200, 0⟩ 100 = none ∧ blend 100 200 0 = 100)
      ∧ (RenderI420.switch_t ⟨200, MAX_ALPHA⟩ 100 = some ((200 * 15) >>> 4)
          ∧ ∀ dest2 : Nat, blend dest2 200 MAX_ALPHA = (200 * 15) >>> 4) :=
  C19_header_comment_amended 100 200 (by decide)

set_option maxRecDepth 100000 in
/-- C20 fails on the code. Failing input: a 1x2 overlay (width 1, height 2) at the origin,
both samples `{luma 255, alpha 15}`, identity scale, crop enabled with the pre-validated crop
box `i_x_start = 0`, `i_x_end = 1`, `i_y_start = 1`, `i_y_end = 1`. The I420 path reads the
sample of row 1 only; `RenderRV16` reads the sample of row 0 only. -/
theorem C20_same_crop_failing :
    (RenderI420 128 example_vout (filled_picture 8 0) (white_spu 1 2 true 0 1 1 1) true).map
        (fun res => (reads res.log).dedup)
      = some [1]
    ∧ (RenderRV16 128 identity_vout (filled_picture 8 0) (white_spu 1 2 true 0 1 1 1) true).map
        (fun res => (reads res.log).dedup)
      = some [0] := by
  decide

set_option maxRecDepth 100000 in
/-- C21 as stated fails, over a plane of pitch 8 where `p_pixel_base` is 2 (line `y` is at byte
offset `2 + 8 * y`), on overlays one column wide whose samples all are `{luma 255, alpha 15}`,
crop disabled.
At `i_yscale = 160` and height 2, source line 0 fills the lines 0, 1, 2 and source line 1 the
lines 2, 3, 4: line 2 is filled from two source lines, the last of them line 1, where
`(2 << 6) / 160` is 0. At `i_yscale = 160` and height 1 the lines 0, 1, 2 are filled, where
`(height * i_yscale) >> 6` is 2. At `i_yscale = 32` and height 2 both source lines fill
line 0. -/
theorem C21_rows_counterexample :
    (RenderRV16.locals (tall_vout 10) (filled_picture 8 0) (white_spu 1 2 false 0 0 0 0)
        false).i_yscale = 160
      ∧ (RenderRV16.locals (tall_vout 10) (filled_picture 8 0) (white_spu 1 2 false 0 0 0 0)
        false).p_pixel_base = 2
      ∧ (RenderRV16 64 (tall_vout 10) (filled_picture 8 0) (white_spu 1 2 false 0 0 0 0)
          false).map (fun res => (stores res.log).dedup)
        = some [(0, 2), (0, 10), (0, 18), (1, 18), (1, 26), (1, 34)]
      ∧ Int.tdiv (2 * 2 ^ 6) 160 = 0
      ∧ (RenderRV16 64 (tall_vout 10) (filled_picture 8 0) (white_spu 1 1 false 0 0 0 0)
          false).map (fun res => (stores res.log).dedup)
        = some [(0, 2), (0, 10), (0, 18)]
      ∧ ((1 : Int) * 160) >>> (6 : Nat) = 2
      ∧ (RenderRV16.locals (tall_vout 2) (filled_picture 8 0) (white_spu 1 2 false 0 0 0 0)
        false).i_yscale = 32
      ∧ (RenderRV16 64 (tall_vout 2) (filled_picture 8 0) (white_spu 1 2 false 0 0 0 0)
          false).map (fun res => (stores res.log).dedup)
        = some [(0, 2), (1, 2)] := by
  decide

/-- C21, amended: on the RV16 path, for every overlay of non-negative width and `H` lines,
every positive `i_xscale`, every pitch > 0 and every `i_yscale` that is a whole multiple of 64,
`i_yscale = 64 * m` with `m ≥ 1` (a whole-number magnification, the identity included), with
fuel for `i_width * i_xscale`, `i_yscale` and `H` iterations:
the scaled height `(H * i_yscale) >> 6` is `H * m`; the call ends and its log entries are those
of `RenderRV16.events`, source line by source line, each at the line offsets
`RenderRV16.row_offsets` of its source line; source line `k` fills the `m` lines `k * m`, ...,
`k * m + m - 1`; a line `y` is filled for source line `k` exactly when `k` is `(y << 6) /
i_yscale`, so that the lines of different source lines are disjoint; and the lines filled for
the source lines `0 .. H - 1` are exactly the lines `0 .. H * m - 1`. -/
theorem C21_rows_amended (fuel : Nat) (p_vout : vout_thread_t) (p_pic : picture_t)
    (p_spu : subpicture_t) (b_crop : Bool) (H m n : Nat)
    (hW : 0 ≤ p_spu.i_width) (hH : p_spu.i_height = H) (hp : 0 < (p_pic.p 0).i_pitch)
    (hxs : 0 < Int.tdiv (p_vout.output.i_width * 2 ^ 6) p_vout.render.i_width)
    (hys : Int.tdiv (p_vout.output.i_height * 2 ^ 6) p_vout.render.i_height = 64 * (m : Int))
    (hm : 1 ≤ m)
    (hn : p_spu.i_width * Int.tdiv (p_vout.output.i_width * 2 ^ 6) p_vout.render.i_width = n)
    (hfx : n ≤ fuel) (hfy : 64 * m ≤ fuel) (hfH : H ≤ fuel) :
    (RenderRV16.locals p_vout p_pic p_spu b_crop).i_height >>> (6 : Nat) = (H : Int) * m
      ∧ (∃ res, RenderRV16 fuel p_vout p_pic p_spu b_crop = some res
          ∧ res.log = (List.range H).flatMap (fun k : Nat =>
              (List.range n).flatMap (fun j : Nat =>
                RenderRV16.events (RenderRV16.locals p_vout p_pic p_spu b_crop)
                  (RenderRV16.row_offsets (RenderRV16.locals p_vout p_pic p_spu b_crop) fuel
                    ((k : Int) * (RenderRV16.locals p_vout p_pic p_spu b_crop).i_yscale))
                  ((k : Int) * (RenderRV16.locals p_vout p_pic p_spu b_crop).i_yscale
                    + (RenderRV16.locals p_vout p_pic p_spu b_crop).i_yscale)
                  ((k : Int) * p_spu.i_width) ((n : Int) - j))))
      ∧ (∀ k : Nat,
          RenderRV16.row_offsets (RenderRV16.locals p_vout p_pic p_spu b_crop) fuel
              ((k : Int) * (RenderRV16.locals p_vout p_pic p_spu b_crop).i_yscale)
            = (List.range m).map (fun d : Nat =>
                (RenderRV16.locals p_vout p_pic p_spu b_crop).i_pitch * ((k * m + d : Nat) : Int)))
      ∧ (∀ y k : Nat,
          (RenderRV16.locals p_vout p_pic p_spu b_crop).i_pitch * (y : Int)
              ∈ RenderRV16.row_offsets (RenderRV16.locals p_vout p_pic p_spu b_crop) fuel
                  ((k : Int) * (RenderRV16.locals p_vout p_pic p_spu b_crop).i_yscale)
            ↔ (k : Int) = Int.tdiv ((y : Int) * 2 ^ 6)
                (RenderRV16.locals p_vout p_pic p_spu b_crop).i_yscale)
      ∧ ∀ y : Nat,
          (∃ k : Nat, k < H
              ∧ (RenderRV16.locals p_vout p_pic p_spu b_crop).i_pitch * (y : Int)
                ∈ RenderRV16.row_offsets (RenderRV16.locals p_vout p_pic p_spu b_crop) fuel
                    ((k : Int) * (RenderRV16.locals p_vout p_pic p_spu b_crop).i_yscale))
            ↔ y < H * m := by
  have hysL : (RenderRV16.locals p_vout p_pic p_spu b_crop).i_yscale = 64 * (m : Int) := hys
  have hpL : 0 < (RenderRV16.locals p_vout p_pic p_spu b_crop).i_pitch := hp
  have hysp : 0 < Int.tdiv (p_vout.output.i_height * 2 ^ 6) p_vout.render.i_height := by
    rw [hys]; omega
  have hrows : ∀ k : Nat,
      RenderRV16.row_offsets (RenderRV16.locals p_vout p_pic p_spu b_crop) fuel
          ((k : Int) * (RenderRV16.locals p_vout p_pic p_spu b_crop).i_yscale)
        = (List.range m).map (fun d : Nat =>
            (RenderRV16.locals p_vout p_pic p_spu b_crop).i_pitch * ((k * m + d : Nat) : Int)) :=
    fun k => row_offsets_whole _ fuel m k hpL hysL hm (by omega)
  refine ⟨?_, ?_, hrows, ?_, ?_⟩
  · show (p_spu.i_height
        * Int.tdiv (p_vout.output.i_height * 2 ^ 6) p_vout.render.i_height) >>> (6 : Nat)
      = (H : Int) * m
    rw [hys, hH, Int.shiftRight_eq_div_pow]
    have h64 : ((2 ^ 6 : Nat) : Int) = 64 := by norm_num
    have : (H : Int) * (64 * (m : Int)) = 64 * ((H : Int) * m) := by ring
    rw [h64, this]
    omega
  · obtain ⟨res, hrun⟩ := RenderRV16_ends fuel p_vout p_pic p_spu b_crop H hW hH hp hxs hysp
      (by rw [hn]; exact_mod_cast hfx) (by rw [hys]; exact_mod_cast hfy) hfH
    exact ⟨res, hrun, RenderRV16_log fuel p_vout p_pic p_spu b_crop H n res hW hH (le_of_lt hxs)
      hysp hn hrun⟩
  · intro y k
    rw [hrows k, mem_whole_rows _ hpL, whole_row_iff m k y hm, hysL, nearest_row m y hm]
    exact Nat.cast_inj.symm
  · intro y
    constructor
    · rintro ⟨k, hk, hmem⟩
      rw [hrows k, mem_whole_rows _ hpL] at hmem
      obtain ⟨d, hd, rfl⟩ := hmem
      have : (k + 1) * m ≤ H * m := Nat.mul_le_mul_right m (by omega)
      have e : (k + 1) * m = k * m + m := by ring
      omega
    · intro hy
      refine ⟨y / m, (Nat.div_lt_iff_lt_mul (by omega)).2 hy, ?_⟩
      rw [hrows, mem_whole_rows _ hpL, whole_row_iff m _ y hm]

/-- C21, amended, on a 1x3 overlay magnified from a render height of 4 lines to an output
height of 8 lines (`i_yscale = 128`, `m = 2`) over a plane of pitch 8: source line `k` fills the
lines `2 * k` and `2 * k + 1`. -/
theorem C21_rows_amended_witness :
    (RenderRV16.locals (tall_vout 8) (filled_picture 8 0) (white_spu 1 3 false 0 0 0 0)
        false).i_height >>> (6 : Nat) = ((3 : Nat) : Int) * (2 : Nat)
      ∧ (∃ res, RenderRV16 128 (tall_vout 8) (filled_picture 8 0) (white_spu 1 3 false 0 0 0 0)
            false = some res
          ∧ res.log = (List.range 3).flatMap (fun k : Nat =>
              (List.range 64).flatMap (fun j : Nat =>
                RenderRV16.events (RenderRV16.locals (tall_vout 8) (filled_picture 8 0)
                    (white_spu 1 3 false 0 0 0 0) false)
                  (RenderRV16.row_offsets (RenderRV16.locals (tall_vout 8) (filled_picture 8 0)
                      (white_spu 1 3 false 0 0 0 0) false) 128
                    ((k : Int) * (RenderRV16.locals (tall_vout 8) (filled_picture 8 0)
                      (white_spu 1 3 false 0 0 0 0) false).i_yscale))
                  ((k : Int) * (RenderRV16.locals (tall_vout 8) (filled_picture 8 0)
                      (white_spu 1 3 false 0 0 0 0) false).i_yscale
                    + (RenderRV16.locals (tall_vout 8) (filled_picture 8 0)
                      (white_spu 1 3 false 0 0 0 0) false).i_yscale)
                  ((k : Int) * (white_spu 1 3 false 0 0 0 0).i_width) (((64 : Nat) : Int) - j))))
      ∧ (∀ k : Nat,
          RenderRV16.row_offsets (RenderRV16.locals (tall_vout 8) (filled_picture 8 0)
              (white_spu 1 3 false 0 0 0 0) false) 128
              ((k : Int) * (RenderRV16.locals (tall_vout 8) (filled_picture 8 0)
                (white_spu 1 3 false 0 0 0 0) false).i_yscale)
            = (List.range 2).map (fun d : Nat =>
                (RenderRV16.locals (tall_vout 8) (filled_picture 8 0)
                  (white_spu 1 3 false 0 0 0 0) false).i_pitch * ((k * 2 + d : Nat) : Int)))
      ∧ (∀ y k : Nat,
          (RenderRV16.locals (tall_vout 8) (filled_picture 8 0)
              (white_spu 1 3 false 0 0 0 0) false).i_pitch * (y : Int)
              ∈ RenderRV16.row_offsets (RenderRV16.locals (tall_vout 8) (filled_picture 8 0)
                  (white_spu 1 3 false 0 0 0 0) false) 128
                  ((k : Int) * (RenderRV16.locals (tall_vout 8) (filled_picture 8 0)
                    (white_spu 1 3 false 0 0 0 0) false).i_yscale)
            ↔ (k : Int) = Int.tdiv ((y : Int) * 2 ^ 6)
                (RenderRV16.locals (tall_vout 8) (filled_picture 8 0)
                  (white_spu 1 3 false 0 0 0 0) false).i_yscale)
      ∧ ∀ y : Nat,
          (∃ k : Nat, k < 3
              ∧ (RenderRV16.locals (tall_vout 8) (filled_picture 8 0)
                  (white_spu 1 3 false 0 0 0 0) false).i_pitch * (y : Int)
                ∈ RenderRV16.row_offsets (RenderRV16.locals (tall_vout 8) (filled_picture 8 0)
                    (white_spu 1 3 false 0 0 0 0) false) 128
                    ((k : Int) * (RenderRV16.locals (tall_vout 8) (filled_picture 8 0)
                      (white_spu 1 3 false 0 0 0 0) false).i_yscale))
            ↔ y < 3 * 2 :=
  C21_rows_amended 128 (tall_vout 8) (filled_picture 8 0) (white_spu 1 3 false 0 0 0 0) false
    3 2 64 (by decide) rfl (by decide) (by decide) (by decide) (by decide) (by decide)
    (by decide) (by decide) (by decide)

/-- C22 as stated fails: no overlay placed inside a luma plane of positive pitch and no crop
box out of range make a call of `RenderI420` with crop enabled store outside the plane
(offsets `0 .. i_pitch * i_lines - 1`), whatever the fuel and the samples. -/
theorem C22_crop_box_counterexample :
    ¬ ∃ (fuel : Nat) (p_vout : vout_thread_t) (p_pic : picture_t) (p_spu : subpicture_t)
        (i_lines : Int) (res : Rendered) (src a : Int),
        0 < (p_pic.p Y_PLANE).i_pitch
          ∧ 0 ≤ p_spu.i_x ∧ p_spu.i_x + p_spu.i_width ≤ (p_pic.p Y_PLANE).i_pitch
          ∧ 0 ≤ p_spu.i_y ∧ p_spu.i_y + p_spu.i_height ≤ i_lines
          ∧ ¬ (0 ≤ p_spu.p_sys.i_x_start ∧ p_spu.p_sys.i_x_start ≤ p_spu.p_sys.i_x_end
                ∧ p_spu.p_sys.i_x_end ≤ p_spu.i_width
              ∧ 0 ≤ p_spu.p_sys.i_y_start ∧ p_spu.p_sys.i_y_start ≤ p_spu.p_sys.i_y_end
                ∧ p_spu.p_sys.i_y_end ≤ p_spu.i_height)
          ∧ RenderI420 fuel p_vout p_pic p_spu true = some res
          ∧ (src, a) ∈ stores res.log
          ∧ (a < 0 ∨ (p_pic.p Y_PLANE).i_pitch * i_lines ≤ a) := by
  rintro ⟨fuel, p_vout, p_pic, p_spu, i_lines, res, src, a, hp, hx0, hx1, hy0, hy1, -, hrun,
    hmem, hout⟩
  obtain ⟨r, c, hr0, hr1, hc0, hc1, rfl⟩ :=
    RenderI420_stores_in fuel p_vout p_pic p_spu true res hp hrun src a hmem
  have := luma_offset_inside p_pic p_spu i_lines r c hp hx0 hx1 hy0 hy1 hr0 hr1 hc0 hc1
  omega

/-- C22, amended: for every overlay placed inside a luma plane of positive pitch and
`i_lines` lines (`0 ≤ i_x`, `i_x + i_width ≤ i_pitch`, `0 ≤ i_y`, `i_y + i_height ≤ i_lines`)
and every crop box, in range or not, with crop enabled or not: every byte a call of
`RenderI420` stores lies under the overlay rectangle, hence inside the plane, at an offset in
`0 .. i_pitch * i_lines - 1`; the crop box enters the crop test only, not the address. The
call ends, given fuel for `i_width` and `i_height` iterations. -/
theorem C22_crop_box_amended (fuel : Nat) (p_vout : vout_thread_t) (p_pic : picture_t)
    (p_spu : subpicture_t) (b_crop : Bool) (i_lines : Int) (W H : Nat)
    (hW : p_spu.i_width = W) (hH : p_spu.i_height = H)
    (hp : 0 < (p_pic.p Y_PLANE).i_pitch)
    (hx0 : 0 ≤ p_spu.i_x) (hx1 : p_spu.i_x + p_spu.i_width ≤ (p_pic.p Y_PLANE).i_pitch)
    (hy0 : 0 ≤ p_spu.i_y) (hy1 : p_spu.i_y + p_spu.i_height ≤ i_lines) :
    (∀ res, RenderI420 fuel p_vout p_pic p_spu b_crop = some res →
        ∀ src a, (src, a) ∈ stores res.log →
          (∃ r c : Int, 0 ≤ r ∧ r < p_spu.i_height ∧ 0 ≤ c ∧ c < p_spu.i_width
            ∧ a = luma_offset p_pic p_spu r c)
          ∧ 0 ≤ a ∧ a < (p_pic.p Y_PLANE).i_pitch * i_lines)
      ∧ (W ≤ fuel → H ≤ fuel → ∃ res, RenderI420 fuel p_vout p_pic p_spu b_crop = some res) := by
  constructor
  · intro res hrun src a hmem
    obtain ⟨r, c, hr0, hr1, hc0, hc1, ha⟩ :=
      RenderI420_stores_in fuel p_vout p_pic p_spu b_crop res hp hrun src a hmem
    have := luma_offset_inside p_pic p_spu i_lines r c hp hx0 hx1 hy0 hy1 hr0 hr1 hc0 hc1
    rw [← ha] at this
    exact ⟨⟨r, c, hr0, hr1, hc0, hc1, ha⟩, this.1, this.2⟩
  · intro hfW hfH
    obtain ⟨px, hrun, -, -⟩ := RenderI420_run fuel p_vout p_pic p_spu b_crop W H hW hH hp hfW hfH
    exact ⟨_, hrun⟩

/-- C22, amended, on a 4x4 overlay that fills a plane of pitch 4 and 4 lines, with the
out-of-range crop box `i_x_start = -3`, `i_x_end = 9`, `i_y_start = -3`, `i_y_end = 9`. -/
theorem C22_crop_box_amended_witness :
    (∀ res, RenderI420 4 example_vout (filled_picture 4 0) (solid_spu 4 4 (-3) 9 (-3) 9) true
          = some res →
        ∀ src a, (src, a) ∈ stores res.log →
          (∃ r c : Int, 0 ≤ r ∧ r < (solid_spu 4 4 (-3) 9 (-3) 9).i_height ∧ 0 ≤ c
            ∧ c < (solid_spu 4 4 (-3) 9 (-3) 9).i_width
            ∧ a = luma_offset (filled_picture 4 0) (solid_spu 4 4 (-3) 9 (-3) 9) r c)
          ∧ 0 ≤ a ∧ a < ((filled_picture 4 0).p Y_PLANE).i_pitch * 4)
      ∧ ∃ res, RenderI420 4 example_vout (filled_picture 4 0) (solid_spu 4 4 (-3) 9 (-3) 9) true
          = some res := by
  have h := C22_crop_box_amended 4 example_vout (filled_picture 4 0)
    (solid_spu 4 4 (-3) 9 (-3) 9) true 4 4 4 rfl rfl (by decide) (by decide) (by decide)
    (by decide) (by decide)
  exact ⟨h.1, h.2 (le_refl _) (le_refl _)⟩

/-- C23: for every overlay of `W ≥ 0` columns and `H ≥ 0` lines over a luma plane of positive
pitch, with crop enabled or not, and fuel for `W` and for `H` iterations: `RenderI420` ends
after `W * H` iterations of the inner loop (one log entry each) with outcome `Ok`; the loops end
with `p_source` advanced by `W * H`; and iteration `k = r * W + c` is the one of the overlay
position row `r`, column `c`, with `p_source` at sample `k`: it reads sample `k` (and finds it
transparent or stores), or, with crop enabled and the position outside the crop box, it skips
the sample without reading it, and `p_source` moves on all the same. -/
theorem C23_I420_streams (fuel : Nat) (p_vout : vout_thread_t) (p_pic : picture_t)
    (p_spu : subpicture_t) (b_crop : Bool) (W H : Nat)
    (hW : p_spu.i_width = W) (hH : p_spu.i_height = H)
    (hp : 0 < (p_pic.p Y_PLANE).i_pitch) (hfW : W ≤ fuel) (hfH : H ≤ fuel) :
    ∃ res, RenderI420 fuel p_vout p_pic p_spu b_crop = some res
      ∧ res.log.length = W * H
      ∧ outcome res.log = Outcome.Ok
      ∧ (∃ st, RenderI420.loop_y p_spu.p_sys.p_data b_crop (RenderI420.pixel_base p_pic p_spu)
            (RenderI420.window p_pic p_spu) p_spu.i_width (p_pic.p Y_PLANE).i_pitch fuel fuel
            (p_spu.i_height * (p_pic.p Y_PLANE).i_pitch) ⟨(p_pic.p Y_PLANE).p_pixels, 0, []⟩
            = some st
          ∧ st.log = res.log ∧ st.p_source = (W : Int) * H)
      ∧ ∀ r c : Nat, r < H → c < W →
          res.log[r * W + c]? = some (RenderI420.event_at p_pic p_spu b_crop r c)
          ∧ ((RenderI420.event_at p_pic p_spu b_crop r c
                = Event.skip ((W : Int) - c) ((p_pic.p Y_PLANE).i_pitch * ((H : Int) - r))
              ∧ b_crop = true ∧ ¬ in_crop_box p_spu.p_sys r c)
            ∨ RenderI420.event_at p_pic p_spu b_crop r c
                = Event.transparent ((r * W + c : Nat) : Int)
            ∨ RenderI420.event_at p_pic p_spu b_crop r c
                = Event.store ((r * W + c : Nat) : Int) (luma_offset p_pic p_spu r c)) := by
  obtain ⟨px, hrun, -, -⟩ := RenderI420_run fuel p_vout p_pic p_spu b_crop W H hW hH hp hfW hfH
  obtain ⟨st1, hloop, hsrc, -, -, -⟩ :=
    loop_y_run p_spu.p_sys.p_data b_crop (RenderI420.pixel_base p_pic p_spu)
      (RenderI420.window p_pic p_spu) W (p_pic.p Y_PLANE).i_pitch hp fuel hfW H fuel
      ⟨(p_pic.p Y_PLANE).p_pixels, 0, []⟩ hfH
  have hloop2 : RenderI420.loop_y p_spu.p_sys.p_data b_crop (RenderI420.pixel_base p_pic p_spu)
      (RenderI420.window p_pic p_spu) p_spu.i_width (p_pic.p Y_PLANE).i_pitch fuel fuel
      (p_spu.i_height * (p_pic.p Y_PLANE).i_pitch) ⟨(p_pic.p Y_PLANE).p_pixels, 0, []⟩
      = some st1 := by
    rw [hW, hH, mul_comm]; exact hloop
  have hres : RenderI420 fuel p_vout p_pic p_spu b_crop
      = some ⟨p_pic.setPixels Y_PLANE st1.pixels, st1.log⟩ := by
    unfold RenderI420
    dsimp only
    rw [hloop2]
  have hlog : st1.log = (List.range H).flatMap (fun r : Nat => (List.range W).map (fun c : Nat =>
      RenderI420.event_at p_pic p_spu b_crop r c)) := by
    rw [hres] at hrun
    injection hrun with hrun
    injection hrun
  refine ⟨_, hrun, ?_, ?_, ⟨st1, hloop2, hlog, ?_⟩, ?_⟩
  · dsimp only
    rw [flatMap_range_map_length, Nat.mul_comm]
  · apply outcome_no_err
    intro e he m
    dsimp only at he
    rw [List.mem_flatMap] at he
    obtain ⟨r, -, he⟩ := he
    rw [List.mem_map] at he
    obtain ⟨c, -, rfl⟩ := he
    rcases event_at_cases p_pic p_spu b_crop r c with h | h | h
    · rw [h.1]; exact Event.noConfusion
    · rw [h]; exact Event.noConfusion
    · rw [h]; exact Event.noConfusion
  · rw [hsrc]; dsimp only; ring
  · intro r c hr hc
    refine ⟨flatMap_range_map_getElem
      (fun r c : Nat => RenderI420.event_at p_pic p_spu b_crop r c) W H r c hr hc, ?_⟩
    have := event_at_cases p_pic p_spu b_crop r c
    rw [hW, hH] at this
    push_cast
    exact this

/-- C23 on a 4x3 overlay (4 columns, 3 lines) with crop enabled and the crop box of columns
1..2, lines 1..1, over a plane of pitch 8. -/
theorem C23_I420_streams_witness :
    ∃ res, RenderI420 4 example_vout (filled_picture 8 0) (solid_spu 4 3 1 2 1 1) true = some res
      ∧ res.log.length = 4 * 3
      ∧ outcome res.log = Outcome.Ok
      ∧ (∃ st, RenderI420.loop_y (solid_spu 4 3 1 2 1 1).p_sys.p_data true
            (RenderI420.pixel_base (filled_picture 8 0) (solid_spu 4 3 1 2 1 1))
            (RenderI420.window (filled_picture 8 0) (solid_spu 4 3 1 2 1 1))
            (solid_spu 4 3 1 2 1 1).i_width ((filled_picture 8 0).p Y_PLANE).i_pitch 4 4
            ((solid_spu 4 3 1 2 1 1).i_height * ((filled_picture 8 0).p Y_PLANE).i_pitch)
            ⟨((filled_picture 8 0).p Y_PLANE).p_pixels, 0, []⟩
            = some st
          ∧ st.log = res.log ∧ st.p_source = ((4 : Nat) : Int) * (3 : Nat))
      ∧ ∀ r c : Nat, r < 3 → c < 4 →
          res.log[r * 4 + c]?
            = some (RenderI420.event_at (filled_picture 8 0) (solid_spu 4 3 1 2 1 1) true r c)
          ∧ ((RenderI420.event_at (filled_picture 8 0) (solid_spu 4 3 1 2 1 1) true r c
                = Event.skip (((4 : Nat) : Int) - c)
                    (((filled_picture 8 0).p Y_PLANE).i_pitch * (((3 : Nat) : Int) - r))
              ∧ true = true ∧ ¬ in_crop_box (solid_spu 4 3 1 2 1 1).p_sys r c)
            ∨ RenderI420.event_at (filled_picture 8 0) (solid_spu 4 3 1 2 1 1) true r c
                = Event.transparent ((r * 4 + c : Nat) : Int)
            ∨ RenderI420.event_at (filled_picture 8 0) (solid_spu 4 3 1 2 1 1) true r c
                = Event.store ((r * 4 + c : Nat) : Int)
                    (luma_offset (filled_picture 8 0) (solid_spu 4 3 1 2 1 1) r c)) :=
  C23_I420_streams 4 example_vout (filled_picture 8 0) (solid_spu 4 3 1 2 1 1) true 4 3
    rfl rfl (by decide) (by decide) (by decide)

/-- C24: for every `dest` and `luma` in `0..255` and every alpha in `1..14` the byte the
`switch` of `RenderI420` stores lies between the two inputs,
`min dest luma ≤ blend dest luma alpha ≤ max dest luma`; and blending a sample onto a byte of
equal value leaves the byte as it is, `blend v v alpha = v`. -/
theorem C24_blend_between (dest luma alpha : Nat) (hd : dest < 256) (hl : luma < 256)
    (h1 : 1 ≤ alpha) (h14 : alpha ≤ 14) :
    min dest luma ≤ blend dest luma alpha ∧ blend dest luma alpha ≤ max dest luma
      ∧ ∀ v : Nat, v < 256 → blend v v alpha = v := by
  refine ⟨?_, ?_, ?_⟩
  · rw [blend_mid luma dest alpha hl hd h1 h14]
    interval_cases alpha <;> omega
  · rw [blend_mid luma dest alpha hl hd h1 h14]
    interval_cases alpha <;> omega
  · intro v hv
    rw [blend_mid v v alpha hv hv h1 h14]
    interval_cases alpha <;> omega

/-- C24 at `dest = 100`, `luma = 200`, `alpha = 7`: the blend is 150. -/
theorem C24_blend_between_witness :
    min 100 200 ≤ blend 100 200 7 ∧ blend 100 200 7 ≤ max 100 200
      ∧ ∀ v : Nat, v < 256 → blend v v 7 = v :=
  C24_blend_between 100 200 7 (by decide) (by decide) (by decide) (by decide)

/-- C25: for every overlay (of `W` columns and `H` lines) whose samples all have alpha 0 or 15,
over a luma plane with `0 < i_pitch` and `W ≤ i_pitch`, with crop enabled or not and any crop
box: both calls of `RenderI420` end, and the second call, made on the picture the first call
left, leaves exactly that picture. -/
theorem C25_I420_idempotent (fuel : Nat) (p_vout : vout_thread_t) (p_pic : picture_t)
    (p_spu : subpicture_t) (b_crop : Bool) (W H : Nat)
    (hW : p_spu.i_width = W) (hH : p_spu.i_height = H)
    (hp : 0 < (p_pic.p Y_PLANE).i_pitch) (hWp : (W : Int) ≤ (p_pic.p Y_PLANE).i_pitch)
    (halpha : ∀ k : Int, 0 ≤ k → k < (H : Int) * W →
      (p_spu.p_sys.p_data k).t = 0 ∨ (p_spu.p_sys.p_data k).t = 15)
    (hfW : W ≤ fuel) (hfH : H ≤ fuel) :
    ∃ res1 res2, RenderI420 fuel p_vout p_pic p_spu b_crop = some res1
      ∧ RenderI420 fuel p_vout res1.pic p_spu b_crop = some res2
      ∧ res2.pic = res1.pic := by
  obtain ⟨px, hrun, hframe, hpix⟩ :=
    RenderI420_run fuel p_vout p_pic p_spu b_crop W H hW hH hp hfW hfH
  have hpitch : ((p_pic.setPixels Y_PLANE px).p Y_PLANE).i_pitch = (p_pic.p Y_PLANE).i_pitch := by
    simp [picture_t.setPixels]
  obtain ⟨px2, hrun2, hframe2, hpix2⟩ :=
    RenderI420_run fuel p_vout (p_pic.setPixels Y_PLANE px) p_spu b_crop W H hW hH
      (by rw [hpitch]; exact hp) hfW hfH
  have hpix := hpix hWp
  have hpix2 := hpix2 (by rw [hpitch]; exact hWp)
  simp only [luma_offset_setPixels, setPixels_pixels] at hframe2 hpix2
  have hsame : px2 = px := by
    funext a
    by_cases ha : ∃ r c : Nat, r < H ∧ c < W ∧ a = luma_offset p_pic p_spu r c
    · obtain ⟨r, c, hr, hc, rfl⟩ := ha
      rw [hpix2 r c hr hc]
      by_cases hcr : b_crop = true ∧ ¬ in_crop_box p_spu.p_sys r c
      · rw [if_pos hcr]
      · rw [if_neg hcr, hpix r c hr hc, if_neg hcr]
        apply blend_idem
        apply halpha
        · positivity
        · have : ((r : Int) + 1) * W ≤ (H : Int) * W :=
            mul_le_mul_of_nonneg_right (by omega) (Int.ofNat_nonneg W)
          have e : ((r : Int) + 1) * W = r * W + W := by ring
          omega
    · apply hframe2 a
      intro r c hr hc heq
      exact ha ⟨r, c, hr, hc, heq⟩
  refine ⟨_, _, hrun, hrun2, ?_⟩
  dsimp only
  rw [hsame, setPixels_setPixels]

/-- C25 on end-to-end example B (a 4x4 checkerboard of alpha 0 and alpha 15) over a zero-filled
plane of pitch 4. -/
theorem C25_I420_idempotent_witness :
    ∃ res1 res2, RenderI420 4 example_vout (filled_picture 4 0) exampleB_spu false = some res1
      ∧ RenderI420 4 example_vout res1.pic exampleB_spu false = some res2
      ∧ res2.pic = res1.pic :=
  C25_I420_idempotent 4 example_vout (filled_picture 4 0) exampleB_spu false 4 4 rfl rfl
    (by decide) (by decide)
    (fun k _ _ => by
      show (if (k / 4 + k % 4) % 2 = 0 then 0 else 15) = 0
        ∨ (if (k / 4 + k % 4) % 2 = 0 then 0 else 15) = 15
      split
      · exact Or.inl rfl
      · exact Or.inr rfl)
    (le_refl _) (le_refl _)

end OGT
